import Mathlib

/-!
# Flaschen-Taschen UDP client canvas and server ingest loop

A shallow embedding of `api/lib/udp-flaschen-taschen.cc` (the client-side canvas
`UDPFlaschenTaschen` with its chunked `Send`, and the endpoint selection of
`OpenFlaschenTaschenSocket`) and of the receive loop of `server/udp-server.cc`
(`udp_server_run_blocking`). The decoder `ReadImageData` and the types `Color` and
`ImageMetaInfo` live outside these two files and are modelled from the specification.

Conventions of the embedding:

* C `int` values are `Int`; a result that C stores back into an `int` after unsigned
  arithmetic goes through `toInt`, the two's complement reading of the low 32 bits.
* C `size_t` values are `Nat`; arithmetic carried out in `size_t` goes through `toSizeT`,
  reduction modulo `2 ^ 64` (the sources target a 64-bit platform).
* The program is taken to run on a two's complement machine whose `int` arithmetic wraps
  around. The offset sums `off_y_ + tile_offset` of `Send` and `x + offset_x`,
  `y + offset_y` of the receive loop, and the byte count `width_ * height_ * 3` of the copy
  constructor go through `toInt` for this. The other `int` operations are embedded as exact
  integer arithmetic, which is what the program computes whenever they do not overflow.
* The pixel buffer is the list of its `width_ * height_` cells in index order.
-/

namespace FlaschenTaschen

/-! ## Machine integers -/

/-- Number of values of a `size_t`. -/
def sizeModulus : Nat := 2 ^ 64

/-- Conversion of an integer value to `size_t`: reduction modulo `2 ^ 64`. -/
def toSizeT (i : Int) : Nat := (i % (sizeModulus : Int)).toNat

/-- Conversion of an integer value to a 32-bit `int`: the low 32 bits, read as two's
complement. -/
def toInt (i : Int) : Int := (i + 2 ^ 31) % 2 ^ 32 - 2 ^ 31

/-- The values a C `int` can hold. -/
def IsInt (i : Int) : Prop := -(2 ^ 31) ≤ i ∧ i < 2 ^ 31

instance (i : Int) : Decidable (IsInt i) := by unfold IsInt; infer_instance

/-! ## Data model -/

/-- Modelled from the spec: the `Color` type, declared in a header outside the sources:
three unsigned 8-bit channels r, g, b, stored without padding. -/
structure Color where
  r : UInt8
  g : UInt8
  b : UInt8
deriving DecidableEq, Repr

/-- Modelled from the spec: `Color::is_black`, the zero check of the three channels. -/
def Color.is_black (c : Color) : Bool := c.r == 0 && c.g == 0 && c.b == 0

/-- The all-zero colour that `bzero` leaves in a cell. -/
def Color.black : Color := ⟨0, 0, 0⟩

/-- The three bytes a `Color` occupies in memory, in address order. -/
def Color.bytes (c : Color) : List UInt8 := [c.r, c.g, c.b]

/-- The fields of `class UDPFlaschenTaschen`. -/
structure UDPFlaschenTaschen where
  fd_ : Int
  width_ : Int
  height_ : Int
  pixel_buffer_ : List Color
  max_udp_size_ : Nat
  off_x_ : Int
  off_y_ : Int
  off_z_ : Int
deriving DecidableEq, Repr

/-- `static const int kFlaschenTaschenHeaderReserve = 64`. -/
def kFlaschenTaschenHeaderReserve : Int := 64

namespace UDPFlaschenTaschen

/-- `UDPFlaschenTaschen::SetMaxUDPPacketSize`: the returned flag and the canvas afterwards.
`packet_size - kFlaschenTaschenHeaderReserve` is evaluated in `size_t`, hence `toSizeT`.
(For `width_ = 0` the C division traps; the embedding is meant for `width_ > 0`.) -/
def SetMaxUDPPacketSize (c : UDPFlaschenTaschen) (packet_size : Nat) :
    Bool × UDPFlaschenTaschen :=
  if packet_size > 65507 then (false, c)
  else
    let row_size : Nat := toSizeT (3 * c.width_)
    if toSizeT ((packet_size : Int) - kFlaschenTaschenHeaderReserve) / row_size = 0 then
      (false, c)
    else (true, { c with max_udp_size_ := packet_size })

/-- `UDPFlaschenTaschen::Clear`: `bzero` over the `width_ * height_` cells. -/
def Clear (c : UDPFlaschenTaschen) : UDPFlaschenTaschen :=
  { c with pixel_buffer_ := List.replicate (c.width_ * c.height_).toNat Color.black }

/-- `UDPFlaschenTaschen::Fill`. -/
def Fill (c : UDPFlaschenTaschen) (col : Color) : UDPFlaschenTaschen :=
  if col.is_black then c.Clear
  else { c with pixel_buffer_ := List.replicate (c.width_ * c.height_).toNat col }

/-- `UDPFlaschenTaschen::SetOffset`. -/
def SetOffset (c : UDPFlaschenTaschen) (off_x off_y off_z : Int) : UDPFlaschenTaschen :=
  { c with off_x_ := off_x, off_y_ := off_y, off_z_ := off_z }

/-- The constructor `UDPFlaschenTaschen(socket, width, height, max_udp_size)`.
`ft_udp_size` is `atoi(getenv("FT_UDP_SIZE"))` when that variable is set. -/
def new (socket width height : Int) (max_udp_size : Nat) (ft_udp_size : Option Int) :
    UDPFlaschenTaschen :=
  let c0 : UDPFlaschenTaschen :=
    { fd_ := socket, width_ := width, height_ := height,
      pixel_buffer_ := List.replicate (width * height).toNat Color.black,
      max_udp_size_ := 8192, off_x_ := 0, off_y_ := 0, off_z_ := 0 }
  let c1 := if max_udp_size > 0 then (c0.SetMaxUDPPacketSize max_udp_size).2 else c0
  let c2 := match ft_udp_size with
    | some v => (c1.SetMaxUDPPacketSize (toSizeT v)).2
    | none => c1
  (c2.SetOffset 0 0 0).Clear

/-- `UDPFlaschenTaschen::SetPixel`. -/
def SetPixel (c : UDPFlaschenTaschen) (x y : Int) (col : Color) : UDPFlaschenTaschen :=
  if x < 0 ∨ x ≥ c.width_ ∨ y < 0 ∨ y ≥ c.height_ then c
  else { c with pixel_buffer_ := c.pixel_buffer_.set (x + y * c.width_).toNat col }

/-- The index `UDPFlaschenTaschen::GetPixel` computes; `%` on C `int`s truncates towards
zero, which is `Int.tmod`. -/
def getPixelIndex (c : UDPFlaschenTaschen) (x y : Int) : Int :=
  Int.tmod x c.width_ + Int.tmod y c.height_ * c.width_

/-- `UDPFlaschenTaschen::GetPixel`: the cell at the computed index, `none` when the index
lies outside the buffer (where the C code reads memory it does not own). -/
def GetPixel (c : UDPFlaschenTaschen) (x y : Int) : Option Color :=
  let i := c.getPixelIndex x y
  if 0 ≤ i then c.pixel_buffer_.get? i.toNat else none

/-! ## The wire header -/

/-- The characters `printf` produces for `%d`. -/
def fmtInt (i : Int) : List Char :=
  if i < 0 then '-' :: (Nat.toDigits 10 i.natAbs) else Nat.toDigits 10 i.natAbs

/-- The characters of the format `"P6\n%d %d\n#FT: %d %d %d\n255\n"` applied to five `int`s. -/
def headerText (w h ox oy oz : Int) : List Char :=
  "P6\n".toList ++ fmtInt w ++ " ".toList ++ fmtInt h ++ "\n#FT: ".toList ++ fmtInt ox ++
    " ".toList ++ fmtInt oy ++ " ".toList ++ fmtInt oz ++ "\n255\n".toList

/-- The bytes of ASCII text. -/
def asciiBytes (s : List Char) : List UInt8 := s.map (fun ch => ch.toNat.toUInt8)

/-- What `iov[0]` covers after `snprintf(header_buffer, 64, ...)` returned `header_len`:
`snprintf` stores at most 63 characters and a terminating NUL, and returns the length of the
untruncated text; `iov[0]` then spans `header_len` bytes of the 64-byte buffer. The result
is `none` when that span runs past the end of `header_buffer`. -/
def headerIov (text : List UInt8) : Option (List UInt8) :=
  if text.length ≤ 64 then some ((text.take 63 ++ [0]).take text.length) else none

/-! ## Send -/

/-- Outcome of one `writev` call: success, `-1` with `EAGAIN`/`EWOULDBLOCK`, or `-1` with
another `errno`. -/
inductive WriteResult where
  | ok
  | again
  | error
deriving DecidableEq, Repr

/-- One `writev(fd, iov, 2)` call of `Send`, with the loop variables it was made from. -/
structure WriteCall where
  send_h : Int
  tile_offset : Int
  iov0 : List UInt8
  iov1 : List UInt8
  result : WriteResult
deriving DecidableEq, Repr

/-- The bytes handed to the socket by one call: header segment, then pixel segment. -/
def WriteCall.datagram (w : WriteCall) : List UInt8 := w.iov0 ++ w.iov1

/-- How a run of `Send` ended: `finished` when the loop left with no rows remaining,
`aborted` at the `break` after a write failed with another `errno`, `assertFailed` when
`assert(max_send_height > 0)` failed, `headerOverrun` when `header_len` exceeded the header
buffer so that `iov[0]` would span memory past it, `outOfFuel` when the iterations granted
to the run were used up with rows remaining. -/
inductive SendStatus where
  | finished
  | aborted
  | assertFailed
  | headerOverrun
  | outOfFuel
deriving DecidableEq, Repr

/-- The pixel buffer seen through `(char *)pixel_buffer_`. -/
def bufferBytes (c : UDPFlaschenTaschen) : List UInt8 :=
  c.pixel_buffer_.flatMap Color.bytes

/-- `kMaxDataLen` of `Send`: the subtraction is done in `size_t`, the result stored in an
`int`. -/
def kMaxDataLen (c : UDPFlaschenTaschen) : Int :=
  toInt (toSizeT (((min c.max_udp_size_ 8192 : Nat) : Int) - kFlaschenTaschenHeaderReserve))

/-- `row_size` of `Send` and of `SetMaxUDPPacketSize`. -/
def row_size (c : UDPFlaschenTaschen) : Nat := toSizeT (3 * c.width_)

/-- `max_send_height` of `Send`: `kMaxDataLen` is converted to `size_t` for the division and
the quotient is stored in an `int`. -/
def max_send_height (c : UDPFlaschenTaschen) : Int :=
  toInt ((toSizeT c.kMaxDataLen / c.row_size : Nat) : Int)

/-- The `while (rows > 0)` loop of `Send`. `outcome n` is the result of the `n`-th `writev`
call; `send_buffer` is the byte offset of the data pointer into the pixel buffer. Every
iteration uses one unit of fuel. The header argument `off_y_ + tile_offset` is a sum of two
`int`s, hence `toInt`. -/
def sendLoop (c : UDPFlaschenTaschen) (outcome : Nat → WriteResult) :
    Nat → Nat → Int → Int → Nat → List WriteCall × SendStatus
  | 0, _, rows, _, _ => if rows > 0 then ([], SendStatus.outOfFuel) else ([], SendStatus.finished)
  | fuel + 1, n, rows, tile_offset, send_buffer =>
    if rows > 0 then
      let send_h := min rows c.max_send_height
      match headerIov (asciiBytes
          (headerText c.width_ send_h c.off_x_ (toInt (c.off_y_ + tile_offset)) c.off_z_)) with
      | none => ([], SendStatus.headerOverrun)
      | some iov0 =>
        let iov1_len := toSizeT (send_h * c.row_size)
        let call : WriteCall :=
          { send_h := send_h, tile_offset := tile_offset, iov0 := iov0,
            iov1 := (c.bufferBytes.drop send_buffer).take iov1_len, result := outcome n }
        match outcome n with
        | WriteResult.error => ([call], SendStatus.aborted)
        | WriteResult.again =>
          let r := sendLoop c outcome fuel (n + 1) rows tile_offset send_buffer
          (call :: r.1, r.2)
        | WriteResult.ok =>
          let r := sendLoop c outcome fuel (n + 1) (rows - send_h) (tile_offset + send_h)
            (send_buffer + iov1_len)
          (call :: r.1, r.2)
    else ([], SendStatus.finished)

/-- `UDPFlaschenTaschen::Send`: the `writev` calls made, in order, and how the run ended.
The descriptor argument only names the socket the calls go to and is left out. -/
def Send (c : UDPFlaschenTaschen) (outcome : Nat → WriteResult) (fuel : Nat) :
    List WriteCall × SendStatus :=
  if c.max_send_height > 0 then sendLoop c outcome fuel 0 c.height_ 0 0
  else ([], SendStatus.assertFailed)

/-- The datagrams that reached the network: the calls that succeeded. -/
def emitted (run : List WriteCall × SendStatus) : List (List UInt8) :=
  (run.1.filter (fun w => w.result = WriteResult.ok)).map WriteCall.datagram

/-- Every write succeeds. -/
def allOk : Nat → WriteResult := fun _ => WriteResult.ok

end UDPFlaschenTaschen

/-! ## Server ingest loop: dispatch of one decoded datagram -/

/-- Modelled from the spec: `ImageMetaInfo`, declared in a header outside the sources: the
decoded width and height of the region, the target layer and the placement offset. -/
structure ImageMetaInfo where
  width : Int
  height : Int
  offset_x : Int
  offset_y : Int
  layer : Int
deriving DecidableEq, Repr

/-- The arguments of one `display->SetPixel(x, y, c)` call. -/
structure PixelWrite where
  x : Int
  y : Int
  c : Color
deriving DecidableEq, Repr

/-- The operations the ingest loop performs on the mutex and on the display. -/
inductive DisplayOp where
  | Lock
  | SetLayer (layer : Int)
  | SetPixel (w : PixelWrite)
  | Send
  | Unlock
deriving DecidableEq, Repr

/-- The byte `*pixel_pos`, read from the content `packet` of `packet_buffer`. The buffer
holds the received bytes followed by what earlier datagrams left behind them. A position
behind the end of the array, which is memory the loop does not own, reads as zero. -/
def byteAt (packet : List UInt8) (pixel_pos : Nat) : UInt8 := packet.getD pixel_pos 0

/-- The three reads `c.r = *pixel_pos++; c.g = *pixel_pos++; c.b = *pixel_pos++`. -/
def colorAt (packet : List UInt8) (pixel_pos : Nat) : Color :=
  ⟨byteAt packet pixel_pos, byteAt packet (pixel_pos + 1), byteAt packet (pixel_pos + 2)⟩

/-- The inner loop `for (int x = ...; x < img_info.width; ++x)` with `n` iterations left to
run, starting at column `x`: the `SetPixel` calls made and the final `pixel_pos`. The
arguments `x + img_info.offset_x` and `y + img_info.offset_y` are sums of two `int`s, hence
`toInt`. -/
def drawRow (info : ImageMetaInfo) (packet : List UInt8) (y : Int) :
    Nat → Int → Nat → List PixelWrite × Nat
  | 0, _, pixel_pos => ([], pixel_pos)
  | n + 1, x, pixel_pos =>
    let r := drawRow info packet y n (x + 1) (pixel_pos + 3)
    (⟨toInt (x + info.offset_x), toInt (y + info.offset_y), colorAt packet pixel_pos⟩ :: r.1,
      r.2)

/-- The outer loop `for (int y = ...; y < img_info.height; ++y)` with `m` iterations left to
run, starting at row `y`. -/
def drawRows (info : ImageMetaInfo) (packet : List UInt8) :
    Nat → Int → Nat → List PixelWrite × Nat
  | 0, _, pixel_pos => ([], pixel_pos)
  | m + 1, y, pixel_pos =>
    let row := drawRow info packet y info.width.toNat 0 pixel_pos
    let r := drawRows info packet m (y + 1) row.2
    (row.1 ++ r.1, r.2)

/-- The draw step of `udp_server_run_blocking`: all `SetPixel` calls for one decoded
datagram whose pixel data starts at `pixel_pos`. -/
def drawStep (info : ImageMetaInfo) (packet : List UInt8) (pixel_pos : Nat) : List PixelWrite :=
  (drawRows info packet info.height.toNat 0 pixel_pos).1

/-- One iteration of the receive loop after `recvmsg` succeeded; `decoded` is what
`ReadImageData` returned: `none` for a null pointer, otherwise the metadata it filled in
and the position of the pixel data in the buffer; `packet` is the content of
`packet_buffer`, from which the pixel bytes are read. -/
def ingest (decoded : Option (ImageMetaInfo × Nat)) (packet : List UInt8) : List DisplayOp :=
  match decoded with
  | none => []
  | some (info, pixel_pos) =>
    [DisplayOp.Lock, DisplayOp.SetLayer info.layer] ++
      (drawStep info packet pixel_pos).map DisplayOp.SetPixel ++
      [DisplayOp.Send, DisplayOp.SetLayer 0, DisplayOp.Unlock]

/-- Modelled from the spec: the destination surface as far as the draw step uses it: a grid
of `width` by `height` cells whose write-pixel operation clips, that is, discards writes
outside the grid. The dimensions are what `width()` and `height()` return, which are
`int`s. -/
structure Surface where
  width : Int
  height : Int
  cell : Int → Int → Color
  width_isInt : IsInt width
  height_isInt : IsInt height

/-- Whether a position lies on the surface. -/
def Surface.Has (s : Surface) (x y : Int) : Prop := 0 ≤ x ∧ x < s.width ∧ 0 ≤ y ∧ y < s.height

instance (s : Surface) (x y : Int) : Decidable (s.Has x y) := by
  unfold Surface.Has; infer_instance

/-- Modelled from the spec: write-pixel with clipping. -/
def Surface.SetPixel (s : Surface) (w : PixelWrite) : Surface :=
  if s.Has w.x w.y then
    { s with cell := fun x y => if x = w.x ∧ y = w.y then w.c else s.cell x y }
  else s

/-- A sequence of pixel writes applied in order. -/
def Surface.draw (s : Surface) (ws : List PixelWrite) : Surface := ws.foldl Surface.SetPixel s

/-- What a frame sent by `Send` declares in its header, as decoded metadata; the vertical
offset is the `int` sum `off_y_ + tile_offset` that `Send` printed. -/
def frameInfo (c : UDPFlaschenTaschen) (w : UDPFlaschenTaschen.WriteCall) : ImageMetaInfo :=
  { width := c.width_, height := w.send_h, offset_x := c.off_x_,
    offset_y := toInt (c.off_y_ + w.tile_offset), layer := c.off_z_ }

/-- The draw step applied to one frame of `Send`: the pixel data starts right after the
header segment of the datagram. -/
def frameWrites (c : UDPFlaschenTaschen) (w : UDPFlaschenTaschen.WriteCall) : List PixelWrite :=
  drawStep (frameInfo c w) w.datagram w.iov0.length

/-- The surface after the draw steps of a sequence of delivered frames. -/
def deliver (c : UDPFlaschenTaschen) (s : Surface)
    (frames : List UDPFlaschenTaschen.WriteCall) : Surface :=
  frames.foldl (fun s w => s.draw (frameWrites c w)) s

/-! ## Well-formed canvases and the contents of a chunk -/

/-- What the types and the constructor guarantee of a canvas: the fields declared `int`
hold `int` values, the cell count `width_ * height_` computed by `new Color[...]` is an
`int` too, and the buffer has exactly that many cells. -/
def UDPFlaschenTaschen.Valid (c : UDPFlaschenTaschen) : Prop :=
  IsInt c.width_ ∧ IsInt c.height_ ∧ IsInt (c.width_ * c.height_) ∧
    IsInt c.off_x_ ∧ IsInt c.off_y_ ∧ IsInt c.off_z_ ∧
    c.pixel_buffer_.length = (c.width_ * c.height_).toNat

instance (c : UDPFlaschenTaschen) : Decidable c.Valid := by
  unfold UDPFlaschenTaschen.Valid; infer_instance

/-- The cells of the buffer rows `T .. T + h - 1`, in row-major order. -/
def UDPFlaschenTaschen.rowCells (c : UDPFlaschenTaschen) (T h : Int) : List Color :=
  (c.pixel_buffer_.drop (T * c.width_).toNat).take (h * c.width_).toNat

/-- The bytes of the buffer rows `T .. T + h - 1`: row-major, each cell as r, g, b. -/
def UDPFlaschenTaschen.rowBytes (c : UDPFlaschenTaschen) (T h : Int) : List UInt8 :=
  (c.rowCells T h).flatMap Color.bytes

/-- What a `writev` call of `Send` on canvas `c` is expected to carry: a chunk of
`send_h >= 1` rows starting at row `tile_offset` inside the canvas, the untruncated header
for it (with the `int` sum `off_y_ + tile_offset`), and the bytes of exactly those rows. -/
def UDPFlaschenTaschen.FrameOf (c : UDPFlaschenTaschen) (w : UDPFlaschenTaschen.WriteCall) :
    Prop :=
  1 ≤ w.send_h ∧ 0 ≤ w.tile_offset ∧ w.tile_offset + w.send_h ≤ c.height_ ∧
    w.iov0 = UDPFlaschenTaschen.asciiBytes (UDPFlaschenTaschen.headerText c.width_ w.send_h
      c.off_x_ (toInt (c.off_y_ + w.tile_offset)) c.off_z_) ∧
    w.iov1 = c.rowBytes w.tile_offset w.send_h

/-- Modelled from the spec: `rowsPerChunk = floor((min(configuredMax, 8192) - 64) / (3 * W))`,
over the integers. -/
def UDPFlaschenTaschen.rowsPerChunk (c : UDPFlaschenTaschen) : Int :=
  (((min c.max_udp_size_ 8192 : Nat) : Int) - 64) / (3 * c.width_)

/-- Modelled from the spec: the number of frames of one transmission, `ceil(H / R)`. -/
def UDPFlaschenTaschen.chunkCount (c : UDPFlaschenTaschen) (R : Int) : Nat :=
  ((c.height_ + R - 1) / R).toNat

/-- Modelled from the spec: the `k`-th frame (from 0) of a transmission with `R` rows per
chunk: tile offset `k * R`, chunk height `min(R, H - k * R)`, the header for these (its
vertical offset being the `int` sum of `off_y_` and the tile offset) and the bytes of these
rows, written successfully. -/
def UDPFlaschenTaschen.chunk (c : UDPFlaschenTaschen) (R : Int) (k : Nat) :
    UDPFlaschenTaschen.WriteCall :=
  { send_h := min R (c.height_ - k * R), tile_offset := k * R,
    iov0 := UDPFlaschenTaschen.asciiBytes (UDPFlaschenTaschen.headerText c.width_
      (min R (c.height_ - k * R)) c.off_x_ (toInt (c.off_y_ + k * R)) c.off_z_),
    iov1 := c.rowBytes (k * R) (min R (c.height_ - k * R)),
    result := UDPFlaschenTaschen.WriteResult.ok }

/-! ## Reassembly of a transmission on a surface -/

/-- Whether the rectangle a frame declares contains the surface position `(X, Y)`: columns
`offX .. offX + W - 1`, rows `offY + T .. offY + T + h - 1`. -/
def frameCovers (c : UDPFlaschenTaschen) (f : UDPFlaschenTaschen.WriteCall) (X Y : Int) : Prop :=
  c.off_x_ ≤ X ∧ X < c.off_x_ + c.width_ ∧
    c.off_y_ + f.tile_offset ≤ Y ∧ Y < c.off_y_ + f.tile_offset + f.send_h

instance (c : UDPFlaschenTaschen) (f : UDPFlaschenTaschen.WriteCall) (X Y : Int) :
    Decidable (frameCovers c f X Y) := by
  unfold frameCovers; infer_instance

/-- Pixel `(x, y)` of a frame, read from its datagram the way the draw step reads it: three
bytes at offset `3 * (y * W + x)` behind the header. -/
def framePixel (c : UDPFlaschenTaschen) (f : UDPFlaschenTaschen.WriteCall) (x y : Int) : Color :=
  colorAt f.datagram (f.iov0.length + 3 * (y * c.width_ + x).toNat)

/-- The canvas cell that is shown at surface position `(X, Y)` under the canvas offset. -/
def canvasAt (c : UDPFlaschenTaschen) (X Y : Int) : Color :=
  c.pixel_buffer_.getD ((Y - c.off_y_) * c.width_ + (X - c.off_x_)).toNat Color.black

/-! ## Server ingest loop: the receive loop -/

/-- What one `recvmsg` call met: a datagram that arrived, `-1` with `EINTR`, or `-1` with
another `errno`. -/
inductive RecvResult where
  | datagram (packet : List UInt8)
  | eintr
  | failed
deriving DecidableEq, Repr

/-- One pass through the head of the receive loop: the value of `interrupt_received` at the
loop test and what `recvmsg` returned after it. -/
structure Arrival where
  interrupt_received : Bool
  recv : RecvResult
deriving DecidableEq, Repr

/-- The metadata the loop hands to `ReadImageData`: zeroed, then width and height set to
those of the display. -/
def initialInfo (width height : Int) : ImageMetaInfo :=
  { width := width, height := height, offset_x := 0, offset_y := 0, layer := 0 }

/-- A successful `recvmsg(server_socket, &msg, 0)` whose only `iovec` is `packet_buffer`:
the bytes of the datagram, cut to the size of the buffer, overwrite the start of the buffer,
and what earlier datagrams left behind them stays. The result is the buffer afterwards and
the return value `received_bytes`. -/
def recvmsg (packet_buffer datagram : List UInt8) : List UInt8 × Nat :=
  let received_bytes := min datagram.length packet_buffer.length
  (datagram.take received_bytes ++ packet_buffer.drop received_bytes, received_bytes)

/-- The `while (!interrupt_received)` loop of `udp_server_run_blocking`, run over a sequence
of arrivals: the operations it performs on the mutex and the display, in order.
`packet_buffer` is the content of `static char packet_buffer[65535]` when the loop test is
reached (65535 zero bytes when the function is entered for the first time); the buffer is
never cleared, every datagram is received into it. `ReadImageData` is the decoder, which
lives outside the sources and is handed the buffer with the length `received_bytes`, that
is, the received bytes; `width` and `height` are what `display->width()` and
`display->height()` return. -/
def udp_server_run_blocking
    (ReadImageData : List UInt8 → ImageMetaInfo → Option (ImageMetaInfo × Nat))
    (width height : Int) : List UInt8 → List Arrival → List DisplayOp
  | _, [] => []
  | packet_buffer, a :: rest =>
    if a.interrupt_received then []
    else
      match a.recv with
      | RecvResult.failed => []
      | RecvResult.eintr => udp_server_run_blocking ReadImageData width height packet_buffer rest
      | RecvResult.datagram datagram =>
        let r := recvmsg packet_buffer datagram
        ingest (ReadImageData (r.1.take r.2) (initialInfo width height)) r.1 ++
          udp_server_run_blocking ReadImageData width height r.1 rest

/-- An observer of the lock discipline: whether the lock is held, the active layer, whether
pixels were written since the last flush, and whether every operation so far was allowed.
`Lock` is allowed when the lock is free; `SetLayer`, `SetPixel` and `Send` are allowed while
it is held; `Unlock` is allowed while it is held, with all pixel writes flushed and the
active layer 0. -/
structure LockMonitor where
  held : Bool
  layer : Int
  unflushed : Bool
  ok : Bool
deriving DecidableEq, Repr

/-- The observer after one operation. -/
def LockMonitor.step (m : LockMonitor) : DisplayOp → LockMonitor
  | DisplayOp.Lock => { m with held := true, ok := m.ok && !m.held }
  | DisplayOp.SetLayer l => { m with layer := l, ok := m.ok && m.held }
  | DisplayOp.SetPixel _ => { m with unflushed := true, ok := m.ok && m.held }
  | DisplayOp.Send => { m with unflushed := false, ok := m.ok && m.held }
  | DisplayOp.Unlock =>
    { m with held := false, ok := m.ok && m.held && !m.unflushed && m.layer == 0 }

/-- The observer after a sequence of operations. -/
def LockMonitor.run (m : LockMonitor) (ops : List DisplayOp) : LockMonitor :=
  ops.foldl LockMonitor.step m

/-- The observer before the loop starts: lock free, some active layer, nothing unflushed. -/
def LockMonitor.idle (layer : Int) : LockMonitor :=
  { held := false, layer := layer, unflushed := false, ok := true }

/-! ## Wire codec: decode -/

/-- The C `isspace` test on a byte: space, tab, newline, vertical tab, form feed, carriage
return. -/
def isSpace (b : UInt8) : Bool := b == 32 || (9 ≤ b && b ≤ 13)

/-- Whether a byte is a decimal digit. -/
def isDigit (b : UInt8) : Bool := 48 ≤ b && b ≤ 57

/-- Skips whitespace. -/
def skipSpaces : List UInt8 → List UInt8
  | [] => []
  | b :: rest => if isSpace b then skipSpaces rest else b :: rest

/-- Skips spaces and tabs, staying on the line. -/
def skipBlanks : List UInt8 → List UInt8
  | [] => []
  | b :: rest => if b == 32 || b == 9 then skipBlanks rest else b :: rest

/-- Consumes a line up to and including its newline. -/
def dropLine : List UInt8 → List UInt8
  | [] => []
  | b :: rest => if b == 10 then rest else dropLine rest

/-- Reads decimal digits into the accumulator `acc`; returns the value and the rest. -/
def readDigits : Nat → List UInt8 → Nat × List UInt8
  | acc, [] => (acc, [])
  | acc, b :: rest =>
    if isDigit b then readDigits (10 * acc + (b.toNat - 48)) rest else (acc, b :: rest)

/-- Reads an unsigned decimal number of at least one digit. -/
def readNat (l : List UInt8) : Option (Nat × List UInt8) :=
  match l with
  | [] => none
  | b :: _ => if isDigit b then some (readDigits 0 l) else none

/-- Reads a decimal number with an optional minus sign. -/
def readInt (l : List UInt8) : Option (Int × List UInt8) :=
  match l with
  | [] => none
  | b :: rest =>
    if b == 45 then (readNat rest).map (fun r => (-(r.1 : Int), r.2))
    else (readNat l).map (fun r => ((r.1 : Int), r.2))

/-- Reads the three numbers of a footer, each after optional blanks. -/
def readOffsets (l : List UInt8) : Option (Int × Int × Int) :=
  match readInt (skipBlanks l) with
  | none => none
  | some (x, r1) =>
    match readInt (skipBlanks r1) with
    | none => none
    | some (y, r2) =>
      match readInt (skipBlanks r2) with
      | none => none
      | some (z, _) => some (x, y, z)

/-- The metadata after a comment line, given from its `#` on: a line that starts with the
footer prefix `#FT:` followed by three numbers sets offset and layer, any other comment
leaves the metadata alone. -/
def readFooter (l : List UInt8) (info : ImageMetaInfo) : ImageMetaInfo :=
  match l with
  | 35 :: 70 :: 84 :: 58 :: rest =>
    match readOffsets rest with
    | some (x, y, z) => { info with offset_x := x, offset_y := y, layer := z }
    | none => info
  | _ => info

/-- Modelled from the spec: `ReadImageData`, the decoder, which lives outside the sources.
The spec's algorithm: parse the whitespace-delimited tokens magic "P6", width, height; then
consume a comment line and, if it carries the footer prefix, take offX, offY and offZ (the
layer) from it; then the maxval token, which has to be 255; the pixel data starts after the
single separator behind maxval, and decoding fails when fewer than `width * height * 3`
bytes follow. The result is the metadata and the position of the pixel data in the buffer,
`none` for a failed decode. `info` is the metadata as the caller prepared it. -/
def ReadImageData (buf : List UInt8) (info : ImageMetaInfo) : Option (ImageMetaInfo × Nat) :=
  match buf with
  | 80 :: 54 :: r0 =>
    match readNat (skipSpaces r0) with
    | none => none
    | some (w, r1) =>
      match readNat (skipSpaces r1) with
      | none => none
      | some (h, r2) =>
        let r3 := skipSpaces r2
        let commented : Bool := r3.head? == some 35
        let info1 := if commented then readFooter r3 info else info
        let r4 := if commented then dropLine r3 else r3
        match readNat (skipSpaces r4) with
        | some (255, sep :: data) =>
          if isSpace sep && decide (w * h * 3 ≤ data.length) then
            some ({ info1 with width := w, height := h }, buf.length - data.length)
          else none
        | _ => none
  | _ => none

/-! ## Fill, clone and endpoint selection -/

/-- Writing `col` into the cells `0 .. n - 1` of a buffer, one cell after the other. -/
def writeCells (col : Color) (buf : List Color) (n : Nat) : List Color :=
  (List.range n).foldl (fun b i => b.set i col) buf

/-- Writing `col` into every cell of the canvas, one cell after the other, in index order:
the reading of "writes every cell" that `Fill` is compared with. -/
def UDPFlaschenTaschen.writeEveryCell (c : UDPFlaschenTaschen) (col : Color) :
    UDPFlaschenTaschen :=
  { c with pixel_buffer_ := writeCells col c.pixel_buffer_ (c.width_ * c.height_).toNat }

/-- The cells that a sequence of bytes holds, three bytes per cell: a `char` array seen as
`Color[]`. -/
def colorsOf : List UInt8 → List Color
  | r :: g :: b :: rest => ⟨r, g, b⟩ :: colorsOf rest
  | _ => []

/-- The byte count `width_ * height_ * 3` that the copy constructor hands to `memcpy`: both
products are `int` products, hence `toInt`, and the result is converted to the `size_t`
parameter of `memcpy`. -/
def UDPFlaschenTaschen.copySize (other : UDPFlaschenTaschen) : Nat :=
  toSizeT (toInt (toInt (other.width_ * other.height_) * 3))

/-- The copy constructor `UDPFlaschenTaschen(const UDPFlaschenTaschen &other)`: the members
are copied, a buffer of `width_ * height_` cells is allocated, whose content after
`new Color[...]` is `fresh`, the offsets are set with `SetOffset`, and `memcpy` copies
`copySize` bytes from the start of the other buffer to the start of the new one. The result
is `none` when that count is larger than the arrays, so that `memcpy` runs past their
end. -/
def UDPFlaschenTaschen.copy (other : UDPFlaschenTaschen) (fresh : List Color) :
    Option UDPFlaschenTaschen :=
  let c0 : UDPFlaschenTaschen :=
    { fd_ := other.fd_, width_ := other.width_, height_ := other.height_,
      pixel_buffer_ := fresh, max_udp_size_ := other.max_udp_size_,
      off_x_ := 0, off_y_ := 0, off_z_ := 0 }
  let c1 := c0.SetOffset other.off_x_ other.off_y_ other.off_z_
  if other.copySize ≤ 3 * (other.width_ * other.height_).toNat then
    some { c1 with pixel_buffer_ := colorsOf (other.bufferBytes.take other.copySize ++
      c1.bufferBytes.drop other.copySize) }
  else none

/-- `UDPFlaschenTaschen::Clone`: the new canvas, if the copy constructor completes, and the
canvas it was called on, which the `const` method leaves as it is. -/
def UDPFlaschenTaschen.Clone (c : UDPFlaschenTaschen) (fresh : List Color) :
    Option UDPFlaschenTaschen × UDPFlaschenTaschen :=
  (c.copy fresh, c)

/-- `#define DEFAULT_FT_DISPLAY_HOST "ft.noise"`. -/
def DEFAULT_FT_DISPLAY_HOST : List Char := "ft.noise".toList

/-- The address families a lookup can ask for. -/
inductive AddressFamily where
  | AF_UNSPEC
  | AF_INET
  | AF_INET6
deriving DecidableEq, Repr

/-- The socket types a lookup can ask for. -/
inductive SocketType where
  | SOCK_STREAM
  | SOCK_DGRAM
deriving DecidableEq, Repr

/-- The arguments of the `getaddrinfo(host, port, &addr_hints, ...)` call. -/
structure AddrQuery where
  host : List Char
  port : List Char
  ai_family : AddressFamily
  ai_socktype : SocketType
deriving DecidableEq, Repr

/-- The C library function `strchr(s, ch)`: the offset of the first `ch` in `s`, `none` for
a null result. -/
def strchr (s : List Char) (ch : Char) : Option Nat :=
  if s.indexOf ch < s.length then some (s.indexOf ch) else none

/-- `OpenFlaschenTaschenSocket` up to its `getaddrinfo` call: the lookup it asks for.
`host` is the argument (`none` for `NULL`), `ft_display` is `getenv("FT_DISPLAY")`. The
socket calls that follow the lookup are not part of the embedding. -/
def OpenFlaschenTaschenSocket (host : Option (List Char)) (ft_display : Option (List Char)) :
    AddrQuery :=
  let host1 : Option (List Char) := match host with
    | none => ft_display
    | some h => some h
  let host2 : List Char := match host1 with
    | none => DEFAULT_FT_DISPLAY_HOST
    | some h => if h.length = 0 then DEFAULT_FT_DISPLAY_HOST else h
  match strchr host2 ':' with
  | some colon_pos =>
    { host := host2.take colon_pos, port := host2.drop (colon_pos + 1),
      ai_family := AddressFamily.AF_INET6, ai_socktype := SocketType.SOCK_DGRAM }
  | none =>
    { host := host2, port := "1337".toList,
      ai_family := AddressFamily.AF_INET6, ai_socktype := SocketType.SOCK_DGRAM }

/-! ## A transmission against write outcomes -/

/-- The transmission as the claims describe it, chunk by chunk: entered at chunk `k` with
the `n`-th write next. A successful write moves on to chunk `k + 1`, a would-block outcome
writes chunk `k` again, any other error stops. Used as the reference the send loop is
compared with. -/
def UDPFlaschenTaschen.runChunks (c : UDPFlaschenTaschen) (R : Int)
    (outcome : Nat → UDPFlaschenTaschen.WriteResult) :
    Nat → Nat → Nat → List UDPFlaschenTaschen.WriteCall × UDPFlaschenTaschen.SendStatus
  | 0, _, k =>
    if k < c.chunkCount R then ([], UDPFlaschenTaschen.SendStatus.outOfFuel)
    else ([], UDPFlaschenTaschen.SendStatus.finished)
  | fuel + 1, n, k =>
    if k < c.chunkCount R then
      match outcome n with
      | UDPFlaschenTaschen.WriteResult.error =>
        ([{ c.chunk R k with result := UDPFlaschenTaschen.WriteResult.error }],
          UDPFlaschenTaschen.SendStatus.aborted)
      | UDPFlaschenTaschen.WriteResult.again =>
        let r := runChunks c R outcome fuel (n + 1) k
        ({ c.chunk R k with result := UDPFlaschenTaschen.WriteResult.again } :: r.1, r.2)
      | UDPFlaschenTaschen.WriteResult.ok =>
        let r := runChunks c R outcome fuel (n + 1) (k + 1)
        (c.chunk R k :: r.1, r.2)
    else ([], UDPFlaschenTaschen.SendStatus.finished)

/-! ## Concrete canvases used as test inputs -/

/-- A 3x2 canvas whose six cells carry the colours 1..6 in the red channel. -/
def sample3x2 : UDPFlaschenTaschen :=
  { fd_ := 3, width_ := 3, height_ := 2,
    pixel_buffer_ := [⟨1, 0, 0⟩, ⟨2, 0, 0⟩, ⟨3, 0, 0⟩, ⟨4, 0, 0⟩, ⟨5, 0, 0⟩, ⟨6, 0, 0⟩],
    max_udp_size_ := 8192, off_x_ := 0, off_y_ := 0, off_z_ := 0 }

/-- A canvas of 715827883 by 1 cells, the smallest cell count whose byte count does not fit
an `int`. -/
def sampleBigCanvas : UDPFlaschenTaschen :=
  { fd_ := 3, width_ := 715827883, height_ := 1,
    pixel_buffer_ := List.replicate 715827883 Color.black,
    max_udp_size_ := 8192, off_x_ := 0, off_y_ := 0, off_z_ := 0 }

/-- The sample canvas with the packet size 73, which leaves room for one row per chunk. -/
def sampleOneRow : UDPFlaschenTaschen := (sample3x2.SetMaxUDPPacketSize 73).2

/-- The second `writev` call of `Send` on `sampleOneRow`: row 1, declared at tile offset 1. -/
def sampleSecondCall : UDPFlaschenTaschen.WriteCall :=
  { send_h := 1, tile_offset := 1,
    iov0 := UDPFlaschenTaschen.asciiBytes "P6\n3 1\n#FT: 0 1 0\n255\n".toList,
    iov1 := [4, 0, 0, 5, 0, 0, 6, 0, 0], result := UDPFlaschenTaschen.WriteResult.ok }

/-- The sample canvas with one row per chunk after `SetOffset(0, 2147483647, 0)`: the
largest vertical offset an `int` holds. -/
def sampleFarOffset : UDPFlaschenTaschen := sampleOneRow.SetOffset 0 2147483647 0

/-- A 4x4 surface whose fresh cells all hold the colour (9, 9, 9). -/
def sampleSurface : Surface :=
  { width := 4, height := 4, cell := fun _ _ => ⟨9, 9, 9⟩,
    width_isInt := by decide, height_isInt := by decide }

/-- The datagram of `sampleSecondCall` cut off after three of its nine pixel bytes. -/
def sampleTruncated : List UInt8 := sampleSecondCall.datagram.take 25

/-- A content of the 65535 bytes of `packet_buffer` as earlier datagrams may have left it:
every byte has the value 170. -/
def samplePacketBuffer : List UInt8 := List.replicate 65535 170

/-- A datagram of two pixels in one row, to be placed at the horizontal offset 2147483647,
the largest an `int` holds. -/
def sampleFarDatagram : List UInt8 :=
  UDPFlaschenTaschen.asciiBytes "P6\n2 1\n#FT: 2147483647 0 0\n255\n".toList ++
    [1, 2, 3, 4, 5, 6]

/-- A sequence of write outcomes: the first write would block, the second succeeds, every
later one fails with another error. -/
def sampleOutcomes : Nat → UDPFlaschenTaschen.WriteResult
  | 0 => UDPFlaschenTaschen.WriteResult.again
  | 1 => UDPFlaschenTaschen.WriteResult.ok
  | _ => UDPFlaschenTaschen.WriteResult.error

open UDPFlaschenTaschen

/-! ## Machine arithmetic in range -/

theorem toSizeT_of_nonneg {i : Int} (h0 : 0 ≤ i) (h1 : i < 2 ^ 64) : toSizeT i = i.toNat := by
  unfold toSizeT sizeModulus
  have h : i % ((2 ^ 64 : Nat) : Int) = i := Int.emod_eq_of_lt h0 (by push_cast; exact h1)
  rw [h]

theorem toInt_of_isInt {i : Int} (h : IsInt i) : toInt i = i := by
  unfold IsInt at h
  unfold toInt
  omega

theorem toInt_isInt (i : Int) : IsInt (toInt i) := by
  unfold IsInt toInt
  omega

/-- A sum that overshoots the range of `int` by less than `2 ^ 32` wraps to a negative
value; when the wrapped value is not negative, nothing has wrapped. -/
theorem toInt_eq_of_nonneg {i : Int} (h0 : -(2 ^ 31) ≤ i) (h1 : i < 2 ^ 32)
    (h : 0 ≤ toInt i) : toInt i = i := by
  unfold toInt at h ⊢
  omega

/-! ## Length of the formatted header -/

theorem toDigits_length_le (n e : Nat) (he : 0 < e) (h : n < 10 ^ e) :
    (Nat.toDigits 10 n).length ≤ e := by
  have h1 := Nat.repr_length n e he h
  simpa [Nat.repr] using h1

theorem fmtInt_length_le (i : Int) (e : Nat) (he : 0 < e) (h : i.natAbs < 10 ^ e) :
    (fmtInt i).length ≤ e + 1 := by
  have h1 := toDigits_length_le i.natAbs e he h
  unfold fmtInt
  split
  · simp only [List.length_cons]; omega
  · omega

theorem fmtInt_length_le_of_nonneg (i : Int) (e : Nat) (he : 0 < e) (h0 : 0 ≤ i)
    (h : i.natAbs < 10 ^ e) : (fmtInt i).length ≤ e := by
  have h1 := toDigits_length_le i.natAbs e he h
  unfold fmtInt
  rw [if_neg (by omega)]
  exact h1

/-- Two positive numbers whose product fits an `int` have at most 11 digits together. -/
theorem digits_of_product (a b : Nat) (ha : 1 ≤ a) (hb : 1 ≤ b) (hab : a * b < 2 ^ 31) :
    (Nat.toDigits 10 a).length + (Nat.toDigits 10 b).length ≤ 11 := by
  have ha0 : a ≠ 0 := by omega
  have hlo : 10 ^ Nat.log 10 a ≤ a := Nat.pow_log_le_self 10 ha0
  have hhi : a < 10 ^ (Nat.log 10 a + 1) := Nat.lt_pow_succ_log_self (by norm_num) a
  have ha31 : a < 2 ^ 31 := lt_of_le_of_lt (Nat.le_mul_of_pos_right a (by omega)) hab
  have hk : Nat.log 10 a ≤ 9 := by
    by_contra hcon
    have h10 : 10 ^ 10 ≤ 10 ^ Nat.log 10 a := Nat.pow_le_pow_right (by norm_num) (by omega)
    have : (10 : Nat) ^ 10 ≤ a := le_trans h10 hlo
    norm_num at this ha31
    omega
  have hb' : b < 10 ^ (10 - Nat.log 10 a) := by
    by_contra hcon
    push_neg at hcon
    have h1 : 10 ^ (10 - Nat.log 10 a) * 10 ^ Nat.log 10 a ≤ b * a := Nat.mul_le_mul hcon hlo
    rw [← pow_add, Nat.sub_add_cancel (by omega)] at h1
    have h2 : b * a < 2 ^ 31 := by rw [Nat.mul_comm]; exact hab
    norm_num at h1 h2
    omega
  have l1 := toDigits_length_le a (Nat.log 10 a + 1) (by omega) hhi
  have l2 := toDigits_length_le b (10 - Nat.log 10 a) (by omega) hb'
  omega

/-- The model of `%d` agrees with the decimal rendering of integers. -/
theorem fmtInt_eq_toString (i : Int) : fmtInt i = (toString i).toList := by
  cases i with
  | ofNat n =>
    have h : ¬ ((Int.ofNat n) < 0) := Int.not_lt.mpr (Int.ofNat_nonneg n)
    unfold fmtInt
    rw [if_neg h]
    rfl
  | negSucc n =>
    have h : (Int.negSucc n) < 0 := Int.negSucc_lt_zero n
    unfold fmtInt
    rw [if_pos h]
    rfl

theorem toList_append (s t : String) : (s ++ t).toList = s.toList ++ t.toList := rfl

theorem headerText_eq_string (w h ox oy oz : Int) :
    headerText w h ox oy oz =
      ("P6\n" ++ toString w ++ " " ++ toString h ++ "\n#FT: " ++ toString ox ++ " " ++
        toString oy ++ " " ++ toString oz ++ "\n255\n").toList := by
  simp only [headerText, fmtInt_eq_toString, toList_append]

theorem headerText_length (w h ox oy oz : Int) :
    (headerText w h ox oy oz).length =
      17 + (fmtInt w).length + (fmtInt h).length + (fmtInt ox).length + (fmtInt oy).length +
        (fmtInt oz).length := by
  simp [headerText]
  omega

/-- The header of a chunk fits the 64-byte reserve with its terminating NUL. -/
theorem headerText_length_le (w h ox oy oz : Int) (hw : 1 ≤ w) (hh : 1 ≤ h)
    (hwh : w * h < 2 ^ 31) (hox : ox.natAbs < 10 ^ 10) (hoy : oy.natAbs < 10 ^ 10)
    (hoz : oz.natAbs < 10 ^ 10) : (headerText w h ox oy oz).length ≤ 63 := by
  rw [headerText_length]
  have h1 := fmtInt_length_le ox 10 (by norm_num) hox
  have h2 := fmtInt_length_le oy 10 (by norm_num) hoy
  have h3 := fmtInt_length_le oz 10 (by norm_num) hoz
  have h4 : (fmtInt w).length + (fmtInt h).length ≤ 11 := by
    have hprod : w.natAbs * h.natAbs < 2 ^ 31 := by
      have : ((w.natAbs * h.natAbs : Nat) : Int) = w * h := by
        rw [Nat.cast_mul, Int.natAbs_of_nonneg (by omega), Int.natAbs_of_nonneg (by omega)]
      omega
    have := digits_of_product w.natAbs h.natAbs (by omega) (by omega) hprod
    unfold fmtInt
    rw [if_neg (by omega), if_neg (by omega)]
    exact this
  omega

theorem headerIov_of_short (text : List UInt8) (h : text.length ≤ 63) :
    headerIov text = some text := by
  unfold headerIov
  have h1 : text.take 63 = text := List.take_of_length_le h
  rw [if_pos (by omega), h1, List.take_append_of_le_length (le_refl _), List.take_length]

/-! ## The byte view of the pixel buffer -/

theorem flatMap_bytes_drop (l : List Color) (k : Nat) :
    (l.flatMap Color.bytes).drop (3 * k) = (l.drop k).flatMap Color.bytes := by
  induction k generalizing l with
  | zero => simp
  | succ k ih =>
    cases l with
    | nil => simp
    | cons a l =>
      have h : 3 * (k + 1) = 3 * k + 3 := by ring
      rw [List.flatMap_cons, List.drop_succ_cons, ← ih l, h]
      simp [Color.bytes]

theorem flatMap_bytes_take (l : List Color) (k : Nat) :
    (l.flatMap Color.bytes).take (3 * k) = (l.take k).flatMap Color.bytes := by
  induction k generalizing l with
  | zero => simp
  | succ k ih =>
    cases l with
    | nil => simp
    | cons a l =>
      have h : 3 * (k + 1) = 3 * k + 3 := by ring
      rw [List.flatMap_cons, List.take_succ_cons, List.flatMap_cons, ← ih l, h]
      simp [Color.bytes]

theorem flatMap_bytes_length (l : List Color) : (l.flatMap Color.bytes).length = 3 * l.length := by
  induction l with
  | nil => simp
  | cons a l ih => rw [List.flatMap_cons, List.length_append, ih]; simp [Color.bytes]; omega

theorem bufferBytes_slice (c : UDPFlaschenTaschen) (T h : Int) :
    (c.bufferBytes.drop (3 * (T * c.width_).toNat)).take (3 * (h * c.width_).toNat) =
      c.rowBytes T h := by
  unfold bufferBytes rowBytes rowCells
  rw [flatMap_bytes_drop, flatMap_bytes_take]

/-! ## The send loop -/

theorem row_size_eq (c : UDPFlaschenTaschen) (hv : c.Valid) (hW : 1 ≤ c.width_) :
    (c.row_size : Int) = 3 * c.width_ := by
  obtain ⟨⟨_, hw⟩, _⟩ := hv
  unfold row_size
  rw [toSizeT_of_nonneg (by omega) (by omega), Int.toNat_of_nonneg (by omega)]

/-- One iteration of the loop: the header is not truncated and the data segment is the
chunk's rows. -/
theorem sendLoop_step (c : UDPFlaschenTaschen) (hv : c.Valid) (hW : 1 ≤ c.width_)
    (rows tile h : Int) (h1 : 1 ≤ h) (hrows : h ≤ rows) (h0 : 0 ≤ tile)
    (hle : tile + rows ≤ c.height_) :
    headerIov (asciiBytes (headerText c.width_ h c.off_x_ (toInt (c.off_y_ + tile)) c.off_z_)) =
        some (asciiBytes
          (headerText c.width_ h c.off_x_ (toInt (c.off_y_ + tile)) c.off_z_)) ∧
      toSizeT (h * c.row_size) = 3 * (h * c.width_).toNat ∧
      (c.bufferBytes.drop (3 * (tile * c.width_).toNat)).take (toSizeT (h * c.row_size)) =
        c.rowBytes tile h := by
  have hrs := row_size_eq c hv hW
  obtain ⟨⟨_, hw⟩, ⟨_, hh⟩, ⟨_, hwh⟩, ⟨hx0, hx1⟩, ⟨hy0, hy1⟩, ⟨hz0, hz1⟩, _⟩ := hv
  have hmul : c.width_ * h ≤ c.width_ * c.height_ :=
    Int.mul_le_mul_of_nonneg_left (by omega) (by omega)
  have hpos : 0 ≤ h * c.width_ := Int.mul_nonneg (by omega) (by omega)
  have hcomm : h * c.width_ = c.width_ * h := Int.mul_comm _ _
  have hthree : h * (3 * c.width_) = 3 * (h * c.width_) := by ring
  have hsz : toSizeT (h * c.row_size) = 3 * (h * c.width_).toNat := by
    rw [hrs, hthree, toSizeT_of_nonneg (by omega) (by omega)]
    omega
  refine ⟨?_, hsz, ?_⟩
  · apply headerIov_of_short
    unfold asciiBytes
    rw [List.length_map]
    have e10 : (10 : Nat) ^ 10 = 10000000000 := by norm_num
    obtain ⟨hs0, hs1⟩ := toInt_isInt (c.off_y_ + tile)
    apply headerText_length_le _ _ _ _ _ hW h1 (by omega) <;> rw [e10] <;> omega
  · rw [hsz, bufferBytes_slice]

theorem sendLoop_zero (c : UDPFlaschenTaschen) (outcome : Nat → WriteResult) (n : Nat)
    (rows tile : Int) (ptr : Nat) :
    sendLoop c outcome 0 n rows tile ptr =
      if rows > 0 then ([], SendStatus.outOfFuel) else ([], SendStatus.finished) := rfl

theorem sendLoop_done (c : UDPFlaschenTaschen) (outcome : Nat → WriteResult) (fuel n : Nat)
    (rows tile : Int) (ptr : Nat) (h : ¬ rows > 0) :
    sendLoop c outcome fuel n rows tile ptr = ([], SendStatus.finished) := by
  cases fuel with
  | zero => rw [sendLoop_zero, if_neg h]
  | succ fuel => rw [sendLoop, if_neg h]

/-- The loop body for a chunk whose header fits, by the result of the write. -/
theorem sendLoop_succ (c : UDPFlaschenTaschen) (outcome : Nat → WriteResult) (fuel n : Nat)
    (rows tile : Int) (ptr : Nat) (h : rows > 0) (iov0 : List UInt8)
    (hhdr : headerIov (asciiBytes (headerText c.width_ (min rows c.max_send_height) c.off_x_
      (toInt (c.off_y_ + tile)) c.off_z_)) = some iov0) :
    sendLoop c outcome (fuel + 1) n rows tile ptr =
      match outcome n with
      | WriteResult.error =>
        ([{ send_h := min rows c.max_send_height, tile_offset := tile, iov0 := iov0,
            iov1 := (c.bufferBytes.drop ptr).take
              (toSizeT (min rows c.max_send_height * c.row_size)),
            result := WriteResult.error }], SendStatus.aborted)
      | WriteResult.again =>
        ({ send_h := min rows c.max_send_height, tile_offset := tile, iov0 := iov0,
            iov1 := (c.bufferBytes.drop ptr).take
              (toSizeT (min rows c.max_send_height * c.row_size)),
            result := WriteResult.again } ::
            (sendLoop c outcome fuel (n + 1) rows tile ptr).1,
          (sendLoop c outcome fuel (n + 1) rows tile ptr).2)
      | WriteResult.ok =>
        ({ send_h := min rows c.max_send_height, tile_offset := tile, iov0 := iov0,
            iov1 := (c.bufferBytes.drop ptr).take
              (toSizeT (min rows c.max_send_height * c.row_size)),
            result := WriteResult.ok } ::
            (sendLoop c outcome fuel (n + 1) (rows - min rows c.max_send_height)
              (tile + min rows c.max_send_height)
              (ptr + toSizeT (min rows c.max_send_height * c.row_size))).1,
          (sendLoop c outcome fuel (n + 1) (rows - min rows c.max_send_height)
              (tile + min rows c.max_send_height)
              (ptr + toSizeT (min rows c.max_send_height * c.row_size))).2) := by
  rw [sendLoop, if_pos h]
  simp only [hhdr]
  cases outcome n <;> rfl

theorem sendLoop_frames (c : UDPFlaschenTaschen) (outcome : Nat → WriteResult) (hv : c.Valid)
    (hW : 1 ≤ c.width_) (hR : 1 ≤ c.max_send_height) :
    ∀ (fuel n : Nat) (rows tile : Int) (ptr : Nat), 0 ≤ tile → tile + rows ≤ c.height_ →
      ptr = 3 * (tile * c.width_).toNat →
      ∀ w ∈ (sendLoop c outcome fuel n rows tile ptr).1, c.FrameOf w := by
  intro fuel
  induction fuel with
  | zero =>
    intro n rows tile ptr _ _ _ w hw
    rw [sendLoop_zero] at hw
    split at hw <;> simp at hw
  | succ fuel ih =>
    intro n rows tile ptr h0 hle hptr w hw
    by_cases hrows : rows > 0
    · have hmin1 : 1 ≤ min rows c.max_send_height := le_min (by omega) hR
      have hminle : min rows c.max_send_height ≤ rows := min_le_left _ _
      obtain ⟨e1, e2, e3⟩ := sendLoop_step c hv hW rows tile _ hmin1 hminle h0 hle
      have hw0 : 0 ≤ tile * c.width_ := Int.mul_nonneg h0 (by omega)
      have hw1 : 0 ≤ min rows c.max_send_height * c.width_ := Int.mul_nonneg (by omega) (by omega)
      have hnext : ptr + toSizeT (min rows c.max_send_height * c.row_size) =
          3 * ((tile + min rows c.max_send_height) * c.width_).toNat := by
        rw [e2, hptr, Int.add_mul, Int.toNat_add hw0 hw1, Nat.mul_add]
      have hcall : ∀ r : WriteResult, c.FrameOf
          { send_h := min rows c.max_send_height, tile_offset := tile,
            iov0 := asciiBytes (headerText c.width_ (min rows c.max_send_height) c.off_x_
              (toInt (c.off_y_ + tile)) c.off_z_),
            iov1 := (c.bufferBytes.drop ptr).take
              (toSizeT (min rows c.max_send_height * c.row_size)),
            result := r } := by
        intro r
        refine ⟨hmin1, h0, by simp only; omega, rfl, ?_⟩
        simp only [hptr]
        exact e3
      rw [sendLoop_succ c outcome fuel n rows tile ptr hrows _ e1] at hw
      cases hres : outcome n with
      | error =>
        simp only [hres] at hw
        rw [List.mem_singleton] at hw
        rw [hw]; exact hcall _
      | again =>
        simp only [hres] at hw
        rcases List.mem_cons.mp hw with h | h
        · rw [h]; exact hcall _
        · exact ih _ _ _ _ h0 hle hptr w h
      | ok =>
        simp only [hres] at hw
        rcases List.mem_cons.mp hw with h | h
        · rw [h]; exact hcall _
        · exact ih _ _ _ _ (by omega) (by omega) hnext w h
    · rw [sendLoop_done c outcome _ n rows tile ptr hrows] at hw
      simp at hw

theorem rowCells_length (c : UDPFlaschenTaschen) (hv : c.Valid) (hW : 1 ≤ c.width_)
    (T h : Int) (h0 : 0 ≤ T) (hh : 0 ≤ h) (hle : T + h ≤ c.height_) :
    (c.rowCells T h).length = (h * c.width_).toNat := by
  obtain ⟨_, _, _, _, _, _, hlen⟩ := hv
  have h1 : (T + h) * c.width_ ≤ c.height_ * c.width_ :=
    Int.mul_le_mul_of_nonneg_right hle (by omega)
  have h2 : 0 ≤ T * c.width_ := Int.mul_nonneg h0 (by omega)
  have h3 : 0 ≤ h * c.width_ := Int.mul_nonneg hh (by omega)
  have h4 : c.width_ * c.height_ = c.height_ * c.width_ := Int.mul_comm _ _
  rw [Int.add_mul] at h1
  unfold rowCells
  rw [List.length_take, List.length_drop, hlen]
  omega

theorem rowBytes_length (c : UDPFlaschenTaschen) (hv : c.Valid) (hW : 1 ≤ c.width_)
    (T h : Int) (h0 : 0 ≤ T) (hh : 0 ≤ h) (hle : T + h ≤ c.height_) :
    (c.rowBytes T h).length = (3 * c.width_ * h).toNat := by
  unfold rowBytes
  rw [flatMap_bytes_length, rowCells_length c hv hW T h h0 hh hle]
  have h3 : 0 ≤ h * c.width_ := Int.mul_nonneg hh (by omega)
  have h5 : 3 * c.width_ * h = 3 * (h * c.width_) := by ring
  rw [h5]
  omega

theorem Send_frames (c : UDPFlaschenTaschen) (outcome : Nat → WriteResult) (hv : c.Valid)
    (hW : 1 ≤ c.width_) (fuel : Nat) :
    ∀ w ∈ (c.Send outcome fuel).1, c.FrameOf w := by
  intro w hw
  unfold Send at hw
  by_cases hR : c.max_send_height > 0
  · rw [if_pos hR] at hw
    exact sendLoop_frames c outcome hv hW (by omega) fuel 0 c.height_ 0 0 (le_refl _)
      (by omega) (by simp) w hw
  · rw [if_neg hR] at hw
    simp at hw

/-! ## A transmission whose writes all succeed -/

/-- With at least one row per chunk by the formula of the spec, no step of the computation
in `Send` wraps around and `max_send_height` is that value. -/
theorem max_send_height_eq (c : UDPFlaschenTaschen) (hv : c.Valid) (hW : 1 ≤ c.width_)
    (hR : 1 ≤ c.rowsPerChunk) : c.max_send_height = c.rowsPerChunk := by
  obtain ⟨⟨_, hw⟩, _⟩ := hv
  unfold rowsPerChunk at hR ⊢
  generalize hD : ((min c.max_udp_size_ 8192 : Nat) : Int) - 64 = D at hR ⊢
  have hD1 : D ≤ 8128 := by omega
  have hD0 : 3 * c.width_ ≤ D := by
    have := (Int.le_ediv_iff_mul_le (by omega : (0 : Int) < 3 * c.width_)).mp hR
    omega
  have k1 : c.kMaxDataLen = D := by
    unfold kMaxDataLen kFlaschenTaschenHeaderReserve
    rw [hD, toSizeT_of_nonneg (by omega) (by omega), Int.toNat_of_nonneg (by omega),
      toInt_of_isInt ⟨by omega, by omega⟩]
  have k2 : toSizeT c.kMaxDataLen = D.toNat := by
    rw [k1, toSizeT_of_nonneg (by omega) (by omega)]
  have k3 : c.row_size = (3 * c.width_).toNat := by
    unfold row_size
    rw [toSizeT_of_nonneg (by omega) (by omega)]
  have k4 : ((D.toNat / (3 * c.width_).toNat : Nat) : Int) = D / (3 * c.width_) := by
    rw [Int.natCast_div, Int.toNat_of_nonneg (by omega), Int.toNat_of_nonneg (by omega)]
  have k5 : D / (3 * c.width_) ≤ D := Int.ediv_le_self _ (by omega)
  unfold max_send_height
  rw [k2, k3, k4, toInt_of_isInt ⟨by omega, by omega⟩]

theorem lt_chunkCount_iff (c : UDPFlaschenTaschen) (R : Int) (hR : 1 ≤ R) (k : Nat) :
    k < c.chunkCount R ↔ (k : Int) * R < c.height_ := by
  unfold chunkCount
  rw [Int.lt_toNat]
  have h1 : ((k : Int) + 1 ≤ (c.height_ + R - 1) / R) ↔ ((k : Int) + 1) * R ≤ c.height_ + R - 1 :=
    Int.le_ediv_iff_mul_le (by omega)
  have h2 : ((k : Int) + 1) * R = (k : Int) * R + R := by ring
  rw [h2] at h1
  constructor
  · intro h
    have := h1.mp (by omega)
    omega
  · intro h
    have := h1.mpr (by omega)
    omega

theorem succ_mul_cast (k : Nat) (R : Int) : ((k + 1 : Nat) : Int) * R = (k : Int) * R + R := by
  push_cast
  ring

/-- The loop with all writes succeeding, entered at the start of chunk `k` with `d` chunks
left: it makes exactly the calls of the chunks `k, ..., k + d - 1` and finishes. -/
theorem sendLoop_allOk (c : UDPFlaschenTaschen) (hv : c.Valid) (hW : 1 ≤ c.width_)
    (R : Int) (hR : 1 ≤ R) (hmsh : c.max_send_height = R) :
    ∀ (d fuel k n : Nat), k + d = c.chunkCount R → d ≤ fuel →
      sendLoop c allOk fuel n (c.height_ - k * R) (k * R) (3 * ((k : Int) * R * c.width_).toNat) =
        ((List.range' k d).map (c.chunk R), SendStatus.finished) := by
  intro d
  induction d with
  | zero =>
    intro fuel k n hk _
    have h1 : ¬ ((k : Int) * R < c.height_) := by
      rw [← lt_chunkCount_iff c R hR k]; omega
    rw [sendLoop_done c allOk fuel n _ _ _ (by omega)]
    simp
  | succ d ih =>
    intro fuel k n hk hfuel
    obtain ⟨fuel, rfl⟩ : ∃ f, fuel = f + 1 := ⟨fuel - 1, by omega⟩
    have hlt : (k : Int) * R < c.height_ := by
      rw [← lt_chunkCount_iff c R hR k]; omega
    have hk0 : (0 : Int) ≤ (k : Int) * R := Int.mul_nonneg (by omega) (by omega)
    have hmin : min (c.height_ - k * R) c.max_send_height = min R (c.height_ - k * R) := by
      rw [hmsh, min_comm]
    have hs1 : 1 ≤ min R (c.height_ - (k : Int) * R) := le_min hR (by omega)
    have hs2 : min R (c.height_ - (k : Int) * R) ≤ c.height_ - k * R := min_le_right _ _
    obtain ⟨e1, e2, e3⟩ := sendLoop_step c hv hW (c.height_ - k * R) (k * R) _ hs1 hs2 hk0
      (by omega)
    have hw0 : 0 ≤ (k : Int) * R * c.width_ := Int.mul_nonneg hk0 (by omega)
    have hw1 : 0 ≤ min R (c.height_ - (k : Int) * R) * c.width_ :=
      Int.mul_nonneg (by omega) (by omega)
    rw [sendLoop_succ c allOk fuel n _ _ _ (by omega) _ (by rw [hmin]; exact e1), hmin]
    have hok : allOk n = WriteResult.ok := rfl
    simp only [hok, e3]
    have hsucc := succ_mul_cast k R
    have hrec : sendLoop c allOk fuel (n + 1)
        (c.height_ - (k : Int) * R - min R (c.height_ - (k : Int) * R))
        ((k : Int) * R + min R (c.height_ - (k : Int) * R))
        (3 * ((k : Int) * R * c.width_).toNat +
          toSizeT (min R (c.height_ - (k : Int) * R) * (c.row_size : Int))) =
        ((List.range' (k + 1) d).map (c.chunk R), SendStatus.finished) := by
      cases d with
      | zero =>
        have h2 : ¬ (((k + 1 : Nat) : Int) * R < c.height_) := by
          rw [← lt_chunkCount_iff c R hR (k + 1)]; omega
        have h3 : min R (c.height_ - (k : Int) * R) = c.height_ - (k : Int) * R :=
          min_eq_right (by omega)
        rw [sendLoop_done c allOk fuel (n + 1) _ _ _ (by omega)]
        simp
      | succ d =>
        have h2 : ((k + 1 : Nat) : Int) * R < c.height_ := by
          rw [← lt_chunkCount_iff c R hR (k + 1)]; omega
        have h3 : min R (c.height_ - (k : Int) * R) = R := min_eq_left (by omega)
        have h4 : c.height_ - (k : Int) * R - R = c.height_ - ((k + 1 : Nat) : Int) * R := by
          omega
        have h5 : (k : Int) * R + R = ((k + 1 : Nat) : Int) * R := by omega
        have h6 : 3 * ((k : Int) * R * c.width_).toNat + toSizeT (R * (c.row_size : Int)) =
            3 * (((k + 1 : Nat) : Int) * R * c.width_).toNat := by
          rw [h3] at e2 hw1
          rw [e2, ← h5, Int.add_mul, Int.toNat_add hw0 hw1, Nat.mul_add]
        rw [h3, h4, h5, h6]
        exact ih fuel (k + 1) (n + 1) (by omega) (by omega)
    rw [hrec, List.range'_succ, List.map_cons]
    rfl

theorem chunk_heights_sum (c : UDPFlaschenTaschen) (R : Int) (hR : 1 ≤ R) :
    ∀ (d k : Nat), k + d = c.chunkCount R →
      ((List.range' k d).map (fun j => (c.chunk R j).send_h)).sum =
        c.height_ - min ((k : Int) * R) c.height_ := by
  intro d
  induction d with
  | zero =>
    intro k hk
    have h1 : ¬ ((k : Int) * R < c.height_) := by
      rw [← lt_chunkCount_iff c R hR k]; omega
    simp only [List.range'_zero, List.map_nil, List.sum_nil]
    omega
  | succ d ih =>
    intro k hk
    have hlt : (k : Int) * R < c.height_ := by
      rw [← lt_chunkCount_iff c R hR k]; omega
    have hsucc := succ_mul_cast k R
    have hih := ih (k + 1) (by omega)
    have hk : (c.chunk R k).send_h = min R (c.height_ - (k : Int) * R) := rfl
    rw [List.range'_succ, List.map_cons, List.sum_cons, hih, hk]
    omega

theorem chunk_bytes_concat (c : UDPFlaschenTaschen) (hv : c.Valid) (hW : 1 ≤ c.width_)
    (R : Int) (hR : 1 ≤ R) :
    ∀ (d k : Nat), k + d = c.chunkCount R →
      (List.range' k d).flatMap (fun j => (c.chunk R j).iov1) =
        c.bufferBytes.drop (3 * (min ((k : Int) * R) c.height_ * c.width_).toNat) := by
  intro d
  induction d with
  | zero =>
    intro k hk
    have h1 : ¬ ((k : Int) * R < c.height_) := by
      rw [← lt_chunkCount_iff c R hR k]; omega
    have h2 : min ((k : Int) * R) c.height_ = c.height_ := min_eq_right (by omega)
    obtain ⟨_, _, _, _, _, _, hlen⟩ := hv
    rw [h2, List.range'_zero, List.flatMap_nil, List.drop_of_length_le]
    unfold bufferBytes
    rw [flatMap_bytes_length, hlen, Int.mul_comm]
  | succ d ih =>
    intro k hk
    have hlt : (k : Int) * R < c.height_ := by
      rw [← lt_chunkCount_iff c R hR k]; omega
    have hk0 : (0 : Int) ≤ (k : Int) * R := Int.mul_nonneg (by omega) (by omega)
    have hsucc := succ_mul_cast k R
    have h2 : min ((k : Int) * R) c.height_ = (k : Int) * R := min_eq_left (by omega)
    have h3 : min (((k + 1 : Nat) : Int) * R) c.height_ =
        (k : Int) * R + min R (c.height_ - (k : Int) * R) := by omega
    have hs1 : 1 ≤ min R (c.height_ - (k : Int) * R) := le_min hR (by omega)
    have hw0 : 0 ≤ (k : Int) * R * c.width_ := Int.mul_nonneg hk0 (by omega)
    have hw1 : 0 ≤ min R (c.height_ - (k : Int) * R) * c.width_ :=
      Int.mul_nonneg (by omega) (by omega)
    have hk1 : (c.chunk R k).iov1 = c.rowBytes (k * R) (min R (c.height_ - (k : Int) * R)) := rfl
    rw [List.range'_succ, List.flatMap_cons, ih (k + 1) (by omega), hk1, h2, h3,
      ← bufferBytes_slice, Int.add_mul, Int.toNat_add hw0 hw1, Nat.mul_add, ← List.drop_drop,
      List.take_append_drop]

/-- The calls of a `Send` whose writes all succeed, given enough fuel. -/
theorem Send_allOk_chunks (c : UDPFlaschenTaschen) (hv : c.Valid) (hW : 1 ≤ c.width_)
    (hR : 1 ≤ c.rowsPerChunk) (fuel : Nat) (hfuel : c.chunkCount c.rowsPerChunk ≤ fuel) :
    c.Send allOk fuel =
      ((List.range (c.chunkCount c.rowsPerChunk)).map (c.chunk c.rowsPerChunk),
        SendStatus.finished) := by
  have hmsh := max_send_height_eq c hv hW hR
  unfold Send
  rw [if_pos (by omega), List.range_eq_range']
  have h := sendLoop_allOk c hv hW c.rowsPerChunk hR hmsh (c.chunkCount c.rowsPerChunk)
    fuel 0 0 (by omega) hfuel
  simpa using h

/-- C2: on a well-formed canvas of width `W >= 1` and height `H >= 1` with
`R = rowsPerChunk = floor((min(configuredMax, 8192) - 64) / (3*W)) >= 1`, a `Send` whose
writes all succeed terminates (any fuel of at least `ceil(H / R)` iterations is enough)
after exactly `ceil(H / R)` calls; the `k`-th call (from 0) has tile offset `k*R`, chunk
height `min(R, H - k*R)`, the header for these values and the bytes of these rows. The
chunk heights sum to `H` and the concatenated payloads are the whole pixel buffer. -/
theorem Send_all_rows (c : UDPFlaschenTaschen) (hv : c.Valid) (hW : 1 ≤ c.width_)
    (hH : 1 ≤ c.height_) (hR : 1 ≤ c.rowsPerChunk) (fuel : Nat)
    (hfuel : c.chunkCount c.rowsPerChunk ≤ fuel) :
    c.Send allOk fuel =
        ((List.range (c.chunkCount c.rowsPerChunk)).map (c.chunk c.rowsPerChunk),
          SendStatus.finished) ∧
      ((c.chunkCount c.rowsPerChunk : Nat) : Int) =
        (c.height_ + c.rowsPerChunk - 1) / c.rowsPerChunk ∧
      ((List.range (c.chunkCount c.rowsPerChunk)).map
        (fun k => (c.chunk c.rowsPerChunk k).send_h)).sum = c.height_ ∧
      (List.range (c.chunkCount c.rowsPerChunk)).flatMap
        (fun k => (c.chunk c.rowsPerChunk k).iov1) = c.bufferBytes := by
  refine ⟨?_, ?_, ?_, ?_⟩
  · exact Send_allOk_chunks c hv hW hR fuel hfuel
  · unfold chunkCount
    rw [Int.toNat_of_nonneg]
    exact Int.ediv_nonneg (by omega) (by omega)
  · rw [List.range_eq_range', chunk_heights_sum c c.rowsPerChunk hR _ 0 (by omega)]
    simp
    omega
  · have h0 : min (((0 : Nat) : Int) * c.rowsPerChunk) c.height_ = 0 := by
      rw [Nat.cast_zero, Int.zero_mul]
      exact min_eq_left (by omega)
    rw [List.range_eq_range', chunk_bytes_concat c hv hW c.rowsPerChunk hR _ 0 (by omega), h0]
    simp

/-- C2 at a concrete input: the 3x2 sample canvas with packet size 73 has one row per chunk
and is sent in two calls. -/
theorem Send_all_rows_witness :
    (sampleOneRow.Valid ∧ 1 ≤ sampleOneRow.width_ ∧ 1 ≤ sampleOneRow.height_ ∧
      1 ≤ sampleOneRow.rowsPerChunk ∧ sampleOneRow.chunkCount sampleOneRow.rowsPerChunk ≤ 2) ∧
    (sampleOneRow.Send allOk 2 =
        ((List.range (sampleOneRow.chunkCount sampleOneRow.rowsPerChunk)).map
          (sampleOneRow.chunk sampleOneRow.rowsPerChunk), SendStatus.finished) ∧
      ((sampleOneRow.chunkCount sampleOneRow.rowsPerChunk : Nat) : Int) =
        (sampleOneRow.height_ + sampleOneRow.rowsPerChunk - 1) / sampleOneRow.rowsPerChunk ∧
      ((List.range (sampleOneRow.chunkCount sampleOneRow.rowsPerChunk)).map
        (fun k => (sampleOneRow.chunk sampleOneRow.rowsPerChunk k).send_h)).sum =
          sampleOneRow.height_ ∧
      (List.range (sampleOneRow.chunkCount sampleOneRow.rowsPerChunk)).flatMap
        (fun k => (sampleOneRow.chunk sampleOneRow.rowsPerChunk k).iov1) =
          sampleOneRow.bufferBytes) :=
  ⟨by decide, Send_all_rows sampleOneRow (by decide) (by decide) (by decide) (by decide) 2
    (by decide)⟩

/-! ## The send loop as a run over chunks -/

theorem runChunks_done (c : UDPFlaschenTaschen) (R : Int) (outcome : Nat → WriteResult)
    (fuel n k : Nat) (h : ¬ k < c.chunkCount R) :
    c.runChunks R outcome fuel n k = ([], SendStatus.finished) := by
  cases fuel with
  | zero => rw [runChunks, if_neg h]
  | succ fuel => rw [runChunks, if_neg h]

/-- The send loop, entered at the start of chunk `k`, does what the chunk-by-chunk
reference does, for every sequence of write outcomes and every fuel. -/
theorem sendLoop_eq_runChunks (c : UDPFlaschenTaschen) (hv : c.Valid) (hW : 1 ≤ c.width_)
    (R : Int) (hR : 1 ≤ R) (hmsh : c.max_send_height = R) (outcome : Nat → WriteResult) :
    ∀ (fuel n k : Nat),
      sendLoop c outcome fuel n (c.height_ - k * R) (k * R)
          (3 * ((k : Int) * R * c.width_).toNat) =
        c.runChunks R outcome fuel n k := by
  intro fuel
  induction fuel with
  | zero =>
    intro n k
    rw [sendLoop_zero, runChunks]
    by_cases hk : k < c.chunkCount R
    · have hlt : (k : Int) * R < c.height_ := (lt_chunkCount_iff c R hR k).mp hk
      rw [if_pos hk, if_pos (by omega)]
    · have hlt : ¬ ((k : Int) * R < c.height_) := fun h => hk ((lt_chunkCount_iff c R hR k).mpr h)
      rw [if_neg hk, if_neg (by omega)]
  | succ fuel ih =>
    intro n k
    by_cases hk : k < c.chunkCount R
    · have hlt : (k : Int) * R < c.height_ := (lt_chunkCount_iff c R hR k).mp hk
      have hk0 : (0 : Int) ≤ (k : Int) * R := Int.mul_nonneg (by omega) (by omega)
      have hmin : min (c.height_ - k * R) c.max_send_height = min R (c.height_ - k * R) := by
        rw [hmsh, min_comm]
      have hs1 : 1 ≤ min R (c.height_ - (k : Int) * R) := le_min hR (by omega)
      have hs2 : min R (c.height_ - (k : Int) * R) ≤ c.height_ - k * R := min_le_right _ _
      obtain ⟨e1, e2, e3⟩ := sendLoop_step c hv hW (c.height_ - k * R) (k * R) _ hs1 hs2 hk0
        (by omega)
      have hw0 : 0 ≤ (k : Int) * R * c.width_ := Int.mul_nonneg hk0 (by omega)
      have hw1 : 0 ≤ min R (c.height_ - (k : Int) * R) * c.width_ :=
        Int.mul_nonneg (by omega) (by omega)
      have hsucc := succ_mul_cast k R
      have hrec : sendLoop c outcome fuel (n + 1)
          (c.height_ - (k : Int) * R - min R (c.height_ - (k : Int) * R))
          ((k : Int) * R + min R (c.height_ - (k : Int) * R))
          (3 * ((k : Int) * R * c.width_).toNat +
            toSizeT (min R (c.height_ - (k : Int) * R) * (c.row_size : Int))) =
          c.runChunks R outcome fuel (n + 1) (k + 1) := by
        by_cases hk1 : k + 1 < c.chunkCount R
        · have h2 : ((k + 1 : Nat) : Int) * R < c.height_ :=
            (lt_chunkCount_iff c R hR (k + 1)).mp hk1
          have h3 : min R (c.height_ - (k : Int) * R) = R := min_eq_left (by omega)
          have h4 : c.height_ - (k : Int) * R - R = c.height_ - ((k + 1 : Nat) : Int) * R := by
            omega
          have h5 : (k : Int) * R + R = ((k + 1 : Nat) : Int) * R := by omega
          have h6 : 3 * ((k : Int) * R * c.width_).toNat + toSizeT (R * (c.row_size : Int)) =
              3 * (((k + 1 : Nat) : Int) * R * c.width_).toNat := by
            rw [h3] at e2 hw1
            rw [e2, ← h5, Int.add_mul, Int.toNat_add hw0 hw1, Nat.mul_add]
          rw [h3, h4, h5, h6]
          exact ih (n + 1) (k + 1)
        · have h2 : ¬ (((k + 1 : Nat) : Int) * R < c.height_) :=
            fun h => hk1 ((lt_chunkCount_iff c R hR (k + 1)).mpr h)
          have h3 : min R (c.height_ - (k : Int) * R) = c.height_ - (k : Int) * R :=
            min_eq_right (by omega)
          rw [sendLoop_done c outcome fuel (n + 1) _ _ _ (by omega),
            runChunks_done c R outcome fuel (n + 1) (k + 1) hk1]
      rw [sendLoop_succ c outcome fuel n _ _ _ (by omega) _ (by rw [hmin]; exact e1), hmin,
        runChunks, if_pos hk]
      simp only [e3, hrec, ih (n + 1) k]
      cases outcome n <;> rfl
    · have hlt : ¬ ((k : Int) * R < c.height_) := fun h => hk ((lt_chunkCount_iff c R hR k).mpr h)
      rw [sendLoop_done c outcome _ n _ _ _ (by omega), runChunks_done c R outcome _ n k hk]

theorem Send_eq_runChunks (c : UDPFlaschenTaschen) (hv : c.Valid) (hW : 1 ≤ c.width_)
    (hR : 1 ≤ c.rowsPerChunk) (outcome : Nat → WriteResult) (fuel : Nat) :
    c.Send outcome fuel = c.runChunks c.rowsPerChunk outcome fuel 0 0 := by
  have hmsh := max_send_height_eq c hv hW hR
  unfold Send
  rw [if_pos (by omega)]
  have h := sendLoop_eq_runChunks c hv hW c.rowsPerChunk hR hmsh outcome fuel 0 0
  simpa using h

/-- The reference run at a chunk that is still to be sent: the call made, what follows
it and how the run ends, by the outcome of the write. -/
theorem runChunks_succ (c : UDPFlaschenTaschen) (R : Int) (outcome : Nat → WriteResult)
    (fuel n k : Nat) (hk : k < c.chunkCount R) :
    (outcome n = WriteResult.error ∧
        c.runChunks R outcome (fuel + 1) n k =
          ([{ c.chunk R k with result := outcome n }], SendStatus.aborted)) ∨
      (outcome n = WriteResult.again ∧
        c.runChunks R outcome (fuel + 1) n k =
          ({ c.chunk R k with result := outcome n } :: (c.runChunks R outcome fuel (n + 1) k).1,
            (c.runChunks R outcome fuel (n + 1) k).2)) ∨
      (outcome n = WriteResult.ok ∧
        c.runChunks R outcome (fuel + 1) n k =
          ({ c.chunk R k with result := outcome n } ::
              (c.runChunks R outcome fuel (n + 1) (k + 1)).1,
            (c.runChunks R outcome fuel (n + 1) (k + 1)).2)) := by
  rw [runChunks, if_pos hk]
  cases hres : outcome n with
  | error => exact Or.inl ⟨rfl, rfl⟩
  | again => exact Or.inr (Or.inl ⟨rfl, rfl⟩)
  | ok => exact Or.inr (Or.inr ⟨rfl, rfl⟩)

/-- Every call of a run carries a chunk: its tile offset is a multiple of the rows per
chunk and its height is what is left of the canvas, at most the rows per chunk. -/
theorem runChunks_mem (c : UDPFlaschenTaschen) (R : Int) (outcome : Nat → WriteResult) :
    ∀ (fuel n k : Nat) (w : WriteCall), w ∈ (c.runChunks R outcome fuel n k).1 →
      ∃ j : Nat, w.tile_offset = j * R ∧ w.send_h = min R (c.height_ - j * R) := by
  intro fuel
  induction fuel with
  | zero =>
    intro n k w hw
    rw [runChunks] at hw
    split at hw <;> simp at hw
  | succ fuel ih =>
    intro n k w hw
    by_cases hk : k < c.chunkCount R
    · rcases runChunks_succ c R outcome fuel n k hk with ⟨_, e⟩ | ⟨_, e⟩ | ⟨_, e⟩
      · rw [e, List.mem_singleton] at hw
        rw [hw]
        exact ⟨k, rfl, rfl⟩
      · rw [e] at hw
        rcases List.mem_cons.mp hw with h | h
        · rw [h]; exact ⟨k, rfl, rfl⟩
        · exact ih _ _ w h
      · rw [e] at hw
        rcases List.mem_cons.mp hw with h | h
        · rw [h]; exact ⟨k, rfl, rfl⟩
        · exact ih _ _ w h
    · rw [runChunks_done c R outcome _ n k hk] at hw
      simp at hw

/-! ## Format of a datagram -/

/-- C1, amended: on a well-formed canvas of width at least 1 whose rows-per-chunk value
`floor((min(configuredMax, 8192) - 64) / (3*W))` is at least 1, every `writev` call that
`Send` makes, whatever the outcomes of the writes, hands over exactly the ASCII text
"P6\n<W> <h>\n#FT: <offX> <s> <offZ>\n255\n", the integers in decimal, directly followed by
the bytes of buffer rows `T .. T+h-1` in row-major r, g, b order; these are `3*W*h` bytes,
and the chunk lies inside the canvas. Here `h` is the chunk height, `T` the tile offset of
the call, a multiple of the rows-per-chunk value, and `s` the `int` sum of `offY` and `T`:
it is `offY + T` when that is below `2^31`, in which case the datagram is the text with
`<offY+T>` itself, and `offY + T - 2^32` otherwise. -/
theorem Send_datagram_bytes (c : UDPFlaschenTaschen) (hv : c.Valid) (hW : 1 ≤ c.width_)
    (hR : 1 ≤ c.rowsPerChunk) (outcome : Nat → WriteResult) (fuel : Nat) (w : WriteCall)
    (hw : w ∈ (c.Send outcome fuel).1) :
    w.datagram =
        asciiBytes ("P6\n" ++ toString c.width_ ++ " " ++ toString w.send_h ++ "\n#FT: " ++
          toString c.off_x_ ++ " " ++ toString (toInt (c.off_y_ + w.tile_offset)) ++ " " ++
          toString c.off_z_ ++ "\n255\n").toList ++
        c.rowBytes w.tile_offset w.send_h ∧
      (c.off_y_ + w.tile_offset < 2 ^ 31 →
        toInt (c.off_y_ + w.tile_offset) = c.off_y_ + w.tile_offset ∧
        w.datagram =
          asciiBytes ("P6\n" ++ toString c.width_ ++ " " ++ toString w.send_h ++ "\n#FT: " ++
            toString c.off_x_ ++ " " ++ toString (c.off_y_ + w.tile_offset) ++ " " ++
            toString c.off_z_ ++ "\n255\n").toList ++
          c.rowBytes w.tile_offset w.send_h) ∧
      (2 ^ 31 ≤ c.off_y_ + w.tile_offset →
        toInt (c.off_y_ + w.tile_offset) = c.off_y_ + w.tile_offset - 2 ^ 32) ∧
      (c.rowBytes w.tile_offset w.send_h).length = (3 * c.width_ * w.send_h).toNat ∧
      1 ≤ w.send_h ∧ 0 ≤ w.tile_offset ∧ w.tile_offset + w.send_h ≤ c.height_ ∧
      (∃ k : Nat, w.tile_offset = k * c.rowsPerChunk ∧
        w.send_h = min c.rowsPerChunk (c.height_ - k * c.rowsPerChunk)) := by
  obtain ⟨h1, h0, hle, e0, e1⟩ := Send_frames c outcome hv hW fuel w hw
  have hchunk : ∃ k : Nat, w.tile_offset = k * c.rowsPerChunk ∧
      w.send_h = min c.rowsPerChunk (c.height_ - k * c.rowsPerChunk) := by
    rw [Send_eq_runChunks c hv hW hR outcome fuel] at hw
    exact runChunks_mem c c.rowsPerChunk outcome fuel 0 0 w hw
  have hdg : w.datagram =
      asciiBytes ("P6\n" ++ toString c.width_ ++ " " ++ toString w.send_h ++ "\n#FT: " ++
        toString c.off_x_ ++ " " ++ toString (toInt (c.off_y_ + w.tile_offset)) ++ " " ++
        toString c.off_z_ ++ "\n255\n").toList ++
      c.rowBytes w.tile_offset w.send_h := by
    unfold WriteCall.datagram
    rw [e0, e1, headerText_eq_string]
  obtain ⟨_, ⟨_, hh1⟩, _, _, ⟨hy0, hy1⟩, _, _⟩ := hv
  refine ⟨hdg, ?_, ?_, rowBytes_length c ⟨‹_›, ⟨‹_›, hh1⟩, ‹_›, ‹_›, ⟨hy0, hy1⟩, ‹_›, ‹_›⟩ hW _ _ h0
    (by omega) hle, h1, h0, hle, hchunk⟩
  · intro hlt
    have hs : toInt (c.off_y_ + w.tile_offset) = c.off_y_ + w.tile_offset :=
      toInt_of_isInt ⟨by omega, hlt⟩
    refine ⟨hs, ?_⟩
    rw [hdg, hs]
  · intro hge
    unfold toInt
    omega

/-- C1, amended, at a concrete input: the second call of `Send` on the 3x2 sample canvas
with one row per chunk carries the header for tile offset 1 and the nine bytes of row 1. -/
theorem Send_datagram_bytes_witness :
    (sampleOneRow.Valid ∧ 1 ≤ sampleOneRow.width_ ∧ 1 ≤ sampleOneRow.rowsPerChunk ∧
      sampleSecondCall ∈ (sampleOneRow.Send allOk 2).1) ∧
    (sampleSecondCall.datagram =
        asciiBytes ("P6\n" ++ toString sampleOneRow.width_ ++ " " ++
          toString sampleSecondCall.send_h ++ "\n#FT: " ++
          toString sampleOneRow.off_x_ ++ " " ++
          toString (toInt (sampleOneRow.off_y_ + sampleSecondCall.tile_offset)) ++ " " ++
          toString sampleOneRow.off_z_ ++ "\n255\n").toList ++
        sampleOneRow.rowBytes sampleSecondCall.tile_offset sampleSecondCall.send_h ∧
      (sampleOneRow.off_y_ + sampleSecondCall.tile_offset < 2 ^ 31 →
        toInt (sampleOneRow.off_y_ + sampleSecondCall.tile_offset) =
          sampleOneRow.off_y_ + sampleSecondCall.tile_offset ∧
        sampleSecondCall.datagram =
          asciiBytes ("P6\n" ++ toString sampleOneRow.width_ ++ " " ++
            toString sampleSecondCall.send_h ++ "\n#FT: " ++
            toString sampleOneRow.off_x_ ++ " " ++
            toString (sampleOneRow.off_y_ + sampleSecondCall.tile_offset) ++ " " ++
            toString sampleOneRow.off_z_ ++ "\n255\n").toList ++
          sampleOneRow.rowBytes sampleSecondCall.tile_offset sampleSecondCall.send_h) ∧
      (2 ^ 31 ≤ sampleOneRow.off_y_ + sampleSecondCall.tile_offset →
        toInt (sampleOneRow.off_y_ + sampleSecondCall.tile_offset) =
          sampleOneRow.off_y_ + sampleSecondCall.tile_offset - 2 ^ 32) ∧
      (sampleOneRow.rowBytes sampleSecondCall.tile_offset sampleSecondCall.send_h).length =
        (3 * sampleOneRow.width_ * sampleSecondCall.send_h).toNat ∧
      1 ≤ sampleSecondCall.send_h ∧ 0 ≤ sampleSecondCall.tile_offset ∧
      sampleSecondCall.tile_offset + sampleSecondCall.send_h ≤ sampleOneRow.height_ ∧
      (∃ k : Nat, sampleSecondCall.tile_offset = k * sampleOneRow.rowsPerChunk ∧
        sampleSecondCall.send_h =
          min sampleOneRow.rowsPerChunk (sampleOneRow.height_ - k * sampleOneRow.rowsPerChunk))) :=
  ⟨by decide, Send_datagram_bytes sampleOneRow (by decide) (by decide) (by decide) allOk 2
    sampleSecondCall (by decide)⟩

/-- C1 as stated fails where the sum `offY + T` leaves the range of `int`: on the 3x2 sample
canvas with one row per chunk and `SetOffset(0, 2147483647, 0)`, the second `writev` call
(tile offset 1) carries the header "P6\n3 1\n#FT: 0 -2147483648 0\n255\n", not the text
with `offY + T = 2147483648`. -/
theorem Send_header_offset_wraps :
    sampleFarOffset.Valid ∧ 1 ≤ sampleFarOffset.width_ ∧ 1 ≤ sampleFarOffset.rowsPerChunk ∧
      (sampleFarOffset.Send allOk 2).1.map WriteCall.datagram =
        [asciiBytes "P6\n3 1\n#FT: 0 2147483647 0\n255\n".toList ++ [1, 0, 0, 2, 0, 0, 3, 0, 0],
          asciiBytes "P6\n3 1\n#FT: 0 -2147483648 0\n255\n".toList ++
            [4, 0, 0, 5, 0, 0, 6, 0, 0]] ∧
      ¬ (∀ w ∈ (sampleFarOffset.Send allOk 2).1,
        w.datagram =
          asciiBytes (headerText sampleFarOffset.width_ w.send_h sampleFarOffset.off_x_
            (sampleFarOffset.off_y_ + w.tile_offset) sampleFarOffset.off_z_) ++
          sampleFarOffset.rowBytes w.tile_offset w.send_h) := by
  decide

/-! ## The end-to-end scenario -/

theorem SetMaxUDPPacketSize_accepted (c : UDPFlaschenTaschen) (P : Nat)
    (h : (c.SetMaxUDPPacketSize P).1 = true) :
    (c.SetMaxUDPPacketSize P).2 = { c with max_udp_size_ := P } := by
  dsimp only [SetMaxUDPPacketSize] at h ⊢
  split_ifs at h ⊢
  simp_all

/-- C7: take any 3x2 canvas with offsets (0,0,0), set a packet-size limit `P` that is
accepted and leaves room for one row per chunk (`floor((P-64)/9) = 1`, for instance
`P = 73`), and fill it black. A `Send` whose writes all succeed then makes exactly two
calls and finishes; the datagrams are "P6\n3 1\n#FT: 0 0 0\n255\n" followed by nine zero
bytes and "P6\n3 1\n#FT: 0 1 0\n255\n" followed by nine zero bytes. -/
theorem Send_black_3x2 (c : UDPFlaschenTaschen) (P fuel : Nat) (hw : c.width_ = 3)
    (hh : c.height_ = 2) (hox : c.off_x_ = 0) (hoy : c.off_y_ = 0) (hoz : c.off_z_ = 0)
    (hacc : (c.SetMaxUDPPacketSize P).1 = true) (hP : ((P : Int) - 64) / 9 = 1)
    (hfuel : 2 ≤ fuel) :
    emitted (((c.SetMaxUDPPacketSize P).2.Fill Color.black).Send allOk fuel) =
        [asciiBytes "P6\n3 1\n#FT: 0 0 0\n255\n".toList ++ List.replicate 9 0,
          asciiBytes "P6\n3 1\n#FT: 0 1 0\n255\n".toList ++ List.replicate 9 0] ∧
      (((c.SetMaxUDPPacketSize P).2.Fill Color.black).Send allOk fuel).1.length = 2 ∧
      (((c.SetMaxUDPPacketSize P).2.Fill Color.black).Send allOk fuel).2 =
        SendStatus.finished := by
  rw [SetMaxUDPPacketSize_accepted c P hacc]
  have hfill : ({ c with max_udp_size_ := P } : UDPFlaschenTaschen).Fill Color.black =
      { c with max_udp_size_ := P, pixel_buffer_ := List.replicate 6 Color.black } := by
    have hb : Color.black.is_black = true := by decide
    unfold Fill Clear
    rw [if_pos hb]
    simp only [hw, hh]
    rfl
  rw [hfill]
  generalize hc : ({ c with max_udp_size_ := P, pixel_buffer_ := List.replicate 6 Color.black } :
    UDPFlaschenTaschen) = c1
  have w1 : c1.width_ = 3 := by rw [← hc]; exact hw
  have h1 : c1.height_ = 2 := by rw [← hc]; exact hh
  have x1 : c1.off_x_ = 0 := by rw [← hc]; exact hox
  have y1 : c1.off_y_ = 0 := by rw [← hc]; exact hoy
  have z1 : c1.off_z_ = 0 := by rw [← hc]; exact hoz
  have m1 : c1.max_udp_size_ = P := by rw [← hc]
  have b1 : c1.pixel_buffer_ = List.replicate 6 Color.black := by rw [← hc]
  have hR : c1.rowsPerChunk = 1 := by
    unfold rowsPerChunk
    rw [m1, w1]
    omega
  have hn : c1.chunkCount 1 = 2 := by
    unfold chunkCount
    rw [h1]
    decide
  have hv : c1.Valid := by
    unfold Valid
    rw [w1, h1, x1, y1, z1, b1]
    decide
  have hsend := Send_allOk_chunks c1 hv (by omega) (by omega) fuel (by rw [hR, hn]; exact hfuel)
  rw [hR, hn] at hsend
  have k0 : c1.chunk 1 0 =
      { send_h := 1, tile_offset := 0, iov0 := asciiBytes "P6\n3 1\n#FT: 0 0 0\n255\n".toList,
        iov1 := List.replicate 9 0, result := WriteResult.ok } := by
    unfold chunk rowBytes rowCells
    rw [w1, h1, x1, y1, z1, b1]
    decide
  have k1 : c1.chunk 1 1 =
      { send_h := 1, tile_offset := 1, iov0 := asciiBytes "P6\n3 1\n#FT: 0 1 0\n255\n".toList,
        iov1 := List.replicate 9 0, result := WriteResult.ok } := by
    unfold chunk rowBytes rowCells
    rw [w1, h1, x1, y1, z1, b1]
    decide
  have hl : List.map (c1.chunk 1) (List.range 2) = [c1.chunk 1 0, c1.chunk 1 1] := rfl
  rw [hsend, hl, k0, k1]
  decide

/-- C7 at a concrete input: the 3x2 sample canvas with the packet size 73. -/
theorem Send_black_3x2_witness :
    (sample3x2.width_ = 3 ∧ sample3x2.height_ = 2 ∧ sample3x2.off_x_ = 0 ∧
      sample3x2.off_y_ = 0 ∧ sample3x2.off_z_ = 0 ∧
      (sample3x2.SetMaxUDPPacketSize 73).1 = true ∧ (((73 : Nat) : Int) - 64) / 9 = 1 ∧
      2 ≤ 2) ∧
    (emitted (((sample3x2.SetMaxUDPPacketSize 73).2.Fill Color.black).Send allOk 2) =
        [asciiBytes "P6\n3 1\n#FT: 0 0 0\n255\n".toList ++ List.replicate 9 0,
          asciiBytes "P6\n3 1\n#FT: 0 1 0\n255\n".toList ++ List.replicate 9 0] ∧
      (((sample3x2.SetMaxUDPPacketSize 73).2.Fill Color.black).Send allOk 2).1.length = 2 ∧
      (((sample3x2.SetMaxUDPPacketSize 73).2.Fill Color.black).Send allOk 2).2 =
        SendStatus.finished) :=
  ⟨by decide, Send_black_3x2 sample3x2 73 2 rfl rfl rfl rfl rfl (by decide) (by decide)
    (by decide)⟩

/-! ## The draw step in closed form -/

theorem drawRow_eq (info : ImageMetaInfo) (packet : List UInt8) (y : Int) :
    ∀ (n : Nat) (x : Int) (pos : Nat),
      drawRow info packet y n x pos =
        ((List.range n).map (fun i : Nat =>
          (⟨toInt (x + i + info.offset_x), toInt (y + info.offset_y),
            colorAt packet (pos + 3 * i)⟩ : PixelWrite)), pos + 3 * n) := by
  intro n
  induction n with
  | zero => intro x pos; simp [drawRow]
  | succ n ih =>
    intro x pos
    rw [drawRow, ih, List.range_succ_eq_map, List.map_cons, List.map_map]
    refine Prod.ext ?_ (by simp only; omega)
    simp only [Nat.cast_zero, add_zero, Nat.mul_zero, Nat.add_zero, List.cons.injEq, true_and]
    apply List.map_congr_left
    intro i _
    simp only [Function.comp_apply, Nat.succ_eq_add_one, Nat.cast_add, Nat.cast_one]
    have h1 : x + 1 + (i : Int) = x + ((i : Int) + 1) := by ring
    have h2 : pos + 3 + 3 * i = pos + 3 * (i + 1) := by ring
    rw [h1, h2]

theorem drawRows_eq (info : ImageMetaInfo) (packet : List UInt8) :
    ∀ (m : Nat) (y : Int) (pos : Nat),
      drawRows info packet m y pos =
        ((List.range m).flatMap (fun j : Nat =>
          (List.range info.width.toNat).map (fun i : Nat =>
            (⟨toInt (i + info.offset_x), toInt (y + j + info.offset_y),
              colorAt packet (pos + 3 * (j * info.width.toNat + i))⟩ : PixelWrite))),
          pos + 3 * (m * info.width.toNat)) := by
  intro m
  induction m with
  | zero => intro y pos; simp [drawRows]
  | succ m ih =>
    intro y pos
    rw [drawRows, ih, drawRow_eq, List.range_succ_eq_map, List.flatMap_cons]
    refine Prod.ext ?_ (by simp only; ring)
    simp only [Nat.cast_zero, add_zero, zero_add, Nat.zero_mul]
    congr 1
    rw [List.flatMap_map]
    apply List.flatMap_congr
    intro j _
    apply List.map_congr_left
    intro i _
    simp only [Nat.succ_eq_add_one, Nat.cast_add, Nat.cast_one]
    have h1 : y + 1 + (j : Int) = y + ((j : Int) + 1) := by ring
    have h2 : pos + 3 * info.width.toNat + 3 * (j * info.width.toNat + i) =
        pos + 3 * ((j + 1) * info.width.toNat + i) := by ring
    rw [h1, h2]

/-- The `SetPixel` calls of the draw step: row by row, column by column, the colour of
pixel `(i, j)` read at offset `3 * (j * w + i)` of the pixel data. -/
theorem drawStep_eq (info : ImageMetaInfo) (packet : List UInt8) (pos : Nat) :
    drawStep info packet pos =
      (List.range info.height.toNat).flatMap (fun j : Nat =>
        (List.range info.width.toNat).map (fun i : Nat =>
          (⟨toInt (i + info.offset_x), toInt (j + info.offset_y),
            colorAt packet (pos + 3 * (j * info.width.toNat + i))⟩ : PixelWrite))) := by
  unfold drawStep
  rw [drawRows_eq]
  simp

theorem mem_drawStep (info : ImageMetaInfo) (packet : List UInt8) (pos : Nat) (w : PixelWrite) :
    w ∈ drawStep info packet pos ↔
      ∃ j i : Nat, j < info.height.toNat ∧ i < info.width.toNat ∧
        w = ⟨toInt (i + info.offset_x), toInt (j + info.offset_y),
          colorAt packet (pos + 3 * (j * info.width.toNat + i))⟩ := by
  rw [drawStep_eq]
  simp only [List.mem_flatMap, List.mem_map, List.mem_range]
  constructor
  · rintro ⟨j, hj, i, hi, rfl⟩
    exact ⟨j, i, hj, hi, rfl⟩
  · rintro ⟨j, i, hj, hi, rfl⟩
    exact ⟨j, hj, i, hi, rfl⟩

/-! ## Pixel writes on a clipping surface -/

theorem Surface.SetPixel_width (s : Surface) (w : PixelWrite) :
    (s.SetPixel w).width = s.width := by
  unfold Surface.SetPixel
  split <;> rfl

theorem Surface.SetPixel_height (s : Surface) (w : PixelWrite) :
    (s.SetPixel w).height = s.height := by
  unfold Surface.SetPixel
  split <;> rfl

theorem Surface.SetPixel_has (s : Surface) (w : PixelWrite) (X Y : Int) :
    (s.SetPixel w).Has X Y ↔ s.Has X Y := by
  unfold Surface.Has
  rw [Surface.SetPixel_width, Surface.SetPixel_height]

theorem Surface.SetPixel_cell_other (s : Surface) (w : PixelWrite) (X Y : Int)
    (h : ¬ (w.x = X ∧ w.y = Y)) : (s.SetPixel w).cell X Y = s.cell X Y := by
  unfold Surface.SetPixel
  split
  · have h1 : ¬ (X = w.x ∧ Y = w.y) := fun ⟨a, b⟩ => h ⟨a.symm, b.symm⟩
    simp only [h1, if_false]
  · rfl

theorem Surface.SetPixel_cell_not_has (s : Surface) (w : PixelWrite) (X Y : Int)
    (h : ¬ s.Has X Y) : (s.SetPixel w).cell X Y = s.cell X Y := by
  by_cases hw : w.x = X ∧ w.y = Y
  · unfold Surface.SetPixel
    rw [hw.1, hw.2, if_neg h]
  · exact Surface.SetPixel_cell_other s w X Y hw

theorem Surface.SetPixel_cell_self (s : Surface) (w : PixelWrite) (h : s.Has w.x w.y) :
    (s.SetPixel w).cell w.x w.y = w.c := by
  unfold Surface.SetPixel
  rw [if_pos h]
  simp

theorem Surface.draw_cons (s : Surface) (w : PixelWrite) (ws : List PixelWrite) :
    s.draw (w :: ws) = (s.SetPixel w).draw ws := rfl

theorem Surface.draw_append (s : Surface) (ws vs : List PixelWrite) :
    s.draw (ws ++ vs) = (s.draw ws).draw vs := by
  unfold Surface.draw
  rw [List.foldl_append]

theorem Surface.draw_width (ws : List PixelWrite) :
    ∀ s : Surface, (s.draw ws).width = s.width := by
  induction ws with
  | nil => intro s; rfl
  | cons w ws ih => intro s; rw [Surface.draw_cons, ih, Surface.SetPixel_width]

theorem Surface.draw_height (ws : List PixelWrite) :
    ∀ s : Surface, (s.draw ws).height = s.height := by
  induction ws with
  | nil => intro s; rfl
  | cons w ws ih => intro s; rw [Surface.draw_cons, ih, Surface.SetPixel_height]

/-- A cell that no write addresses keeps its content. -/
theorem Surface.draw_cell_untouched (ws : List PixelWrite) (X Y : Int) :
    ∀ s : Surface, (∀ w ∈ ws, ¬ (w.x = X ∧ w.y = Y)) → (s.draw ws).cell X Y = s.cell X Y := by
  induction ws with
  | nil => intro s _; rfl
  | cons w ws ih =>
    intro s h
    rw [Surface.draw_cons, ih _ (fun v hv => h v (List.mem_cons_of_mem _ hv)),
      Surface.SetPixel_cell_other s w X Y (h w (List.mem_cons_self _ _))]

/-- A position outside the surface keeps its content: every write to it is clipped. -/
theorem Surface.draw_cell_not_has (ws : List PixelWrite) (X Y : Int) :
    ∀ s : Surface, ¬ s.Has X Y → (s.draw ws).cell X Y = s.cell X Y := by
  induction ws with
  | nil => intro s _; rfl
  | cons w ws ih =>
    intro s h
    rw [Surface.draw_cons, ih _ (fun h1 => h ((Surface.SetPixel_has s w X Y).mp h1)),
      Surface.SetPixel_cell_not_has s w X Y h]

/-- A cell of the surface that is written, and only ever with the colour `v`, holds `v`. -/
theorem Surface.draw_cell_written (ws : List PixelWrite) (X Y : Int) (v : Color) :
    ∀ s : Surface, s.Has X Y → (∃ w ∈ ws, w.x = X ∧ w.y = Y) →
      (∀ w ∈ ws, w.x = X → w.y = Y → w.c = v) → (s.draw ws).cell X Y = v := by
  induction ws with
  | nil => intro s _ h; obtain ⟨w, hw, _⟩ := h; simp at hw
  | cons w ws ih =>
    intro s hs hex hall
    rw [Surface.draw_cons]
    by_cases hrest : ∃ u ∈ ws, u.x = X ∧ u.y = Y
    · exact ih _ ((Surface.SetPixel_has s w X Y).mpr hs) hrest
        (fun u hu => hall u (List.mem_cons_of_mem _ hu))
    · have hnone : ∀ u ∈ ws, ¬ (u.x = X ∧ u.y = Y) := fun u hu hxy => hrest ⟨u, hu, hxy⟩
      obtain ⟨u, hu, hx, hy⟩ := hex
      rcases List.mem_cons.mp hu with h | h
      · subst h
        rw [Surface.draw_cell_untouched ws X Y _ hnone]
        subst hx hy
        rw [Surface.SetPixel_cell_self s u hs]
        exact hall u (List.mem_cons_self _ _) rfl rfl
      · exact absurd ⟨hx, hy⟩ (hnone u h)

theorem deliver_eq_draw (c : UDPFlaschenTaschen) (frames : List WriteCall) :
    ∀ s : Surface, deliver c s frames = s.draw (frames.flatMap (frameWrites c)) := by
  induction frames with
  | nil => intro s; rfl
  | cons f fs ih =>
    intro s
    rw [List.flatMap_cons, Surface.draw_append, ← ih]
    rfl

/-! ## The pixels of a frame -/

theorem byteAt_append (l l2 : List UInt8) (k : Nat) :
    byteAt (l ++ l2) (l.length + k) = byteAt l2 k := by
  unfold byteAt
  rw [List.getD_append_right l l2 0 (l.length + k) (Nat.le_add_right _ _), Nat.add_sub_cancel_left]

theorem colorAt_append (l l2 : List UInt8) (k : Nat) :
    colorAt (l ++ l2) (l.length + k) = colorAt l2 k := by
  unfold colorAt
  rw [Nat.add_assoc, Nat.add_assoc, byteAt_append, byteAt_append, byteAt_append]

theorem colorAt_flatMap_bytes (l : List Color) :
    ∀ q : Nat, colorAt (l.flatMap Color.bytes) (3 * q) = l.getD q Color.black := by
  induction l with
  | nil => intro q; simp [colorAt, byteAt, Color.black]
  | cons a l ih =>
    intro q
    cases q with
    | zero => simp [colorAt, byteAt, Color.bytes]
    | succ q =>
      have h1 : 3 * (q + 1) = (Color.bytes a).length + 3 * q := by
        simp [Color.bytes]; omega
      rw [List.flatMap_cons, h1, colorAt_append, ih q]
      simp

theorem rowCells_getD (c : UDPFlaschenTaschen) (T h : Int) (q : Nat)
    (hq : q < (h * c.width_).toNat) :
    (c.rowCells T h).getD q Color.black =
      c.pixel_buffer_.getD ((T * c.width_).toNat + q) Color.black := by
  unfold rowCells
  rw [List.getD_eq_getElem?_getD, List.getD_eq_getElem?_getD, List.getElem?_take, if_pos hq,
    List.getElem?_drop]

/-- Pixel `(x, y)` of a frame of `Send` is the canvas cell of column `x` in row `T + y`,
which is the cell shown at the position the frame declares for it. -/
theorem framePixel_eq (c : UDPFlaschenTaschen) (f : WriteCall) (hf : c.FrameOf f)
    (hW : 1 ≤ c.width_) (x y : Int) (hx0 : 0 ≤ x) (hx1 : x < c.width_) (hy0 : 0 ≤ y)
    (hy1 : y < f.send_h) :
    framePixel c f x y = canvasAt c (c.off_x_ + x) (c.off_y_ + f.tile_offset + y) := by
  obtain ⟨h1, h0, _, _, e1⟩ := hf
  have a1 : 0 ≤ y * c.width_ := Int.mul_nonneg hy0 (by omega)
  have a2 : 0 ≤ f.tile_offset * c.width_ := Int.mul_nonneg h0 (by omega)
  have a3 : (y + 1) * c.width_ ≤ f.send_h * c.width_ :=
    Int.mul_le_mul_of_nonneg_right (by omega) (by omega)
  have a4 : (y + 1) * c.width_ = y * c.width_ + c.width_ := by ring
  have hq : (y * c.width_ + x).toNat < (f.send_h * c.width_).toNat := by omega
  have a5 : (c.off_y_ + f.tile_offset + y - c.off_y_) * c.width_ + (c.off_x_ + x - c.off_x_) =
      f.tile_offset * c.width_ + (y * c.width_ + x) := by ring
  unfold framePixel canvasAt WriteCall.datagram
  rw [colorAt_append, e1]
  unfold rowBytes
  rw [colorAt_flatMap_bytes, rowCells_getD c _ _ _ hq, a5, Int.toNat_add a2 (by omega)]

theorem mem_frameWrites (c : UDPFlaschenTaschen) (f : WriteCall) (w : PixelWrite) :
    w ∈ frameWrites c f ↔
      ∃ x y : Int, 0 ≤ x ∧ x < c.width_ ∧ 0 ≤ y ∧ y < f.send_h ∧
        w = ⟨toInt (x + c.off_x_), toInt (y + toInt (c.off_y_ + f.tile_offset)),
          framePixel c f x y⟩ := by
  unfold frameWrites
  rw [mem_drawStep]
  unfold frameInfo framePixel
  simp only
  constructor
  · rintro ⟨j, i, hj, hi, rfl⟩
    refine ⟨i, j, by omega, by omega, by omega, by omega, ?_⟩
    have hw : c.width_ = (c.width_.toNat : Int) := by omega
    have e : ((j : Int) * c.width_ + (i : Int)).toNat = j * c.width_.toNat + i := by
      rw [hw]
      exact Int.toNat_ofNat (j * c.width_.toNat + i)
    rw [e]
  · rintro ⟨x, y, hx0, hx1, hy0, hy1, rfl⟩
    refine ⟨y.toNat, x.toNat, by omega, by omega, ?_⟩
    have hw : c.width_ = (c.width_.toNat : Int) := by omega
    have ex : x = (x.toNat : Int) := by omega
    have ey : y = (y.toNat : Int) := by omega
    have e : (y * c.width_ + x).toNat = y.toNat * c.width_.toNat + x.toNat := by
      rw [hw, ex, ey]
      exact Int.toNat_ofNat (y.toNat * c.width_.toNat + x.toNat)
    rw [e, ← ex, ← ey]

/-! ## Reassembly -/

/-- A write of a frame's draw step that lands at a position with non-negative coordinates
was not wrapped around: the position lies in the rectangle the frame covers, and the
colour is the canvas cell that belongs there. -/
theorem frameWrites_covered (c : UDPFlaschenTaschen) (hv : c.Valid) (f : WriteCall)
    (hf : c.FrameOf f) (hW : 1 ≤ c.width_) (w : PixelWrite) (hw : w ∈ frameWrites c f)
    (hx : 0 ≤ w.x) (hy : 0 ≤ w.y) :
    frameCovers c f w.x w.y ∧ w.c = canvasAt c w.x w.y := by
  obtain ⟨x, y, hx0, hx1, hy0, hy1, rfl⟩ := (mem_frameWrites c f w).mp hw
  have hpix := framePixel_eq c f hf hW x y hx0 hx1 hy0 hy1
  obtain ⟨⟨_, hw1⟩, ⟨_, hh1⟩, _, ⟨hox0, hox1⟩, ⟨hoy0, hoy1⟩, _, _⟩ := hv
  obtain ⟨_, ht0, htle, _, _⟩ := hf
  simp only at hx hy
  have ex : toInt (x + c.off_x_) = c.off_x_ + x := by
    unfold toInt at hx ⊢
    omega
  have ey : toInt (y + toInt (c.off_y_ + f.tile_offset)) = c.off_y_ + f.tile_offset + y := by
    unfold toInt at hy ⊢
    omega
  simp only [ex, ey]
  refine ⟨?_, hpix⟩
  unfold frameCovers
  omega

/-- Every position with `int` coordinates in the rectangle a frame covers is written by
the frame's draw step. -/
theorem frameWrites_hits (c : UDPFlaschenTaschen) (hv : c.Valid) (f : WriteCall)
    (hf : c.FrameOf f) (X Y : Int) (h : frameCovers c f X Y) (hX : X < 2 ^ 31)
    (hY : Y < 2 ^ 31) : ∃ w ∈ frameWrites c f, w.x = X ∧ w.y = Y := by
  unfold frameCovers at h
  obtain ⟨_, _, _, ⟨hox0, hox1⟩, ⟨hoy0, hoy1⟩, _, _⟩ := hv
  obtain ⟨_, ht0, htle, _, _⟩ := hf
  refine ⟨⟨toInt (X - c.off_x_ + c.off_x_),
    toInt (Y - c.off_y_ - f.tile_offset + toInt (c.off_y_ + f.tile_offset)),
    framePixel c f (X - c.off_x_) (Y - c.off_y_ - f.tile_offset)⟩, ?_, ?_, ?_⟩
  · exact (mem_frameWrites c f _).mpr ⟨_, _, by omega, by omega, by omega, by omega, rfl⟩
  · simp only
    unfold toInt
    omega
  · simp only
    unfold toInt
    omega

/-- The surface after any sequence of frames of one transmission: a cell of the surface
covered by some delivered frame shows the canvas cell that belongs there. -/
theorem deliver_cell_covered (c : UDPFlaschenTaschen) (hv : c.Valid) (hW : 1 ≤ c.width_)
    (s : Surface) (frames : List WriteCall) (hall : ∀ f ∈ frames, c.FrameOf f) (X Y : Int)
    (hs : s.Has X Y) (hcov : ∃ f ∈ frames, frameCovers c f X Y) :
    (deliver c s frames).cell X Y = canvasAt c X Y := by
  obtain ⟨hX0, hX1, hY0, hY1⟩ := hs
  obtain ⟨_, hsw⟩ := s.width_isInt
  obtain ⟨_, hsh⟩ := s.height_isInt
  rw [deliver_eq_draw]
  apply Surface.draw_cell_written _ X Y _ s ⟨hX0, hX1, hY0, hY1⟩
  · obtain ⟨f, hf, hc⟩ := hcov
    obtain ⟨w, hw, hxy⟩ := frameWrites_hits c hv f (hall f hf) X Y hc (by omega) (by omega)
    exact ⟨w, List.mem_flatMap.mpr ⟨f, hf, hw⟩, hxy⟩
  · intro w hw hx hy
    obtain ⟨f, hf, hwf⟩ := List.mem_flatMap.mp hw
    rw [(frameWrites_covered c hv f (hall f hf) hW w hwf (by omega) (by omega)).2, hx, hy]

/-- A position outside the surface, or covered by no delivered frame, keeps its content. -/
theorem deliver_cell_fresh (c : UDPFlaschenTaschen) (hv : c.Valid) (hW : 1 ≤ c.width_)
    (s : Surface) (frames : List WriteCall) (hall : ∀ f ∈ frames, c.FrameOf f) (X Y : Int)
    (h : ¬ s.Has X Y ∨ ∀ f ∈ frames, ¬ frameCovers c f X Y) :
    (deliver c s frames).cell X Y = s.cell X Y := by
  rw [deliver_eq_draw]
  by_cases hs : s.Has X Y
  · have hno : ∀ f ∈ frames, ¬ frameCovers c f X Y := by
      rcases h with h | h
      · exact absurd hs h
      · exact h
    obtain ⟨hX0, _, hY0, _⟩ := hs
    apply Surface.draw_cell_untouched _ X Y s
    intro w hw hxy
    obtain ⟨f, hf, hwf⟩ := List.mem_flatMap.mp hw
    have hc := (frameWrites_covered c hv f (hall f hf) hW w hwf (by omega) (by omega)).1
    rw [hxy.1, hxy.2] at hc
    exact hno f hf hc
  · exact Surface.draw_cell_not_has _ X Y s hs

theorem deliver_dims (c : UDPFlaschenTaschen) (s : Surface) (frames : List WriteCall) :
    (deliver c s frames).width = s.width ∧ (deliver c s frames).height = s.height := by
  rw [deliver_eq_draw]
  exact ⟨Surface.draw_width _ s, Surface.draw_height _ s⟩

theorem Surface.eq_of_fields (a b : Surface) (hw : a.width = b.width) (hh : a.height = b.height)
    (hc : ∀ X Y, a.cell X Y = b.cell X Y) : a = b := by
  obtain ⟨aw, ah, ac, _, _⟩ := a
  obtain ⟨bw, bh, bc, _, _⟩ := b
  simp only at hw hh hc
  have hfun : ac = bc := funext (fun X => funext (fun Y => hc X Y))
  subst hw hh hfun
  rfl

/-- C10: let `delivered` be any sequence of frames taken from the calls of one `Send` of a
well-formed canvas of width at least 1, in any order (the calls whose write succeeded are
among them). Drawing them with the ingest loop's draw step on a fresh surface `s` whose
`SetPixel` clips gives a surface of the same size in which pixel `(x, y)` of every delivered
frame is found at `(offX + x, offY + T + y)` whenever that position is on the surface, and
every position outside the surface or covered by no delivered frame still has its fresh
content; the result is the same for every reordering of `delivered`. -/
theorem deliver_any_subset (c : UDPFlaschenTaschen) (hv : c.Valid) (hW : 1 ≤ c.width_)
    (outcome : Nat → WriteResult) (fuel : Nat) (s : Surface) (delivered : List WriteCall)
    (hsub : ∀ f ∈ delivered, f ∈ (c.Send outcome fuel).1) :
    ((deliver c s delivered).width = s.width ∧ (deliver c s delivered).height = s.height) ∧
      (∀ f ∈ delivered, ∀ x y : Int, 0 ≤ x → x < c.width_ → 0 ≤ y → y < f.send_h →
        s.Has (c.off_x_ + x) (c.off_y_ + f.tile_offset + y) →
        (deliver c s delivered).cell (c.off_x_ + x) (c.off_y_ + f.tile_offset + y) =
          framePixel c f x y) ∧
      (∀ X Y : Int, (¬ s.Has X Y ∨ ∀ f ∈ delivered, ¬ frameCovers c f X Y) →
        (deliver c s delivered).cell X Y = s.cell X Y) ∧
      (∀ reordered : List WriteCall, reordered.Perm delivered →
        deliver c s reordered = deliver c s delivered) := by
  have hall : ∀ f ∈ delivered, c.FrameOf f :=
    fun f hf => Send_frames c outcome hv hW fuel f (hsub f hf)
  refine ⟨deliver_dims c s delivered, ?_, ?_, ?_⟩
  · intro f hf x y hx0 hx1 hy0 hy1 hs
    rw [framePixel_eq c f (hall f hf) hW x y hx0 hx1 hy0 hy1]
    apply deliver_cell_covered c hv hW s delivered hall _ _ hs
    refine ⟨f, hf, ?_⟩
    unfold frameCovers
    omega
  · intro X Y h
    exact deliver_cell_fresh c hv hW s delivered hall X Y h
  · intro reordered hperm
    have hall2 : ∀ f ∈ reordered, c.FrameOf f := fun f hf => hall f (hperm.mem_iff.mp hf)
    apply Surface.eq_of_fields
    · rw [(deliver_dims c s reordered).1, (deliver_dims c s delivered).1]
    · rw [(deliver_dims c s reordered).2, (deliver_dims c s delivered).2]
    · intro X Y
      by_cases hcase : s.Has X Y ∧ ∃ f ∈ delivered, frameCovers c f X Y
      · obtain ⟨hs, f, hf, hc⟩ := hcase
        rw [deliver_cell_covered c hv hW s delivered hall X Y hs ⟨f, hf, hc⟩,
          deliver_cell_covered c hv hW s reordered hall2 X Y hs ⟨f, hperm.mem_iff.mpr hf, hc⟩]
      · have hfresh : ¬ s.Has X Y ∨ ∀ f ∈ delivered, ¬ frameCovers c f X Y := by
          by_cases hs : s.Has X Y
          · exact Or.inr (fun f hf hc => hcase ⟨hs, f, hf, hc⟩)
          · exact Or.inl hs
        have hfresh2 : ¬ s.Has X Y ∨ ∀ f ∈ reordered, ¬ frameCovers c f X Y := by
          rcases hfresh with h | h
          · exact Or.inl h
          · exact Or.inr (fun f hf => h f (hperm.mem_iff.mp hf))
        rw [deliver_cell_fresh c hv hW s delivered hall X Y hfresh,
          deliver_cell_fresh c hv hW s reordered hall2 X Y hfresh2]

/-- C10 at a concrete input: of the two frames of the 3x2 sample canvas only the second is
delivered, to a fresh 4x4 surface. -/
theorem deliver_any_subset_witness :
    (sampleOneRow.Valid ∧ 1 ≤ sampleOneRow.width_ ∧
      ∀ f ∈ [sampleSecondCall], f ∈ (sampleOneRow.Send allOk 2).1) ∧
    (((deliver sampleOneRow sampleSurface [sampleSecondCall]).width = sampleSurface.width ∧
        (deliver sampleOneRow sampleSurface [sampleSecondCall]).height = sampleSurface.height) ∧
      (∀ f ∈ [sampleSecondCall], ∀ x y : Int, 0 ≤ x → x < sampleOneRow.width_ → 0 ≤ y →
        y < f.send_h →
        sampleSurface.Has (sampleOneRow.off_x_ + x) (sampleOneRow.off_y_ + f.tile_offset + y) →
        (deliver sampleOneRow sampleSurface [sampleSecondCall]).cell (sampleOneRow.off_x_ + x)
          (sampleOneRow.off_y_ + f.tile_offset + y) = framePixel sampleOneRow f x y) ∧
      (∀ X Y : Int, (¬ sampleSurface.Has X Y ∨
          ∀ f ∈ [sampleSecondCall], ¬ frameCovers sampleOneRow f X Y) →
        (deliver sampleOneRow sampleSurface [sampleSecondCall]).cell X Y =
          sampleSurface.cell X Y) ∧
      (∀ reordered : List WriteCall, reordered.Perm [sampleSecondCall] →
        deliver sampleOneRow sampleSurface reordered =
          deliver sampleOneRow sampleSurface [sampleSecondCall])) :=
  ⟨by decide, deliver_any_subset sampleOneRow (by decide) (by decide) allOk 2 sampleSurface
    [sampleSecondCall] (by decide)⟩

/-! ## Packet-size negotiation -/

/-- C6: for every canvas, whatever its configured maximum, a requested packet size above
65507 makes `SetMaxUDPPacketSize` return false and leaves the canvas, in particular the
configured maximum, as it was. -/
theorem SetMaxUDPPacketSize_rejects_above_ceiling (c : UDPFlaschenTaschen) (P : Nat)
    (hP : P > 65507) :
    c.SetMaxUDPPacketSize P = (false, c) ∧
      (c.SetMaxUDPPacketSize P).2.max_udp_size_ = c.max_udp_size_ := by
  have h : c.SetMaxUDPPacketSize P = (false, c) := by
    unfold UDPFlaschenTaschen.SetMaxUDPPacketSize
    rw [if_pos hP]
  exact ⟨h, by rw [h]⟩

/-- C6 at a concrete input: the size 65508 is refused on the sample canvas. -/
theorem SetMaxUDPPacketSize_rejects_above_ceiling_witness :
    65508 > 65507 ∧ (sample3x2.SetMaxUDPPacketSize 65508 = (false, sample3x2) ∧
      (sample3x2.SetMaxUDPPacketSize 65508).2.max_udp_size_ = sample3x2.max_udp_size_) :=
  ⟨by decide, SetMaxUDPPacketSize_rejects_above_ceiling sample3x2 65508 (by decide)⟩

/-- C5: the requested size 0 is below the minimum `3 * 3 + 64` of a canvas of width 3, yet
`SetMaxUDPPacketSize` returns true and stores it: `packet_size - 64` wraps around in
`size_t`, so the quotient by the row size is not zero. -/
theorem SetMaxUDPPacketSize_accepts_zero :
    (0 : Int) < 3 * sample3x2.width_ + 64 ∧
      sample3x2.SetMaxUDPPacketSize 0 = (true, { sample3x2 with max_udp_size_ := 0 }) := by
  decide

/-- C4: on a canvas of width 2710 the size 8194, which is `3 * 2710 + 64`, is accepted by
`SetMaxUDPPacketSize`, but `Send` clamps it to 8192 and computes `max_send_height = 0`:
its assertion fails and nothing is sent. -/
theorem Send_assertion_fails_after_accepted_size :
    ((UDPFlaschenTaschen.new 3 2710 1 0 none).SetMaxUDPPacketSize 8194).1 = true ∧
      ((UDPFlaschenTaschen.new 3 2710 1 0 none).SetMaxUDPPacketSize 8194).2.max_send_height = 0 ∧
      ((UDPFlaschenTaschen.new 3 2710 1 0 none).SetMaxUDPPacketSize 8194).2.Send
        UDPFlaschenTaschen.allOk 1 = ([], UDPFlaschenTaschen.SendStatus.assertFailed) := by
  decide

/-- C3: a 1x1 canvas constructed with the packet size 10: `SetMaxUDPPacketSize` accepts 10
(the subtraction of the header reserve wraps around), the configured maximum is 10, and
`Send` emits one datagram of 25 bytes, more than the configured maximum. -/
theorem Send_datagram_exceeds_accepted_size :
    ((UDPFlaschenTaschen.new 3 1 1 0 none).SetMaxUDPPacketSize 10).1 = true ∧
      (UDPFlaschenTaschen.new 3 1 1 10 none).max_udp_size_ = 10 ∧
      ((UDPFlaschenTaschen.emitted
        ((UDPFlaschenTaschen.new 3 1 1 10 none).Send UDPFlaschenTaschen.allOk 1)).map
          List.length) = [25] := by
  decide

/-! ## Pixel access -/

/-- C9: a `SetPixel` whose position lies outside the canvas returns the canvas unchanged:
pixel buffer, dimensions and offsets (and every other field) are as before. -/
theorem SetPixel_outside_unchanged (c : UDPFlaschenTaschen) (x y : Int) (col : Color)
    (h : x < 0 ∨ x ≥ c.width_ ∨ y < 0 ∨ y ≥ c.height_) :
    c.SetPixel x y col = c := by
  unfold UDPFlaschenTaschen.SetPixel
  rw [if_pos h]

/-- C9 at a concrete input: writing at column 3 of the 3x2 sample canvas changes nothing. -/
theorem SetPixel_outside_unchanged_witness :
    ((3 : Int) < 0 ∨ 3 ≥ sample3x2.width_ ∨ (1 : Int) < 0 ∨ 1 ≥ sample3x2.height_) ∧
      sample3x2.SetPixel 3 1 ⟨7, 7, 7⟩ = sample3x2 :=
  ⟨by decide, SetPixel_outside_unchanged sample3x2 3 1 ⟨7, 7, 7⟩ (by decide)⟩

/-- C8: on the 3x2 sample canvas `GetPixel(-1, 0)` computes the index -1, outside the
buffer, and `GetPixel(-1, 1)` returns the cell at column 2 of row 0, not the cell at
column 2 of row 1 (index 5): the C remainder of a negative number is negative. -/
theorem GetPixel_negative_coordinate :
    sample3x2.getPixelIndex (-1) 0 = -1 ∧ sample3x2.GetPixel (-1) 0 = none ∧
      sample3x2.GetPixel (-1) 1 = sample3x2.pixel_buffer_.get? 2 ∧
      sample3x2.GetPixel (-1) 1 ≠ sample3x2.pixel_buffer_.get? 5 := by
  decide

/-! ## The receive loop -/

theorem drawStep_length (info : ImageMetaInfo) (packet : List UInt8) (pos : Nat) :
    (drawStep info packet pos).length = info.height.toNat * info.width.toNat := by
  rw [drawStep_eq, List.length_flatMap]
  simp [Function.comp_def]

theorem drawStep_final_pos (info : ImageMetaInfo) (packet : List UInt8) (pos : Nat) :
    (drawRows info packet info.height.toNat 0 pos).2 =
      pos + 3 * (info.height.toNat * info.width.toNat) := by
  rw [drawRows_eq]

theorem byteAt_congr (p q : List UInt8) (i : Nat) (h : p.get? i = q.get? i) :
    byteAt p i = byteAt q i := by
  unfold byteAt
  rw [List.getD_eq_getElem?_getD, List.getD_eq_getElem?_getD]
  simp only [List.get?_eq_getElem?] at h
  rw [h]

/-- The draw step depends on the packet only through the `3 * w * h` bytes from
`pixel_pos` on. -/
theorem drawStep_congr (info : ImageMetaInfo) (p q : List UInt8) (pos : Nat)
    (h : ∀ i, i < 3 * (info.height.toNat * info.width.toNat) →
      p.get? (pos + i) = q.get? (pos + i)) :
    drawStep info p pos = drawStep info q pos := by
  rw [drawStep_eq, drawStep_eq]
  apply List.flatMap_congr
  intro j hj
  apply List.map_congr_left
  intro i hi
  rw [List.mem_range] at hj hi
  have hlt : 3 * (j * info.width.toNat + i) + 2 < 3 * (info.height.toNat * info.width.toNat) := by
    have h1 : (j + 1) * info.width.toNat ≤ info.height.toNat * info.width.toNat :=
      Nat.mul_le_mul_right _ hj
    rw [Nat.add_mul, Nat.one_mul] at h1
    omega
  have e0 : byteAt p (pos + 3 * (j * info.width.toNat + i)) =
      byteAt q (pos + 3 * (j * info.width.toNat + i)) :=
    byteAt_congr p q _ (h (3 * (j * info.width.toNat + i)) (by omega))
  have e1 : byteAt p (pos + 3 * (j * info.width.toNat + i) + 1) =
      byteAt q (pos + 3 * (j * info.width.toNat + i) + 1) := by
    rw [Nat.add_assoc]
    exact byteAt_congr p q _ (h (3 * (j * info.width.toNat + i) + 1) (by omega))
  have e2 : byteAt p (pos + 3 * (j * info.width.toNat + i) + 2) =
      byteAt q (pos + 3 * (j * info.width.toNat + i) + 2) := by
    rw [Nat.add_assoc]
    exact byteAt_congr p q _ (h (3 * (j * info.width.toNat + i) + 2) (by omega))
  unfold colorAt
  rw [e0, e1, e2]

/-! ## Reading back what `%d` printed -/

theorem digitChar_byte :
    ∀ k, k < 10 → isDigit ((Nat.digitChar k).toNat.toUInt8) = true ∧
      ((Nat.digitChar k).toNat.toUInt8).toNat - 48 = k := by
  decide

theorem toDigitsCore_append (fuel : Nat) :
    ∀ (n : Nat) (ds : List Char),
      Nat.toDigitsCore 10 fuel n ds = Nat.toDigitsCore 10 fuel n [] ++ ds := by
  induction fuel with
  | zero => intro n ds; simp [Nat.toDigitsCore]
  | succ fuel ih =>
    intro n ds
    simp only [Nat.toDigitsCore]
    split
    · simp
    · rw [ih (n / 10) (Nat.digitChar (n % 10) :: ds), ih (n / 10) [Nat.digitChar (n % 10)]]
      simp

/-- The digits printed for `n` are digit bytes, at least one, and their value is `n`. -/
theorem toDigitsCore_value (fuel : Nat) :
    ∀ n, n < fuel →
      (∀ b ∈ asciiBytes (Nat.toDigitsCore 10 fuel n []), isDigit b = true) ∧
      (asciiBytes (Nat.toDigitsCore 10 fuel n [])).foldl
        (fun a b => 10 * a + (b.toNat - 48)) 0 = n ∧
      asciiBytes (Nat.toDigitsCore 10 fuel n []) ≠ [] := by
  induction fuel with
  | zero => intro n h; omega
  | succ fuel ih =>
    intro n hn
    have hd := digitChar_byte (n % 10) (Nat.mod_lt _ (by omega))
    simp only [Nat.toDigitsCore]
    split
    · rename_i h0
      have hn10 : n % 10 = n := by omega
      refine ⟨?_, ?_, ?_⟩
      · intro b hb
        simp only [asciiBytes, List.map_cons, List.map_nil, List.mem_singleton] at hb
        rw [hb]; exact hd.1
      · simp only [asciiBytes, List.map_cons, List.map_nil, List.foldl_cons, List.foldl_nil]
        rw [hd.2]; omega
      · simp [asciiBytes]
    · rename_i h0
      obtain ⟨i1, i2, _⟩ := ih (n / 10) (by omega)
      rw [toDigitsCore_append]
      have hsplit : asciiBytes (Nat.toDigitsCore 10 fuel (n / 10) [] ++ [Nat.digitChar (n % 10)]) =
          asciiBytes (Nat.toDigitsCore 10 fuel (n / 10) []) ++
            [(Nat.digitChar (n % 10)).toNat.toUInt8] := by
        simp [asciiBytes]
      rw [hsplit]
      refine ⟨?_, ?_, ?_⟩
      · intro b hb
        rcases List.mem_append.mp hb with h | h
        · exact i1 b h
        · rw [List.mem_singleton] at h
          rw [h]; exact hd.1
      · rw [List.foldl_append, i2]
        simp only [List.foldl_cons, List.foldl_nil]
        rw [hd.2]; omega
      · simp

theorem readDigits_append :
    ∀ (xs : List UInt8) (acc : Nat) (ys : List UInt8), (∀ b ∈ xs, isDigit b = true) →
      readDigits acc (xs ++ ys) =
        readDigits (xs.foldl (fun a b => 10 * a + (b.toNat - 48)) acc) ys := by
  intro xs
  induction xs with
  | nil => intro acc ys _; rfl
  | cons x xs ih =>
    intro acc ys h
    have hx : isDigit x = true := h x (List.mem_cons_self _ _)
    rw [List.cons_append, readDigits, if_pos hx, ih _ _ (fun b hb => h b (List.mem_cons_of_mem _ hb))]
    rfl

theorem readDigits_stop (acc : Nat) (b : UInt8) (rest : List UInt8) (h : isDigit b = false) :
    readDigits acc (b :: rest) = (acc, b :: rest) := by
  rw [readDigits, if_neg (by rw [h]; simp)]

/-- Reading back a printed natural number that is followed by a byte that is no digit. -/
theorem readNat_toDigits (n : Nat) (b : UInt8) (rest : List UInt8) (h : isDigit b = false) :
    readNat (asciiBytes (Nat.toDigits 10 n) ++ b :: rest) = some (n, b :: rest) := by
  obtain ⟨h1, h2, h3⟩ := toDigitsCore_value (n + 1) n (by omega)
  have e : Nat.toDigits 10 n = Nat.toDigitsCore 10 (n + 1) n [] := rfl
  rw [e]
  generalize asciiBytes (Nat.toDigitsCore 10 (n + 1) n []) = ds at h1 h2 h3
  cases ds with
  | nil => exact absurd rfl h3
  | cons d ds =>
    have hd : isDigit d = true := h1 d (List.mem_cons_self _ _)
    rw [List.cons_append, readNat, if_pos hd, ← List.cons_append, readDigits_append _ _ _ h1, h2,
      readDigits_stop _ _ _ h]

/-- The bytes printed for an integer start with a digit or a minus sign and consist of
such bytes. -/
theorem fmtInt_bytes (i : Int) :
    ∃ d ds, asciiBytes (fmtInt i) = d :: ds ∧
      ∀ b ∈ d :: ds, isDigit b = true ∨ b = 45 := by
  obtain ⟨h1, _, h3⟩ := toDigitsCore_value (i.natAbs + 1) i.natAbs (by omega)
  have e : Nat.toDigits 10 i.natAbs = Nat.toDigitsCore 10 (i.natAbs + 1) i.natAbs [] := rfl
  unfold fmtInt
  split
  · refine ⟨45, asciiBytes (Nat.toDigits 10 i.natAbs), rfl, ?_⟩
    intro b hb
    rcases List.mem_cons.mp hb with h | h
    · exact Or.inr h
    · rw [e] at h; exact Or.inl (h1 b h)
  · rw [e]
    generalize asciiBytes (Nat.toDigitsCore 10 (i.natAbs + 1) i.natAbs []) = ds at h1 h3
    cases ds with
    | nil => exact absurd rfl h3
    | cons d ds => exact ⟨d, ds, rfl, fun b hb => Or.inl (h1 b hb)⟩

/-- Reading back a printed integer that is followed by a byte that is no digit. -/
theorem readInt_fmtInt (i : Int) (b : UInt8) (rest : List UInt8) (h : isDigit b = false) :
    readInt (asciiBytes (fmtInt i) ++ b :: rest) = some (i, b :: rest) := by
  unfold fmtInt
  split
  · rename_i hneg
    have e : asciiBytes ('-' :: Nat.toDigits 10 i.natAbs) =
        45 :: asciiBytes (Nat.toDigits 10 i.natAbs) := rfl
    have h45 : ((45 : UInt8) == 45) = true := by decide
    rw [e, List.cons_append, readInt, if_pos h45, readNat_toDigits _ _ _ h]
    simp only [Option.map_some']
    have : -(i.natAbs : Int) = i := by omega
    rw [this]
  · rename_i hpos
    obtain ⟨h1, _, h3⟩ := toDigitsCore_value (i.natAbs + 1) i.natAbs (by omega)
    have e : Nat.toDigits 10 i.natAbs = Nat.toDigitsCore 10 (i.natAbs + 1) i.natAbs [] := rfl
    have hread := readNat_toDigits i.natAbs b rest h
    rw [e] at hread ⊢
    generalize asciiBytes (Nat.toDigitsCore 10 (i.natAbs + 1) i.natAbs []) = ds at h1 h3 hread
    cases ds with
    | nil => exact absurd rfl h3
    | cons d ds =>
      have hd : isDigit d = true := h1 d (List.mem_cons_self _ _)
      have hne : (d == 45) = false := by
        by_contra hc
        have h45 : d = 45 := by simpa using hc
        rw [h45] at hd
        exact absurd hd (by decide)
      rw [List.cons_append, readInt, if_neg (by rw [hne]; simp), ← List.cons_append, hread]
      simp only [Option.map_some']
      have : (i.natAbs : Int) = i := by omega
      rw [this]

/-! ## Decoding a header that `Send` formatted -/

theorem digitChar_byte_class :
    ∀ k, k < 10 → isSpace ((Nat.digitChar k).toNat.toUInt8) = false ∧
      (((Nat.digitChar k).toNat.toUInt8) == 10) = false ∧
      ((((Nat.digitChar k).toNat.toUInt8) == 32) || (((Nat.digitChar k).toNat.toUInt8) == 9)) =
        false := by
  decide

theorem toDigitsCore_bytes (fuel : Nat) :
    ∀ n, ∀ b ∈ asciiBytes (Nat.toDigitsCore 10 fuel n []),
      ∃ k, k < 10 ∧ b = (Nat.digitChar k).toNat.toUInt8 := by
  induction fuel with
  | zero => intro n b hb; simp [Nat.toDigitsCore, asciiBytes] at hb
  | succ fuel ih =>
    intro n b hb
    simp only [Nat.toDigitsCore] at hb
    split at hb
    · simp only [asciiBytes, List.map_cons, List.map_nil, List.mem_singleton] at hb
      exact ⟨n % 10, Nat.mod_lt _ (by omega), hb⟩
    · rw [toDigitsCore_append] at hb
      simp only [asciiBytes, List.map_append, List.map_cons, List.map_nil, List.mem_append,
        List.mem_singleton] at hb
      rcases hb with h | h
      · exact ih (n / 10) b h
      · exact ⟨n % 10, Nat.mod_lt _ (by omega), h⟩

/-- The bytes printed for an integer: at least one, none of them whitespace or a newline. -/
theorem fmtInt_bytes_class (i : Int) :
    ∃ d ds, asciiBytes (fmtInt i) = d :: ds ∧
      ∀ b ∈ d :: ds, isSpace b = false ∧ (b == 10) = false ∧ ((b == 32) || (b == 9)) = false := by
  obtain ⟨d, ds, e, _⟩ := fmtInt_bytes i
  refine ⟨d, ds, e, ?_⟩
  rw [← e]
  intro b hb
  have hdig : ∀ x ∈ asciiBytes (Nat.toDigits 10 i.natAbs),
      isSpace x = false ∧ (x == 10) = false ∧ ((x == 32) || (x == 9)) = false := by
    intro x hx
    obtain ⟨k, hk, rfl⟩ := toDigitsCore_bytes (i.natAbs + 1) i.natAbs x hx
    exact digitChar_byte_class k hk
  unfold fmtInt at hb
  split at hb
  · rcases List.mem_cons.mp hb with h | h
    · rw [h]; decide
    · exact hdig b h
  · exact hdig b hb

theorem fmtInt_natCast (n : Nat) : fmtInt (n : Int) = Nat.toDigits 10 n := by
  unfold fmtInt
  rw [if_neg (by omega)]
  rfl

theorem skipSpaces_fmt (sp : UInt8) (i : Int) (r : List UInt8) (hsp : isSpace sp = true) :
    skipSpaces (sp :: (asciiBytes (fmtInt i) ++ r)) = asciiBytes (fmtInt i) ++ r := by
  obtain ⟨d, ds, e, hc⟩ := fmtInt_bytes_class i
  have hd := (hc d (List.mem_cons_self _ _)).1
  rw [e, skipSpaces, if_pos hsp, List.cons_append, skipSpaces, if_neg (by rw [hd]; simp)]

theorem skipBlanks_fmt (i : Int) (r : List UInt8) :
    skipBlanks (32 :: (asciiBytes (fmtInt i) ++ r)) = asciiBytes (fmtInt i) ++ r := by
  obtain ⟨d, ds, e, hc⟩ := fmtInt_bytes_class i
  have hd := (hc d (List.mem_cons_self _ _)).2.2
  have h32 : (((32 : UInt8) == 32) || ((32 : UInt8) == 9)) = true := by decide
  rw [e, skipBlanks, if_pos h32, List.cons_append, skipBlanks, if_neg (by rw [hd]; simp)]

theorem dropLine_append (l r : List UInt8) (h : ∀ b ∈ l, (b == 10) = false) :
    dropLine (l ++ r) = dropLine r := by
  induction l with
  | nil => rfl
  | cons x l ih =>
    have hx := h x (List.mem_cons_self _ _)
    rw [List.cons_append, dropLine, if_neg (by rw [hx]; simp),
      ih (fun b hb => h b (List.mem_cons_of_mem _ hb))]

theorem dropLine_fmt (i : Int) (r : List UInt8) :
    dropLine (asciiBytes (fmtInt i) ++ r) = dropLine r := by
  obtain ⟨d, ds, e, hc⟩ := fmtInt_bytes_class i
  rw [e]
  exact dropLine_append _ _ (fun b hb => (hc b hb).2.1)

theorem readNat_fmtInt (n : Nat) (b : UInt8) (r : List UInt8) (h : isDigit b = false) :
    readNat (asciiBytes (fmtInt (n : Int)) ++ b :: r) = some (n, b :: r) := by
  rw [fmtInt_natCast]
  exact readNat_toDigits n b r h

theorem headerText_bytes (w h ox oy oz : Int) (payload : List UInt8) :
    asciiBytes (headerText w h ox oy oz) ++ payload =
      80 :: 54 :: 10 :: (asciiBytes (fmtInt w) ++ 32 :: (asciiBytes (fmtInt h) ++
        10 :: 35 :: 70 :: 84 :: 58 :: 32 :: (asciiBytes (fmtInt ox) ++ 32 ::
          (asciiBytes (fmtInt oy) ++ 32 :: (asciiBytes (fmtInt oz) ++
            10 :: 50 :: 53 :: 53 :: 10 :: payload))))) := by
  simp only [headerText, asciiBytes, List.map_append, List.append_assoc]
  rfl

theorem readOffsets_fmt (ox oy oz : Int) (r : List UInt8) :
    readOffsets (32 :: (asciiBytes (fmtInt ox) ++ 32 :: (asciiBytes (fmtInt oy) ++ 32 ::
      (asciiBytes (fmtInt oz) ++ 10 :: r)))) = some (ox, oy, oz) := by
  have h32 : isDigit 32 = false := by decide
  have h10 : isDigit 10 = false := by decide
  unfold readOffsets
  rw [skipBlanks_fmt, readInt_fmtInt ox 32 _ h32]
  simp only
  rw [skipBlanks_fmt, readInt_fmtInt oy 32 _ h32]
  simp only
  rw [skipBlanks_fmt, readInt_fmtInt oz 10 _ h10]

theorem readNat_maxval (r : List UInt8) :
    readNat (skipSpaces (50 :: 53 :: 53 :: 10 :: r)) = some (255, 10 :: r) := by
  rfl

/-- Decoding a formatted header with enough pixel bytes behind it gives back the five
numbers and the position right after the header. -/
theorem ReadImageData_header (W h : Nat) (ox oy oz : Int) (payload : List UInt8)
    (info : ImageMetaInfo) (hlen : W * h * 3 ≤ payload.length) :
    ReadImageData (asciiBytes (headerText W h ox oy oz) ++ payload) info =
      some ({ width := W, height := h, offset_x := ox, offset_y := oy, layer := oz },
        (asciiBytes (headerText W h ox oy oz)).length) := by
  have hpos : (asciiBytes (headerText W h ox oy oz)).length =
      (asciiBytes (headerText W h ox oy oz) ++ payload).length - payload.length := by
    rw [List.length_append]; omega
  have hs10 : isSpace 10 = true := by decide
  have hs32 : isSpace 32 = true := by decide
  have hd32 : isDigit 32 = false := by decide
  have hd10 : isDigit 10 = false := by decide
  rw [hpos, headerText_bytes]
  generalize hbuf : (80 :: 54 :: 10 :: (asciiBytes (fmtInt W) ++ 32 :: (asciiBytes (fmtInt h) ++
        10 :: 35 :: 70 :: 84 :: 58 :: 32 :: (asciiBytes (fmtInt ox) ++ 32 ::
          (asciiBytes (fmtInt oy) ++ 32 :: (asciiBytes (fmtInt oz) ++
            10 :: 50 :: 53 :: 53 :: 10 :: payload))))) : List UInt8).length = total
  unfold ReadImageData
  simp only
  rw [skipSpaces_fmt 10 W _ hs10, readNat_fmtInt W 32 _ hd32]
  simp only
  rw [skipSpaces_fmt 32 h _ hs32, readNat_fmtInt h 10 _ hd10]
  simp only
  have hr3 : skipSpaces (10 :: 35 :: 70 :: 84 :: 58 :: 32 :: (asciiBytes (fmtInt ox) ++ 32 ::
      (asciiBytes (fmtInt oy) ++ 32 :: (asciiBytes (fmtInt oz) ++
        10 :: 50 :: 53 :: 53 :: 10 :: payload)))) =
      35 :: 70 :: 84 :: 58 :: 32 :: (asciiBytes (fmtInt ox) ++ 32 ::
      (asciiBytes (fmtInt oy) ++ 32 :: (asciiBytes (fmtInt oz) ++
        10 :: 50 :: 53 :: 53 :: 10 :: payload))) := rfl
  have hline : dropLine (35 :: 70 :: 84 :: 58 :: 32 :: (asciiBytes (fmtInt ox) ++ 32 ::
      (asciiBytes (fmtInt oy) ++ 32 :: (asciiBytes (fmtInt oz) ++
        10 :: 50 :: 53 :: 53 :: 10 :: payload)))) = 50 :: 53 :: 53 :: 10 :: payload := by
    have e1 : ∀ r : List UInt8, dropLine (35 :: 70 :: 84 :: 58 :: 32 :: r) = dropLine r :=
      fun r => rfl
    have e2 : ∀ r : List UInt8, dropLine (32 :: r) = dropLine r := fun r => rfl
    have e3 : ∀ r : List UInt8, dropLine (10 :: r) = r := fun r => rfl
    rw [e1, dropLine_fmt, e2, dropLine_fmt, e2, dropLine_fmt, e3]
  have hfoot : readFooter (35 :: 70 :: 84 :: 58 :: 32 :: (asciiBytes (fmtInt ox) ++ 32 ::
      (asciiBytes (fmtInt oy) ++ 32 :: (asciiBytes (fmtInt oz) ++
        10 :: 50 :: 53 :: 53 :: 10 :: payload)))) info =
      { info with offset_x := ox, offset_y := oy, layer := oz } := by
    unfold readFooter
    simp only
    rw [readOffsets_fmt]
  rw [hr3]
  have hc : ((35 :: 70 :: 84 :: 58 :: 32 :: (asciiBytes (fmtInt ox) ++ 32 ::
      (asciiBytes (fmtInt oy) ++ 32 :: (asciiBytes (fmtInt oz) ++
        10 :: 50 :: 53 :: 53 :: 10 :: payload))) : List UInt8).head? == some 35) = true := rfl
  simp only [hc, if_true, hline, hfoot, readNat_maxval]
  have hdec : decide (W * h * 3 ≤ payload.length) = true := decide_eq_true hlen
  simp only [hs10, hdec, Bool.and_self, if_true]
  rw [hbuf]

/-! ## Round trip of a frame -/

/-- C11, amended: decoding what `Send` hands to the socket gives back what was encoded. The
decoder `ReadImageData` is the one described by the spec. For every `writev` call of `Send`
on a well-formed canvas of width at least 1 with a rows-per-chunk value of at least 1,
decoding the datagram (with any display size as hint) succeeds with width `W`, the chunk
height `h` (at least 1, at most the rows-per-chunk value), `offset_x = offX`,
`offset_y = s`, layer `offZ`, and a pixel position behind which exactly the `3*W*h` bytes of
the chunk's rows are found. Here `s` is the `int` sum of `offY` and `T` that `Send` printed:
`offY + T` when that is below `2^31`, and `offY + T - 2^32` otherwise. More generally this
holds for the header of any `W >= 1`, `h >= 1`, any offsets, any tile offset and any
`3*W*h` pixel bytes. -/
theorem ReadImageData_Send (c : UDPFlaschenTaschen) (hv : c.Valid) (hW : 1 ≤ c.width_)
    (hR : 1 ≤ c.rowsPerChunk) (outcome : Nat → WriteResult) (fuel : Nat) (w : WriteCall)
    (hw : w ∈ (c.Send outcome fuel).1) (dw dh : Int) :
    (ReadImageData w.datagram (initialInfo dw dh) =
        some ({ width := c.width_, height := w.send_h, offset_x := c.off_x_,
                offset_y := toInt (c.off_y_ + w.tile_offset), layer := c.off_z_ },
          w.iov0.length) ∧
      (c.off_y_ + w.tile_offset < 2 ^ 31 →
        toInt (c.off_y_ + w.tile_offset) = c.off_y_ + w.tile_offset) ∧
      (2 ^ 31 ≤ c.off_y_ + w.tile_offset →
        toInt (c.off_y_ + w.tile_offset) = c.off_y_ + w.tile_offset - 2 ^ 32) ∧
      w.datagram.drop w.iov0.length = c.rowBytes w.tile_offset w.send_h ∧
      (c.rowBytes w.tile_offset w.send_h).length = (3 * c.width_ * w.send_h).toNat ∧
      1 ≤ w.send_h ∧ w.send_h ≤ c.rowsPerChunk) ∧
    (∀ (W h ox oy oz T : Int) (pixels : List UInt8), 1 ≤ W → 1 ≤ h →
      pixels.length = (3 * W * h).toNat →
      ReadImageData (asciiBytes (headerText W h ox (toInt (oy + T)) oz) ++ pixels)
          (initialInfo dw dh) =
          some ({ width := W, height := h, offset_x := ox, offset_y := toInt (oy + T),
                  layer := oz },
            (asciiBytes (headerText W h ox (toInt (oy + T)) oz)).length) ∧
        (asciiBytes (headerText W h ox (toInt (oy + T)) oz) ++ pixels).drop
          (asciiBytes (headerText W h ox (toInt (oy + T)) oz)).length = pixels) := by
  have general : ∀ (W h ox s oz : Int) (pixels : List UInt8), 1 ≤ W → 1 ≤ h →
      pixels.length = (3 * W * h).toNat →
      ReadImageData (asciiBytes (headerText W h ox s oz) ++ pixels) (initialInfo dw dh) =
          some ({ width := W, height := h, offset_x := ox, offset_y := s, layer := oz },
            (asciiBytes (headerText W h ox s oz)).length) ∧
        (asciiBytes (headerText W h ox s oz) ++ pixels).drop
          (asciiBytes (headerText W h ox s oz)).length = pixels := by
    intro W h ox s oz pixels h1 h2 hlen
    obtain ⟨a, rfl⟩ : ∃ a : Nat, W = a := ⟨W.toNat, by omega⟩
    obtain ⟨b, rfl⟩ : ∃ b : Nat, h = b := ⟨h.toNat, by omega⟩
    have e : (3 * (a : Int) * (b : Int)) = ((a * b * 3 : Nat) : Int) := by push_cast; ring
    rw [e, Int.toNat_ofNat] at hlen
    refine ⟨ReadImageData_header a b ox s oz pixels _ (by omega), ?_⟩
    rw [List.drop_left]
  refine ⟨?_, fun W h ox oy oz T pixels => general W h ox (toInt (oy + T)) oz pixels⟩
  obtain ⟨h1, h0, hle, e0, e1⟩ := Send_frames c outcome hv hW fuel w hw
  have hlen := rowBytes_length c hv hW _ _ h0 (by omega) hle
  obtain ⟨g1, g2⟩ := general c.width_ w.send_h c.off_x_ (toInt (c.off_y_ + w.tile_offset))
    c.off_z_ (c.rowBytes w.tile_offset w.send_h) hW h1 hlen
  have hchunk : w.send_h ≤ c.rowsPerChunk := by
    rw [Send_eq_runChunks c hv hW hR outcome fuel] at hw
    obtain ⟨k, _, hk⟩ := runChunks_mem c c.rowsPerChunk outcome fuel 0 0 w hw
    rw [hk]
    exact min_le_left _ _
  obtain ⟨_, ⟨_, hh1⟩, _, _, ⟨hy0, hy1⟩, _, _⟩ := hv
  refine ⟨?_, ?_, ?_, ?_, hlen, h1, hchunk⟩
  · unfold WriteCall.datagram
    rw [e0, e1]
    exact g1
  · intro hlt
    exact toInt_of_isInt ⟨by omega, hlt⟩
  · intro hge
    unfold toInt
    omega
  · unfold WriteCall.datagram
    rw [e0, e1]
    exact g2

/-- C11, amended, at a concrete input: the second frame of the 3x2 sample canvas, decoded
for a 45x35 display. -/
theorem ReadImageData_Send_witness :
    (sampleOneRow.Valid ∧ 1 ≤ sampleOneRow.width_ ∧ 1 ≤ sampleOneRow.rowsPerChunk ∧
      sampleSecondCall ∈ (sampleOneRow.Send allOk 2).1) ∧
    ((ReadImageData sampleSecondCall.datagram (initialInfo 45 35) =
        some ({ width := sampleOneRow.width_, height := sampleSecondCall.send_h,
                offset_x := sampleOneRow.off_x_,
                offset_y := toInt (sampleOneRow.off_y_ + sampleSecondCall.tile_offset),
                layer := sampleOneRow.off_z_ },
          sampleSecondCall.iov0.length) ∧
      (sampleOneRow.off_y_ + sampleSecondCall.tile_offset < 2 ^ 31 →
        toInt (sampleOneRow.off_y_ + sampleSecondCall.tile_offset) =
          sampleOneRow.off_y_ + sampleSecondCall.tile_offset) ∧
      (2 ^ 31 ≤ sampleOneRow.off_y_ + sampleSecondCall.tile_offset →
        toInt (sampleOneRow.off_y_ + sampleSecondCall.tile_offset) =
          sampleOneRow.off_y_ + sampleSecondCall.tile_offset - 2 ^ 32) ∧
      sampleSecondCall.datagram.drop sampleSecondCall.iov0.length =
        sampleOneRow.rowBytes sampleSecondCall.tile_offset sampleSecondCall.send_h ∧
      (sampleOneRow.rowBytes sampleSecondCall.tile_offset sampleSecondCall.send_h).length =
        (3 * sampleOneRow.width_ * sampleSecondCall.send_h).toNat ∧
      1 ≤ sampleSecondCall.send_h ∧ sampleSecondCall.send_h ≤ sampleOneRow.rowsPerChunk) ∧
    (∀ (W h ox oy oz T : Int) (pixels : List UInt8), 1 ≤ W → 1 ≤ h →
      pixels.length = (3 * W * h).toNat →
      ReadImageData (asciiBytes (headerText W h ox (toInt (oy + T)) oz) ++ pixels)
          (initialInfo 45 35) =
          some ({ width := W, height := h, offset_x := ox, offset_y := toInt (oy + T),
                  layer := oz },
            (asciiBytes (headerText W h ox (toInt (oy + T)) oz)).length) ∧
        (asciiBytes (headerText W h ox (toInt (oy + T)) oz) ++ pixels).drop
          (asciiBytes (headerText W h ox (toInt (oy + T)) oz)).length = pixels)) :=
  ⟨by decide, ReadImageData_Send sampleOneRow (by decide) (by decide) (by decide) allOk 2
    sampleSecondCall (by decide) 45 35⟩

/-- C11 as stated fails where the sum `offY + T` leaves the range of `int`: for the 3x2
sample canvas with one row per chunk and `SetOffset(0, 2147483647, 0)`, decoding the
datagram of the chunk at tile offset 1 recovers `offset_y = -2147483648`, which is not
`offY + T = 2147483648`. -/
theorem ReadImageData_recovers_wrapped_offset :
    sampleFarOffset.Valid ∧ 1 ≤ sampleFarOffset.width_ ∧ 1 ≤ sampleFarOffset.rowsPerChunk ∧
      (sampleFarOffset.Send allOk 2).1.map
          (fun w => (w.tile_offset,
            (ReadImageData w.datagram (initialInfo 45 35)).map (fun r => r.1.offset_y))) =
        [(0, some 2147483647), (1, some (-2147483648))] ∧
      ¬ (∀ w ∈ (sampleFarOffset.Send allOk 2).1,
        (ReadImageData w.datagram (initialInfo 45 35)).map (fun r => r.1) =
          some { width := sampleFarOffset.width_, height := w.send_h,
                 offset_x := sampleFarOffset.off_x_,
                 offset_y := sampleFarOffset.off_y_ + w.tile_offset,
                 layer := sampleFarOffset.off_z_ }) := by
  decide

/-! ## Dispatch of a datagram -/

/-- The decoder is handed the bytes of the datagram, cut to the size of the buffer. -/
theorem recvmsg_received (packet_buffer datagram : List UInt8) :
    (recvmsg packet_buffer datagram).1.take (recvmsg packet_buffer datagram).2 =
      datagram.take packet_buffer.length := by
  unfold recvmsg
  simp only
  rw [List.take_append_of_le_length (by rw [List.length_take]; omega), List.take_take,
    Nat.min_self]
  by_cases h : datagram.length ≤ packet_buffer.length
  · rw [Nat.min_eq_left h, List.take_of_length_le (le_refl _), List.take_of_length_le h]
  · rw [Nat.min_eq_right (by omega)]

/-- Inside the received bytes the buffer holds the bytes of the datagram. -/
theorem byteAt_recvmsg (packet_buffer datagram : List UInt8) (pos i : Nat)
    (h : pos + i < (recvmsg packet_buffer datagram).2) :
    byteAt (recvmsg packet_buffer datagram).1 (pos + i) = (datagram.drop pos).getD i 0 := by
  unfold recvmsg at h ⊢
  simp only at h ⊢
  unfold byteAt
  rw [List.getD_append _ _ _ _ (by rw [List.length_take]; omega), List.getD_eq_getElem?_getD,
    List.getD_eq_getElem?_getD, List.getElem?_take, if_pos h, List.getElem?_drop]

theorem cell_index_lt (h w j i : Nat) (hj : j < h) (hi : i < w) : j * w + i < h * w := by
  have h1 : (j + 1) * w ≤ h * w := Nat.mul_le_mul_right w hj
  rw [Nat.add_mul, Nat.one_mul] at h1
  omega

/-- The draw step on a datagram whose pixel data lies inside the received bytes: the
colours are those of the pixel data `p`, which starts at `pixel_pos` in the datagram. -/
theorem drawStep_recvmsg (info : ImageMetaInfo) (packet_buffer datagram : List UInt8)
    (pixel_pos : Nat)
    (hin : pixel_pos + 3 * (info.height.toNat * info.width.toNat) ≤
      (recvmsg packet_buffer datagram).2) :
    drawStep info (recvmsg packet_buffer datagram).1 pixel_pos =
      (List.range info.height.toNat).flatMap (fun y : Nat =>
        (List.range info.width.toNat).map (fun x : Nat =>
          (⟨toInt (x + info.offset_x), toInt (y + info.offset_y),
            ⟨(datagram.drop pixel_pos).getD (3 * (y * info.width.toNat + x)) 0,
              (datagram.drop pixel_pos).getD (3 * (y * info.width.toNat + x) + 1) 0,
              (datagram.drop pixel_pos).getD (3 * (y * info.width.toNat + x) + 2) 0⟩⟩ :
            PixelWrite))) := by
  rw [drawStep_eq]
  apply List.flatMap_congr
  intro j hj
  apply List.map_congr_left
  intro i hi
  have hlt := cell_index_lt _ _ j i (List.mem_range.mp hj) (List.mem_range.mp hi)
  unfold colorAt
  rw [byteAt_recvmsg _ _ _ _ (by omega), Nat.add_assoc, byteAt_recvmsg _ _ _ _ (by omega),
    Nat.add_assoc, byteAt_recvmsg _ _ _ _ (by omega)]

theorem udp_server_run_blocking_nil
    (decode : List UInt8 → ImageMetaInfo → Option (ImageMetaInfo × Nat)) (width height : Int)
    (packet_buffer : List UInt8) :
    udp_server_run_blocking decode width height packet_buffer [] = [] := by
  rw [udp_server_run_blocking]

/-- One pass of the loop in which a datagram arrives. -/
theorem udp_server_run_blocking_datagram
    (decode : List UInt8 → ImageMetaInfo → Option (ImageMetaInfo × Nat)) (width height : Int)
    (packet_buffer packet : List UInt8) (rest : List Arrival) :
    udp_server_run_blocking decode width height packet_buffer
        ({ interrupt_received := false, recv := RecvResult.datagram packet } :: rest) =
      ingest (decode ((recvmsg packet_buffer packet).1.take (recvmsg packet_buffer packet).2)
          (initialInfo width height)) (recvmsg packet_buffer packet).1 ++
        udp_server_run_blocking decode width height (recvmsg packet_buffer packet).1 rest := by
  rw [udp_server_run_blocking]
  simp only [Bool.false_eq_true, if_false]

theorem ingest_some (info : ImageMetaInfo) (pixel_pos : Nat) (packet : List UInt8) :
    ingest (some (info, pixel_pos)) packet =
      [DisplayOp.Lock, DisplayOp.SetLayer info.layer] ++
        (drawStep info packet pixel_pos).map DisplayOp.SetPixel ++
        [DisplayOp.Send, DisplayOp.SetLayer 0, DisplayOp.Unlock] := rfl

theorem samplePacketBuffer_length : samplePacketBuffer.length = 65535 :=
  List.length_replicate _ _

/-- A datagram cut off inside its pixel data, received into the sample buffer, fails to
decode. -/
theorem sampleTruncated_fails :
    ReadImageData ((recvmsg samplePacketBuffer sampleTruncated).1.take
      (recvmsg samplePacketBuffer sampleTruncated).2) (initialInfo 45 35) = none := by
  rw [recvmsg_received, samplePacketBuffer_length]
  decide

/-- The second frame of the 3x2 sample canvas, received into the sample buffer, decodes to
what it declares, with all its pixel data inside the received bytes. -/
theorem sampleSecondCall_decodes :
    ReadImageData ((recvmsg samplePacketBuffer sampleSecondCall.datagram).1.take
        (recvmsg samplePacketBuffer sampleSecondCall.datagram).2) (initialInfo 45 35) =
        some (frameInfo sampleOneRow sampleSecondCall, 22) ∧
      22 + 3 * ((frameInfo sampleOneRow sampleSecondCall).height.toNat *
          (frameInfo sampleOneRow sampleSecondCall).width.toNat) ≤
        (recvmsg samplePacketBuffer sampleSecondCall.datagram).2 := by
  constructor
  · rw [recvmsg_received, samplePacketBuffer_length]
    decide
  · have h : (recvmsg samplePacketBuffer sampleSecondCall.datagram).2 =
        min sampleSecondCall.datagram.length samplePacketBuffer.length := rfl
    rw [h, samplePacketBuffer_length]
    decide

theorem sampleFarDatagram_decodes :
    ReadImageData ((recvmsg samplePacketBuffer sampleFarDatagram).1.take
        (recvmsg samplePacketBuffer sampleFarDatagram).2) (initialInfo 45 35) =
      some ({ width := 2, height := 1, offset_x := 2147483647, offset_y := 0, layer := 0 },
        31) := by
  rw [recvmsg_received, samplePacketBuffer_length]
  decide

/-- The operations of the loop on the sample datagram with the far horizontal offset. -/
theorem sampleFarDatagram_ops :
    udp_server_run_blocking ReadImageData 45 35 samplePacketBuffer
        ({ interrupt_received := false, recv := RecvResult.datagram sampleFarDatagram } :: []) =
      [DisplayOp.Lock, DisplayOp.SetLayer 0,
        DisplayOp.SetPixel ⟨2147483647, 0, ⟨1, 2, 3⟩⟩,
        DisplayOp.SetPixel ⟨-2147483648, 0, ⟨4, 5, 6⟩⟩,
        DisplayOp.Send, DisplayOp.SetLayer 0, DisplayOp.Unlock] := by
  have hin : 31 + 3 * ((1 : Int).toNat * (2 : Int).toNat) ≤
      (recvmsg samplePacketBuffer sampleFarDatagram).2 := by
    have h : (recvmsg samplePacketBuffer sampleFarDatagram).2 =
        min sampleFarDatagram.length samplePacketBuffer.length := rfl
    rw [h, samplePacketBuffer_length]
    decide
  rw [udp_server_run_blocking_datagram, udp_server_run_blocking_nil,
    sampleFarDatagram_decodes, ingest_some,
    drawStep_recvmsg (⟨2, 1, 2147483647, 0, 0⟩ : ImageMetaInfo) samplePacketBuffer
      sampleFarDatagram 31 hin]
  decide

/-- C12: when decoding a received datagram fails (`ReadImageData` returns null), the
iteration performs no operation at all on the lock or the display (no `Lock`, `SetLayer`,
`SetPixel`, `Send`, `Unlock`), so any state driven by these operations, such as the surface
content, the active layer or the lock, is unchanged, and the loop goes on with the next
receive, the buffer holding the datagram that failed. This holds for every decoder and
every content of the packet buffer. -/
theorem ingest_decode_failure
    (decode : List UInt8 → ImageMetaInfo → Option (ImageMetaInfo × Nat)) (width height : Int)
    (packet_buffer packet : List UInt8) (rest : List Arrival)
    (hfail : decode ((recvmsg packet_buffer packet).1.take (recvmsg packet_buffer packet).2)
      (initialInfo width height) = none) :
    ingest (decode ((recvmsg packet_buffer packet).1.take (recvmsg packet_buffer packet).2)
        (initialInfo width height)) (recvmsg packet_buffer packet).1 = [] ∧
      udp_server_run_blocking decode width height packet_buffer
          ({ interrupt_received := false, recv := RecvResult.datagram packet } :: rest) =
        udp_server_run_blocking decode width height (recvmsg packet_buffer packet).1 rest ∧
      (∀ m : LockMonitor,
        m.run (ingest (decode ((recvmsg packet_buffer packet).1.take
          (recvmsg packet_buffer packet).2) (initialInfo width height))
          (recvmsg packet_buffer packet).1) = m) ∧
      (∀ (σ : Type) (step : σ → DisplayOp → σ) (st : σ),
        (ingest (decode ((recvmsg packet_buffer packet).1.take
          (recvmsg packet_buffer packet).2) (initialInfo width height))
          (recvmsg packet_buffer packet).1).foldl step st = st) := by
  have h0 : ingest (decode ((recvmsg packet_buffer packet).1.take
      (recvmsg packet_buffer packet).2) (initialInfo width height))
      (recvmsg packet_buffer packet).1 = [] := by
    rw [hfail]; rfl
  refine ⟨h0, ?_, ?_, ?_⟩
  · rw [udp_server_run_blocking]
    simp only [Bool.false_eq_true, if_false, h0, List.nil_append]
  · intro m; rw [h0]; rfl
  · intro σ step st; rw [h0]; rfl

/-- C12 at a concrete input: a datagram cut off inside its pixel data fails to decode and
is skipped. -/
theorem ingest_decode_failure_witness :
    ReadImageData ((recvmsg samplePacketBuffer sampleTruncated).1.take
      (recvmsg samplePacketBuffer sampleTruncated).2) (initialInfo 45 35) = none ∧
    (ingest (ReadImageData ((recvmsg samplePacketBuffer sampleTruncated).1.take
        (recvmsg samplePacketBuffer sampleTruncated).2) (initialInfo 45 35))
        (recvmsg samplePacketBuffer sampleTruncated).1 = [] ∧
      udp_server_run_blocking ReadImageData 45 35 samplePacketBuffer
          ({ interrupt_received := false, recv := RecvResult.datagram sampleTruncated } :: []) =
        udp_server_run_blocking ReadImageData 45 35
          (recvmsg samplePacketBuffer sampleTruncated).1 [] ∧
      (∀ m : LockMonitor,
        m.run (ingest (ReadImageData ((recvmsg samplePacketBuffer sampleTruncated).1.take
          (recvmsg samplePacketBuffer sampleTruncated).2) (initialInfo 45 35))
          (recvmsg samplePacketBuffer sampleTruncated).1) = m) ∧
      (∀ (σ : Type) (step : σ → DisplayOp → σ) (st : σ),
        (ingest (ReadImageData ((recvmsg samplePacketBuffer sampleTruncated).1.take
          (recvmsg samplePacketBuffer sampleTruncated).2) (initialInfo 45 35))
          (recvmsg samplePacketBuffer sampleTruncated).1).foldl step st = st)) :=
  ⟨sampleTruncated_fails,
    ingest_decode_failure ReadImageData 45 35 samplePacketBuffer sampleTruncated []
      sampleTruncated_fails⟩

/-- C16, amended: when a received datagram decodes to metadata
`(w, h, offset_x, offset_y, layer)` with its pixel data `p` at `pixel_pos`, all `3*w*h` bytes
of it inside the received bytes, the iteration takes the lock, selects `layer`, and calls
`SetPixel` once per pixel in row-major order (`y` outer, `x` inner), the call for `(x, y)`
being `SetPixel(x + offset_x, y + offset_y, Color(p[3*(y*w+x)], p[3*(y*w+x)+1],
p[3*(y*w+x)+2]))`, the two sums being `int` sums (they wrap around at `2^31`, and are the
plain sums whenever these fit an `int`); then it flushes, selects layer 0 and releases the
lock. These are `w*h` calls; the read pointer ends `3*w*h` bytes behind `pixel_pos`, and the
operations depend on the buffer only through these `3*w*h` bytes of `p`, so not on what
earlier datagrams left in the buffer. -/
theorem ingest_decoded
    (decode : List UInt8 → ImageMetaInfo → Option (ImageMetaInfo × Nat)) (width height : Int)
    (packet_buffer packet : List UInt8) (rest : List Arrival) (info : ImageMetaInfo)
    (pixel_pos : Nat)
    (hdec : decode ((recvmsg packet_buffer packet).1.take (recvmsg packet_buffer packet).2)
      (initialInfo width height) = some (info, pixel_pos))
    (hin : pixel_pos + 3 * (info.height.toNat * info.width.toNat) ≤
      (recvmsg packet_buffer packet).2) :
    udp_server_run_blocking decode width height packet_buffer
        ({ interrupt_received := false, recv := RecvResult.datagram packet } :: rest) =
      [DisplayOp.Lock, DisplayOp.SetLayer info.layer] ++
        ((List.range info.height.toNat).flatMap (fun y : Nat =>
          (List.range info.width.toNat).map (fun x : Nat =>
            DisplayOp.SetPixel ⟨toInt (x + info.offset_x), toInt (y + info.offset_y),
              ⟨(packet.drop pixel_pos).getD (3 * (y * info.width.toNat + x)) 0,
                (packet.drop pixel_pos).getD (3 * (y * info.width.toNat + x) + 1) 0,
                (packet.drop pixel_pos).getD (3 * (y * info.width.toNat + x) + 2) 0⟩⟩))) ++
        [DisplayOp.Send, DisplayOp.SetLayer 0, DisplayOp.Unlock] ++
        udp_server_run_blocking decode width height (recvmsg packet_buffer packet).1 rest ∧
      3 * (info.height.toNat * info.width.toNat) ≤ (packet.drop pixel_pos).length ∧
      (∀ x y : Nat, IsInt (x + info.offset_x) → IsInt (y + info.offset_y) →
        toInt (x + info.offset_x) = x + info.offset_x ∧
          toInt (y + info.offset_y) = y + info.offset_y) ∧
      (drawStep info (recvmsg packet_buffer packet).1 pixel_pos).length =
        info.height.toNat * info.width.toNat ∧
      (0 ≤ info.width → 0 ≤ info.height →
        ((drawStep info (recvmsg packet_buffer packet).1 pixel_pos).length : Int) =
          info.width * info.height) ∧
      (drawRows info (recvmsg packet_buffer packet).1 info.height.toNat 0 pixel_pos).2 =
        pixel_pos + 3 * (info.height.toNat * info.width.toNat) ∧
      (∀ other : List UInt8,
        (∀ i, i < 3 * (info.height.toNat * info.width.toNat) →
          other.get? (pixel_pos + i) = (packet.drop pixel_pos).get? i) →
        ingest (some (info, pixel_pos)) other =
          ingest (some (info, pixel_pos)) (recvmsg packet_buffer packet).1) := by
  have hlen : 3 * (info.height.toNat * info.width.toNat) ≤ (packet.drop pixel_pos).length := by
    unfold recvmsg at hin
    simp only at hin
    rw [List.length_drop]
    omega
  refine ⟨?_, hlen, fun x y hx hy => ⟨toInt_of_isInt hx, toInt_of_isInt hy⟩,
    drawStep_length info _ pixel_pos, ?_,
    drawStep_final_pos info _ pixel_pos, ?_⟩
  · rw [udp_server_run_blocking]
    simp only [Bool.false_eq_true, if_false, hdec, ingest]
    rw [drawStep_recvmsg info packet_buffer packet pixel_pos hin, List.map_flatMap]
    simp only [List.map_map]
    rfl
  · intro hw hh
    rw [drawStep_length, Nat.cast_mul, Int.toNat_of_nonneg hw, Int.toNat_of_nonneg hh,
      Int.mul_comm]
  · intro other hsame
    unfold ingest
    simp only
    rw [drawStep_congr info other (recvmsg packet_buffer packet).1 pixel_pos]
    intro i hi
    rw [hsame i hi]
    unfold recvmsg at hin ⊢
    simp only at hin ⊢
    rw [List.get?_eq_getElem?, List.get?_eq_getElem?,
      List.getElem?_append_left (by rw [List.length_take]; omega), List.getElem?_take,
      if_pos (by omega), List.getElem?_drop]

/-- C16, amended, at a concrete input: the second frame of the 3x2 sample canvas arrives at
a server whose display is 45x35. -/
theorem ingest_decoded_witness :
    (ReadImageData ((recvmsg samplePacketBuffer sampleSecondCall.datagram).1.take
        (recvmsg samplePacketBuffer sampleSecondCall.datagram).2) (initialInfo 45 35) =
        some (frameInfo sampleOneRow sampleSecondCall, 22) ∧
      22 + 3 * ((frameInfo sampleOneRow sampleSecondCall).height.toNat *
          (frameInfo sampleOneRow sampleSecondCall).width.toNat) ≤
        (recvmsg samplePacketBuffer sampleSecondCall.datagram).2) ∧
    (udp_server_run_blocking ReadImageData 45 35 samplePacketBuffer
        ({ interrupt_received := false,
           recv := RecvResult.datagram sampleSecondCall.datagram } :: []) =
      [DisplayOp.Lock, DisplayOp.SetLayer (frameInfo sampleOneRow sampleSecondCall).layer] ++
        ((List.range (frameInfo sampleOneRow sampleSecondCall).height.toNat).flatMap
          (fun y : Nat =>
          (List.range (frameInfo sampleOneRow sampleSecondCall).width.toNat).map (fun x : Nat =>
            DisplayOp.SetPixel ⟨toInt (x + (frameInfo sampleOneRow sampleSecondCall).offset_x),
              toInt (y + (frameInfo sampleOneRow sampleSecondCall).offset_y),
              ⟨(sampleSecondCall.datagram.drop 22).getD
                  (3 * (y * (frameInfo sampleOneRow sampleSecondCall).width.toNat + x)) 0,
                (sampleSecondCall.datagram.drop 22).getD
                  (3 * (y * (frameInfo sampleOneRow sampleSecondCall).width.toNat + x) + 1) 0,
                (sampleSecondCall.datagram.drop 22).getD
                  (3 * (y * (frameInfo sampleOneRow sampleSecondCall).width.toNat + x) + 2)
                  0⟩⟩))) ++
        [DisplayOp.Send, DisplayOp.SetLayer 0, DisplayOp.Unlock] ++
        udp_server_run_blocking ReadImageData 45 35
          (recvmsg samplePacketBuffer sampleSecondCall.datagram).1 [] ∧
      3 * ((frameInfo sampleOneRow sampleSecondCall).height.toNat *
          (frameInfo sampleOneRow sampleSecondCall).width.toNat) ≤
        (sampleSecondCall.datagram.drop 22).length ∧
      (∀ x y : Nat, IsInt (x + (frameInfo sampleOneRow sampleSecondCall).offset_x) →
        IsInt (y + (frameInfo sampleOneRow sampleSecondCall).offset_y) →
        toInt (x + (frameInfo sampleOneRow sampleSecondCall).offset_x) =
            x + (frameInfo sampleOneRow sampleSecondCall).offset_x ∧
          toInt (y + (frameInfo sampleOneRow sampleSecondCall).offset_y) =
            y + (frameInfo sampleOneRow sampleSecondCall).offset_y) ∧
      (drawStep (frameInfo sampleOneRow sampleSecondCall)
          (recvmsg samplePacketBuffer sampleSecondCall.datagram).1 22).length =
        (frameInfo sampleOneRow sampleSecondCall).height.toNat *
          (frameInfo sampleOneRow sampleSecondCall).width.toNat ∧
      (0 ≤ (frameInfo sampleOneRow sampleSecondCall).width →
        0 ≤ (frameInfo sampleOneRow sampleSecondCall).height →
        ((drawStep (frameInfo sampleOneRow sampleSecondCall)
          (recvmsg samplePacketBuffer sampleSecondCall.datagram).1 22).length : Int) =
          (frameInfo sampleOneRow sampleSecondCall).width *
            (frameInfo sampleOneRow sampleSecondCall).height) ∧
      (drawRows (frameInfo sampleOneRow sampleSecondCall)
          (recvmsg samplePacketBuffer sampleSecondCall.datagram).1
          (frameInfo sampleOneRow sampleSecondCall).height.toNat 0 22).2 =
        22 + 3 * ((frameInfo sampleOneRow sampleSecondCall).height.toNat *
          (frameInfo sampleOneRow sampleSecondCall).width.toNat) ∧
      (∀ other : List UInt8,
        (∀ i, i < 3 * ((frameInfo sampleOneRow sampleSecondCall).height.toNat *
            (frameInfo sampleOneRow sampleSecondCall).width.toNat) →
          other.get? (22 + i) = (sampleSecondCall.datagram.drop 22).get? i) →
        ingest (some (frameInfo sampleOneRow sampleSecondCall, 22)) other =
          ingest (some (frameInfo sampleOneRow sampleSecondCall, 22))
            (recvmsg samplePacketBuffer sampleSecondCall.datagram).1)) :=
  ⟨sampleSecondCall_decodes,
    ingest_decoded ReadImageData 45 35 samplePacketBuffer sampleSecondCall.datagram []
      (frameInfo sampleOneRow sampleSecondCall) 22 sampleSecondCall_decodes.1
      sampleSecondCall_decodes.2⟩

/-- C16 as stated fails where a sum `x + offset_x` leaves the range of `int`: a datagram of
two pixels in one row with the footer "#FT: 2147483647 0 0" makes the loop call
`SetPixel(2147483647, 0, ...)` and then `SetPixel(-2147483648, 0, ...)`, not
`SetPixel(1 + 2147483647, 0, ...)`. -/
theorem ingest_offset_wraps :
    ReadImageData ((recvmsg samplePacketBuffer sampleFarDatagram).1.take
        (recvmsg samplePacketBuffer sampleFarDatagram).2) (initialInfo 45 35) =
      some ({ width := 2, height := 1, offset_x := 2147483647, offset_y := 0, layer := 0 },
        31) ∧
    udp_server_run_blocking ReadImageData 45 35 samplePacketBuffer
        ({ interrupt_received := false, recv := RecvResult.datagram sampleFarDatagram } :: []) =
      [DisplayOp.Lock, DisplayOp.SetLayer 0,
        DisplayOp.SetPixel ⟨2147483647, 0, ⟨1, 2, 3⟩⟩,
        DisplayOp.SetPixel ⟨-2147483648, 0, ⟨4, 5, 6⟩⟩,
        DisplayOp.Send, DisplayOp.SetLayer 0, DisplayOp.Unlock] ∧
    ¬ (udp_server_run_blocking ReadImageData 45 35 samplePacketBuffer
        ({ interrupt_received := false, recv := RecvResult.datagram sampleFarDatagram } :: []) =
      [DisplayOp.Lock, DisplayOp.SetLayer 0,
        DisplayOp.SetPixel ⟨0 + 2147483647, 0 + 0, ⟨1, 2, 3⟩⟩,
        DisplayOp.SetPixel ⟨1 + 2147483647, 0 + 0, ⟨4, 5, 6⟩⟩,
        DisplayOp.Send, DisplayOp.SetLayer 0, DisplayOp.Unlock]) := by
  refine ⟨sampleFarDatagram_decodes, sampleFarDatagram_ops, ?_⟩
  rw [sampleFarDatagram_ops]
  decide

/-! ## Lock discipline of the receive loop -/

theorem LockMonitor.run_append (m : LockMonitor) (a b : List DisplayOp) :
    m.run (a ++ b) = (m.run a).run b := by
  unfold LockMonitor.run
  rw [List.foldl_append]

theorem LockMonitor.run_pixels (ws : List PixelWrite) :
    ∀ m : LockMonitor, m.held = true → m.ok = true →
      (m.run (ws.map DisplayOp.SetPixel)).held = true ∧
      (m.run (ws.map DisplayOp.SetPixel)).ok = true ∧
      (m.run (ws.map DisplayOp.SetPixel)).layer = m.layer := by
  induction ws with
  | nil => intro m h1 h2; exact ⟨h1, h2, rfl⟩
  | cons w ws ih =>
    intro m h1 h2
    have hstep := ih (m.step (DisplayOp.SetPixel w)) h1 (by simp [LockMonitor.step, h1, h2])
    exact hstep

/-- One dispatch, started with the lock free and nothing unflushed, is accepted by the
observer and ends with the lock free, everything flushed and layer 0 active. -/
theorem LockMonitor.run_dispatch (info : ImageMetaInfo) (pixel_pos : Nat) (packet : List UInt8)
    (m : LockMonitor) (hfree : m.held = false) (hok : m.ok = true) :
    (m.run (ingest (some (info, pixel_pos)) packet)).held = false ∧
      (m.run (ingest (some (info, pixel_pos)) packet)).ok = true ∧
      (m.run (ingest (some (info, pixel_pos)) packet)).unflushed = false ∧
      (m.run (ingest (some (info, pixel_pos)) packet)).layer = 0 := by
  unfold ingest
  simp only
  rw [LockMonitor.run_append, LockMonitor.run_append]
  have h1 : (m.run [DisplayOp.Lock, DisplayOp.SetLayer info.layer]).held = true := rfl
  have h2 : (m.run [DisplayOp.Lock, DisplayOp.SetLayer info.layer]).ok = true := by
    simp [LockMonitor.run, LockMonitor.step, hfree, hok]
  obtain ⟨p1, p2, _⟩ := LockMonitor.run_pixels (drawStep info packet pixel_pos) _ h1 h2
  generalize (m.run [DisplayOp.Lock, DisplayOp.SetLayer info.layer]).run
    ((drawStep info packet pixel_pos).map DisplayOp.SetPixel) = r at p1 p2
  simp [LockMonitor.run, LockMonitor.step, p1, p2]

theorem LockMonitor.run_loop
    (decode : List UInt8 → ImageMetaInfo → Option (ImageMetaInfo × Nat)) (width height : Int)
    (arrivals : List Arrival) :
    ∀ (packet_buffer : List UInt8) (m : LockMonitor), m.held = false → m.ok = true →
      m.unflushed = false →
      (m.run (udp_server_run_blocking decode width height packet_buffer arrivals)).held =
          false ∧
      (m.run (udp_server_run_blocking decode width height packet_buffer arrivals)).ok = true ∧
      (m.run (udp_server_run_blocking decode width height packet_buffer arrivals)).unflushed =
          false := by
  induction arrivals with
  | nil => intro packet_buffer m h1 h2 h3; exact ⟨h1, h2, h3⟩
  | cons a rest ih =>
    intro packet_buffer m h1 h2 h3
    rw [udp_server_run_blocking]
    by_cases hint : a.interrupt_received = true
    · rw [if_pos hint]; exact ⟨h1, h2, h3⟩
    · rw [if_neg hint]
      cases hrecv : a.recv with
      | failed => exact ⟨h1, h2, h3⟩
      | eintr => exact ih packet_buffer m h1 h2 h3
      | datagram packet =>
        simp only
        rw [LockMonitor.run_append]
        cases hdec : decode ((recvmsg packet_buffer packet).1.take
            (recvmsg packet_buffer packet).2) (initialInfo width height) with
        | none => exact ih _ m h1 h2 h3
        | some r =>
          obtain ⟨info, pos⟩ := r
          obtain ⟨d1, d2, d3, _⟩ := LockMonitor.run_dispatch info pos
            (recvmsg packet_buffer packet).1 m h1 h2
          exact ih _ _ d1 d2 d3

/-- C17: for a successfully decoded datagram the operations on the lock and the display
are, in this order, `Lock`, `SetLayer(layer)`, the `w*h` `SetPixel` calls, `Send` (the
flush), `SetLayer(0)`, `Unlock`. Hence over any run of the loop, with any decoder, any
content of the packet buffer and any sequence of arrivals, the observer of the lock
discipline accepts every operation: each
`SetLayer`, `SetPixel` and flush happens while the lock is held, at each release every
pixel write has been flushed and the active layer is 0; the run ends with the lock free. -/
theorem receive_loop_lock_discipline :
    (∀ (info : ImageMetaInfo) (pixel_pos : Nat) (packet : List UInt8),
      ingest (some (info, pixel_pos)) packet =
          [DisplayOp.Lock, DisplayOp.SetLayer info.layer] ++
            (drawStep info packet pixel_pos).map DisplayOp.SetPixel ++
            [DisplayOp.Send, DisplayOp.SetLayer 0, DisplayOp.Unlock] ∧
        (drawStep info packet pixel_pos).length = info.height.toNat * info.width.toNat ∧
        ∀ m : LockMonitor, m.held = false → m.ok = true →
          (m.run (ingest (some (info, pixel_pos)) packet)).held = false ∧
          (m.run (ingest (some (info, pixel_pos)) packet)).ok = true ∧
          (m.run (ingest (some (info, pixel_pos)) packet)).unflushed = false ∧
          (m.run (ingest (some (info, pixel_pos)) packet)).layer = 0) ∧
    (∀ (decode : List UInt8 → ImageMetaInfo → Option (ImageMetaInfo × Nat))
      (width height layer : Int) (packet_buffer : List UInt8) (arrivals : List Arrival),
      ((LockMonitor.idle layer).run
          (udp_server_run_blocking decode width height packet_buffer arrivals)).ok = true ∧
        ((LockMonitor.idle layer).run
          (udp_server_run_blocking decode width height packet_buffer arrivals)).held = false ∧
        ((LockMonitor.idle layer).run
          (udp_server_run_blocking decode width height packet_buffer arrivals)).unflushed =
            false) := by
  constructor
  · intro info pixel_pos packet
    exact ⟨rfl, drawStep_length info packet pixel_pos,
      fun m h1 h2 => LockMonitor.run_dispatch info pixel_pos packet m h1 h2⟩
  · intro decode width height layer packet_buffer arrivals
    obtain ⟨h1, h2, h3⟩ := LockMonitor.run_loop decode width height arrivals packet_buffer
      (LockMonitor.idle layer) rfl rfl rfl
    exact ⟨h2, h1, h3⟩

theorem LockMonitor.rejects :
    ((LockMonitor.idle 0).run [DisplayOp.Send]).ok = false ∧
      ((LockMonitor.idle 0).run [DisplayOp.SetLayer 1]).ok = false ∧
      ((LockMonitor.idle 0).run [DisplayOp.SetPixel ⟨0, 0, Color.black⟩]).ok = false ∧
      ((LockMonitor.idle 0).run [DisplayOp.Lock, DisplayOp.SetLayer 1, DisplayOp.Unlock]).ok =
        false ∧
      ((LockMonitor.idle 0).run
        [DisplayOp.Lock, DisplayOp.SetPixel ⟨0, 0, Color.black⟩, DisplayOp.Unlock]).ok = false ∧
      ((LockMonitor.idle 0).run [DisplayOp.Lock, DisplayOp.Lock]).ok = false := by
  decide

/-! ## Fill and clone -/

theorem foldl_set_range (col : Color) :
    ∀ (n : Nat) (buf : List Color), n ≤ buf.length →
      (List.range n).foldl (fun b i => b.set i col) buf =
        List.replicate n col ++ buf.drop n := by
  intro n
  induction n with
  | zero => intro buf _; simp
  | succ n ih =>
    intro buf hn
    rw [List.range_succ, List.foldl_append, ih buf (by omega)]
    simp only [List.foldl_cons, List.foldl_nil]
    rw [List.set_append_right n col (by simp), List.length_replicate, Nat.sub_self,
      List.drop_eq_getElem_cons (by omega : n < buf.length), List.set_cons_zero,
      List.replicate_succ', List.append_assoc]
    rfl

theorem Color.eq_black_of_is_black (col : Color) (h : col.is_black = true) :
    col = Color.black := by
  obtain ⟨r, g, b⟩ := col
  simp only [Color.is_black, Bool.and_eq_true, beq_iff_eq] at h
  obtain ⟨⟨h1, h2⟩, h3⟩ := h
  rw [h1, h2, h3]
  rfl

/-- C13: on a canvas whose buffer has its `W*H` cells, `Fill(col)` leaves every cell equal
to `col`, for black and non-black colours alike, keeps the buffer at `W*H` cells and leaves
dimensions, offsets, descriptor and packet size alone; the result is the one of writing
`col` into every cell, and in particular the shortcut `Clear` is the same as writing black
into every cell. -/
theorem Fill_every_cell (c : UDPFlaschenTaschen)
    (hlen : c.pixel_buffer_.length = (c.width_ * c.height_).toNat) (col : Color) :
    (∀ i, i < (c.width_ * c.height_).toNat → (c.Fill col).pixel_buffer_.get? i = some col) ∧
      (c.Fill col).pixel_buffer_.length = (c.width_ * c.height_).toNat ∧
      ((c.Fill col).width_ = c.width_ ∧ (c.Fill col).height_ = c.height_ ∧
        (c.Fill col).off_x_ = c.off_x_ ∧ (c.Fill col).off_y_ = c.off_y_ ∧
        (c.Fill col).off_z_ = c.off_z_ ∧ (c.Fill col).max_udp_size_ = c.max_udp_size_ ∧
        (c.Fill col).fd_ = c.fd_) ∧
      c.Fill col = c.writeEveryCell col ∧
      c.Clear = c.writeEveryCell Color.black := by
  have hwrite : ∀ k : Color, c.writeEveryCell k =
      { c with pixel_buffer_ := List.replicate (c.width_ * c.height_).toNat k } := by
    intro k
    unfold writeEveryCell writeCells
    rw [foldl_set_range k _ _ (by omega), List.drop_of_length_le (by omega), List.append_nil]
  have hfill : c.Fill col =
      { c with pixel_buffer_ := List.replicate (c.width_ * c.height_).toNat col } := by
    unfold Fill
    split
    · rename_i hb
      rw [Color.eq_black_of_is_black col hb]
      rfl
    · rfl
  refine ⟨?_, ?_, ?_, ?_, ?_⟩
  · intro i hi
    rw [hfill]
    simp only [List.get?_eq_getElem?]
    rw [List.getElem?_replicate, if_pos hi]
  · rw [hfill]
    simp
  · rw [hfill]
    exact ⟨rfl, rfl, rfl, rfl, rfl, rfl, rfl⟩
  · rw [hfill, hwrite]
  · rw [hwrite]
    rfl

/-- C13 at a concrete input: the 3x2 sample canvas filled with the colour (7, 8, 9). -/
theorem Fill_every_cell_witness :
    sample3x2.pixel_buffer_.length = (sample3x2.width_ * sample3x2.height_).toNat ∧
    ((∀ i, i < (sample3x2.width_ * sample3x2.height_).toNat →
        (sample3x2.Fill ⟨7, 8, 9⟩).pixel_buffer_.get? i = some ⟨7, 8, 9⟩) ∧
      (sample3x2.Fill ⟨7, 8, 9⟩).pixel_buffer_.length =
        (sample3x2.width_ * sample3x2.height_).toNat ∧
      ((sample3x2.Fill ⟨7, 8, 9⟩).width_ = sample3x2.width_ ∧
        (sample3x2.Fill ⟨7, 8, 9⟩).height_ = sample3x2.height_ ∧
        (sample3x2.Fill ⟨7, 8, 9⟩).off_x_ = sample3x2.off_x_ ∧
        (sample3x2.Fill ⟨7, 8, 9⟩).off_y_ = sample3x2.off_y_ ∧
        (sample3x2.Fill ⟨7, 8, 9⟩).off_z_ = sample3x2.off_z_ ∧
        (sample3x2.Fill ⟨7, 8, 9⟩).max_udp_size_ = sample3x2.max_udp_size_ ∧
        (sample3x2.Fill ⟨7, 8, 9⟩).fd_ = sample3x2.fd_) ∧
      sample3x2.Fill ⟨7, 8, 9⟩ = sample3x2.writeEveryCell ⟨7, 8, 9⟩ ∧
      sample3x2.Clear = sample3x2.writeEveryCell Color.black) :=
  ⟨by decide, Fill_every_cell sample3x2 (by decide) ⟨7, 8, 9⟩⟩

theorem colorsOf_flatMap_bytes (l : List Color) : colorsOf (l.flatMap Color.bytes) = l := by
  induction l with
  | nil => rfl
  | cons a l ih =>
    rw [List.flatMap_cons]
    show colorsOf (a.r :: a.g :: a.b :: l.flatMap Color.bytes) = a :: l
    rw [colorsOf, ih]

/-- Where the byte count `width_ * height_ * 3` fits an `int`, the copy constructor copies
the whole buffer. -/
theorem copy_in_range (c : UDPFlaschenTaschen) (fresh : List Color) (hv : c.Valid)
    (h0 : 0 ≤ c.width_ * c.height_) (h3 : c.width_ * c.height_ * 3 < 2 ^ 31)
    (hfresh : fresh.length = (c.width_ * c.height_).toNat) : c.copy fresh = some c := by
  obtain ⟨_, _, hwh, _, _, _, hlen⟩ := hv
  have hsize : c.copySize = 3 * (c.width_ * c.height_).toNat := by
    unfold copySize
    rw [toInt_of_isInt hwh, toInt_of_isInt ⟨by omega, h3⟩,
      toSizeT_of_nonneg (by omega) (by omega)]
    omega
  have hb : c.bufferBytes.length = 3 * (c.width_ * c.height_).toNat := by
    unfold bufferBytes
    rw [flatMap_bytes_length, hlen]
  have hf : (fresh.flatMap Color.bytes).length = 3 * (c.width_ * c.height_).toNat := by
    rw [flatMap_bytes_length, hfresh]
  unfold copy
  simp only
  rw [if_pos (by omega), hsize]
  have e1 : c.bufferBytes.take (3 * (c.width_ * c.height_).toNat) = c.bufferBytes :=
    List.take_of_length_le (by omega)
  have e2 : (fresh.flatMap Color.bytes).drop (3 * (c.width_ * c.height_).toNat) = [] :=
    List.drop_of_length_le (by omega)
  unfold SetOffset
  simp only [bufferBytes] at e1 e2 ⊢
  rw [e1, e2, List.append_nil, colorsOf_flatMap_bytes]

/-- C14: `Clone()` does not copy every canvas. On the canvas of 715827883 by 1 cells the
byte count `width_ * height_ * 3` of the copy constructor, an `int` product, is
`-2147483647`, which `memcpy` takes as 18446744071562067969 bytes, more than the buffers
hold: no clone results, whatever the new array held. From 1431655766 cells on the count
wraps to a small one (2 bytes for 1431655766 by 1 cells). `Clear` forms the byte count of
the same buffer with `sizeof(Color)`, in `size_t`. Where the count fits an `int`, that is
for fewer than 715827883 cells, the clone has the same width, height, offsets, configured
maximum packet size, descriptor and cell contents, and the canvas cloned is as before. -/
theorem Clone_byte_count_overflows :
    (sampleBigCanvas.Valid ∧ IsInt (sampleBigCanvas.width_ * sampleBigCanvas.height_) ∧
      sampleBigCanvas.width_ * sampleBigCanvas.height_ * 3 = 2 ^ 31 + 1 ∧
      toInt (toInt (sampleBigCanvas.width_ * sampleBigCanvas.height_) * 3) = -2147483647 ∧
      sampleBigCanvas.copySize = 18446744071562067969 ∧
      3 * (sampleBigCanvas.width_ * sampleBigCanvas.height_).toNat = 2147483649 ∧
      ∀ fresh : List Color, (sampleBigCanvas.Clone fresh).1 = none) ∧
    (∀ c : UDPFlaschenTaschen, c.width_ = 1431655766 → c.height_ = 1 → c.copySize = 2) ∧
    (∀ (c : UDPFlaschenTaschen) (fresh : List Color), c.Valid → 0 ≤ c.width_ * c.height_ →
      c.width_ * c.height_ * 3 < 2 ^ 31 → fresh.length = (c.width_ * c.height_).toNat →
      (c.Clone fresh).1 = some c ∧ (c.Clone fresh).2 = c) := by
  have hsize : sampleBigCanvas.copySize = 18446744071562067969 := by decide
  refine ⟨⟨?_, by decide, by decide, by decide, hsize, by decide, ?_⟩, ?_, ?_⟩
  · refine ⟨by decide, by decide, by decide, by decide, by decide, by decide, ?_⟩
    exact List.length_replicate _ _
  · intro fresh
    unfold Clone copy
    simp only
    rw [if_neg]
    rw [hsize]
    decide
  · intro c hw hh
    unfold copySize
    rw [hw, hh]
    decide
  · intro c fresh hv h0 h3 hfresh
    exact ⟨copy_in_range c fresh hv h0 h3 hfresh, rfl⟩

/-! ## Endpoint selection -/

theorem strchr_none (s : List Char) (ch : Char) (h : ch ∉ s) : strchr s ch = none := by
  unfold strchr
  rw [if_neg]
  rw [List.indexOf_lt_length]
  exact h

theorem strchr_first (a b : List Char) (ch : Char) (h : ch ∉ a) :
    strchr (a ++ ch :: b) ch = some a.length := by
  unfold strchr
  have hi : List.indexOf ch (a ++ ch :: b) = a.length := by
    rw [List.indexOf_append_of_not_mem h, List.indexOf_cons_self, Nat.add_zero]
  rw [hi, if_pos (by simp)]

/-- C15: endpoint selection in `OpenFlaschenTaschenSocket`. A null host argument is
replaced by the value of `FT_DISPLAY`; a host that is then still null or empty is replaced
by "ft.noise"; a host string without ':' is looked up as that host with port "1337"; a
host string with a ':' is looked up as the text before the first ':' with the text after
it as port; every lookup asks for address family IPv6 and datagram sockets. -/
theorem OpenFlaschenTaschenSocket_lookup :
    (∀ e : List Char, ∀ other : Option (List Char),
      OpenFlaschenTaschenSocket none (some e) = OpenFlaschenTaschenSocket (some e) other) ∧
    (∀ env : Option (List Char),
      OpenFlaschenTaschenSocket (some []) env =
        OpenFlaschenTaschenSocket (some "ft.noise".toList) env) ∧
    (OpenFlaschenTaschenSocket none none =
        OpenFlaschenTaschenSocket (some "ft.noise".toList) none ∧
      OpenFlaschenTaschenSocket none (some []) =
        OpenFlaschenTaschenSocket (some "ft.noise".toList) none) ∧
    OpenFlaschenTaschenSocket (some "ft.noise".toList) none =
      { host := "ft.noise".toList, port := "1337".toList,
        ai_family := AddressFamily.AF_INET6, ai_socktype := SocketType.SOCK_DGRAM } ∧
    (∀ (s : List Char) (env : Option (List Char)), s ≠ [] → ':' ∉ s →
      OpenFlaschenTaschenSocket (some s) env =
        { host := s, port := "1337".toList,
          ai_family := AddressFamily.AF_INET6, ai_socktype := SocketType.SOCK_DGRAM }) ∧
    (∀ (a b : List Char) (env : Option (List Char)), ':' ∉ a →
      OpenFlaschenTaschenSocket (some (a ++ ':' :: b)) env =
        { host := a, port := b,
          ai_family := AddressFamily.AF_INET6, ai_socktype := SocketType.SOCK_DGRAM }) ∧
    OpenFlaschenTaschenSocket (some "localhost:1234".toList) (some "other".toList) =
      { host := "localhost".toList, port := "1234".toList,
        ai_family := AddressFamily.AF_INET6, ai_socktype := SocketType.SOCK_DGRAM } ∧
    (∀ host env : Option (List Char),
      (OpenFlaschenTaschenSocket host env).ai_family = AddressFamily.AF_INET6 ∧
        (OpenFlaschenTaschenSocket host env).ai_socktype = SocketType.SOCK_DGRAM) := by
  refine ⟨?_, ?_, ⟨?_, ?_⟩, ?_, ?_, ?_, ?_, ?_⟩
  · intro e other; rfl
  · intro env; rfl
  · rfl
  · rfl
  · decide
  · intro s env hs hcolon
    have hlen : ¬ (s.length = 0) := by
      intro h; exact hs (List.length_eq_zero.mp h)
    unfold OpenFlaschenTaschenSocket
    simp only [hlen, if_false, strchr_none s ':' hcolon]
  · intro a b env hcolon
    have hlen : ¬ ((a ++ ':' :: b).length = 0) := by simp
    unfold OpenFlaschenTaschenSocket
    simp only [hlen, if_false, strchr_first a b ':' hcolon]
    rw [List.take_left, List.drop_append, List.drop_one, List.tail_cons]
  · decide
  · intro host env
    unfold OpenFlaschenTaschenSocket
    simp only
    split <;> exact ⟨rfl, rfl⟩

/-! ## The header reserve -/

/-- With at least one row per chunk by the formula of the spec and width at least 1, the
width and the rows per chunk are at most 2709 and `max_send_height` is the value of the
formula. -/
theorem max_send_height_of_rows (c : UDPFlaschenTaschen) (hW : 1 ≤ c.width_)
    (hR : 1 ≤ c.rowsPerChunk) :
    c.max_send_height = c.rowsPerChunk ∧ c.width_ ≤ 2709 ∧ c.rowsPerChunk ≤ 2709 := by
  unfold rowsPerChunk at hR ⊢
  generalize hD : ((min c.max_udp_size_ 8192 : Nat) : Int) - 64 = D at hR ⊢
  have hD1 : D ≤ 8128 := by omega
  have hD0 : 3 * c.width_ ≤ D := by
    have := (Int.le_ediv_iff_mul_le (by omega : (0 : Int) < 3 * c.width_)).mp hR
    omega
  have hmul : D / (3 * c.width_) * (3 * c.width_) ≤ D :=
    (Int.le_ediv_iff_mul_le (by omega : (0 : Int) < 3 * c.width_)).mp (le_refl _)
  have hmul2 : D / (3 * c.width_) * 3 ≤ D / (3 * c.width_) * (3 * c.width_) :=
    Int.mul_le_mul_of_nonneg_left (by omega) (by omega)
  have k1 : c.kMaxDataLen = D := by
    unfold kMaxDataLen kFlaschenTaschenHeaderReserve
    rw [hD, toSizeT_of_nonneg (by omega) (by omega), Int.toNat_of_nonneg (by omega),
      toInt_of_isInt ⟨by omega, by omega⟩]
  have k2 : toSizeT c.kMaxDataLen = D.toNat := by
    rw [k1, toSizeT_of_nonneg (by omega) (by omega)]
  have k3 : c.row_size = (3 * c.width_).toNat := by
    unfold row_size
    rw [toSizeT_of_nonneg (by omega) (by omega)]
  have k4 : ((D.toNat / (3 * c.width_).toNat : Nat) : Int) = D / (3 * c.width_) := by
    rw [Int.natCast_div, Int.toNat_of_nonneg (by omega), Int.toNat_of_nonneg (by omega)]
  refine ⟨?_, by omega, by omega⟩
  unfold max_send_height
  rw [k2, k3, k4, toInt_of_isInt ⟨by omega, by omega⟩]

/-- C19: on a canvas for which the assertion of `Send` holds (`W >= 1` and
`floor((min(configuredMax, 8192) - 64) / (3*W)) >= 1`), for every chunk height `h` that
`Send` can use (`1 <= h <= max_send_height`) and all 32-bit signed values of `offX`,
`offY + tileOffset` and `offZ`, the formatted header has at most 63 characters, so
`snprintf` does not truncate it in the 64-byte reserve and `iov[0]` is the whole header. -/
theorem header_fits_reserve (c : UDPFlaschenTaschen) (hW : 1 ≤ c.width_)
    (hR : 1 ≤ c.rowsPerChunk) (h ox oy oz : Int) (h1 : 1 ≤ h) (h2 : h ≤ c.max_send_height)
    (hx : IsInt ox) (hy : IsInt oy) (hz : IsInt oz) :
    (headerText c.width_ h ox oy oz).length ≤ 63 ∧
      headerIov (asciiBytes (headerText c.width_ h ox oy oz)) =
        some (asciiBytes (headerText c.width_ h ox oy oz)) ∧
      0 < c.max_send_height := by
  obtain ⟨e, hw, hr⟩ := max_send_height_of_rows c hW hR
  unfold IsInt at hx hy hz
  have e4 : (10 : Nat) ^ 4 = 10000 := by norm_num
  have e10 : (10 : Nat) ^ 10 = 10000000000 := by norm_num
  have l1 := fmtInt_length_le_of_nonneg c.width_ 4 (by norm_num) (by omega) (by rw [e4]; omega)
  have l2 := fmtInt_length_le_of_nonneg h 4 (by norm_num) (by omega) (by rw [e4]; omega)
  have l3 := fmtInt_length_le ox 10 (by norm_num) (by rw [e10]; omega)
  have l4 := fmtInt_length_le oy 10 (by norm_num) (by rw [e10]; omega)
  have l5 := fmtInt_length_le oz 10 (by norm_num) (by rw [e10]; omega)
  have hlen : (headerText c.width_ h ox oy oz).length ≤ 63 := by
    rw [headerText_length]; omega
  refine ⟨hlen, headerIov_of_short _ ?_, by omega⟩
  unfold asciiBytes
  rw [List.length_map]
  exact hlen

/-- C19 at a concrete input: the header of the second chunk of the 3x2 sample canvas. -/
theorem header_fits_reserve_witness :
    (1 ≤ sampleOneRow.width_ ∧ 1 ≤ sampleOneRow.rowsPerChunk ∧ (1 : Int) ≤ 1 ∧
      1 ≤ sampleOneRow.max_send_height ∧ IsInt 0 ∧ IsInt 1 ∧ IsInt 0) ∧
    ((headerText sampleOneRow.width_ 1 0 1 0).length ≤ 63 ∧
      headerIov (asciiBytes (headerText sampleOneRow.width_ 1 0 1 0)) =
        some (asciiBytes (headerText sampleOneRow.width_ 1 0 1 0)) ∧
      0 < sampleOneRow.max_send_height) :=
  ⟨by decide, header_fits_reserve sampleOneRow (by decide) (by decide) 1 0 1 0 (by decide)
    (by decide) (by decide) (by decide) (by decide)⟩

/-! ## SetPixel followed by GetPixel -/

theorem getPixelIndex_inside (c : UDPFlaschenTaschen) (x y : Int) (hx0 : 0 ≤ x)
    (hx1 : x < c.width_) (hy0 : 0 ≤ y) (hy1 : y < c.height_) :
    c.getPixelIndex x y = x + y * c.width_ ∧ 0 ≤ x + y * c.width_ ∧
      x + y * c.width_ < c.width_ * c.height_ := by
  unfold getPixelIndex
  rw [Int.tmod_eq_of_lt hx0 hx1, Int.tmod_eq_of_lt hy0 hy1]
  have h1 : 0 ≤ y * c.width_ := Int.mul_nonneg hy0 (by omega)
  have h2 : (y + 1) * c.width_ ≤ c.height_ * c.width_ :=
    Int.mul_le_mul_of_nonneg_right (by omega) (by omega)
  have h3 : (y + 1) * c.width_ = y * c.width_ + c.width_ := by ring
  have h4 : c.height_ * c.width_ = c.width_ * c.height_ := Int.mul_comm _ _
  exact ⟨rfl, by omega, by omega⟩

theorem index_injective (W x y u v : Int) (hx0 : 0 ≤ x) (hx1 : x < W) (hu0 : 0 ≤ u)
    (hu1 : u < W) (h : x + y * W = u + v * W) : x = u ∧ y = v := by
  have hW : W ≠ 0 := by omega
  have hm := congrArg (fun t => t % W) h
  simp only [Int.add_mul_emod_self] at hm
  rw [Int.emod_eq_of_lt hx0 hx1, Int.emod_eq_of_lt hu0 hu1] at hm
  have hd := congrArg (fun t => t / W) h
  simp only [Int.add_mul_ediv_right _ _ hW] at hd
  rw [Int.ediv_eq_zero_of_lt hx0 hx1, Int.ediv_eq_zero_of_lt hu0 hu1] at hd
  exact ⟨hm, by omega⟩

/-- C20: on a canvas whose buffer has its `W*H` cells, for every in-bounds `(x, y)` and
every colour, after `SetPixel(x, y, col)` the call `GetPixel(x, y)` returns `col` and
`GetPixel` returns what it returned before at every other in-bounds position; the buffer
differs from the old one exactly in the cell with linear index `x + y*W`, and the other
fields are untouched. -/
theorem SetPixel_then_GetPixel (c : UDPFlaschenTaschen)
    (hlen : c.pixel_buffer_.length = (c.width_ * c.height_).toNat) (x y : Int) (col : Color)
    (hx0 : 0 ≤ x) (hx1 : x < c.width_) (hy0 : 0 ≤ y) (hy1 : y < c.height_) :
    (c.SetPixel x y col).GetPixel x y = some col ∧
      (∀ u v : Int, 0 ≤ u → u < c.width_ → 0 ≤ v → v < c.height_ → ¬ (u = x ∧ v = y) →
        (c.SetPixel x y col).GetPixel u v = c.GetPixel u v) ∧
      (c.SetPixel x y col).pixel_buffer_ = c.pixel_buffer_.set (x + y * c.width_).toNat col ∧
      (∀ i : Nat, i ≠ (x + y * c.width_).toNat →
        (c.SetPixel x y col).pixel_buffer_.get? i = c.pixel_buffer_.get? i) ∧
      (c.SetPixel x y col).pixel_buffer_.get? (x + y * c.width_).toNat = some col ∧
      ((c.SetPixel x y col).width_ = c.width_ ∧ (c.SetPixel x y col).height_ = c.height_ ∧
        (c.SetPixel x y col).off_x_ = c.off_x_ ∧ (c.SetPixel x y col).off_y_ = c.off_y_ ∧
        (c.SetPixel x y col).off_z_ = c.off_z_) := by
  have hin : ¬ (x < 0 ∨ x ≥ c.width_ ∨ y < 0 ∨ y ≥ c.height_) := by omega
  have hset : c.SetPixel x y col =
      { c with pixel_buffer_ := c.pixel_buffer_.set (x + y * c.width_).toNat col } := by
    unfold SetPixel
    rw [if_neg hin]
  obtain ⟨i1, i2, i3⟩ := getPixelIndex_inside c x y hx0 hx1 hy0 hy1
  have hidx : (x + y * c.width_).toNat < c.pixel_buffer_.length := by omega
  refine ⟨?_, ?_, by rw [hset], ?_, ?_, by rw [hset]; exact ⟨rfl, rfl, rfl, rfl, rfl⟩⟩
  · rw [hset]
    unfold GetPixel
    have e : ({ c with pixel_buffer_ := c.pixel_buffer_.set (x + y * c.width_).toNat col } :
        UDPFlaschenTaschen).getPixelIndex x y = x + y * c.width_ := i1
    simp only [e, if_pos i2, List.get?_eq_getElem?]
    exact List.getElem?_set_self hidx
  · intro u v hu0 hu1 hv0 hv1 hne
    obtain ⟨j1, j2, j3⟩ := getPixelIndex_inside c u v hu0 hu1 hv0 hv1
    rw [hset]
    unfold GetPixel
    have e : ({ c with pixel_buffer_ := c.pixel_buffer_.set (x + y * c.width_).toNat col } :
        UDPFlaschenTaschen).getPixelIndex u v = u + v * c.width_ := j1
    simp only [e, j1, if_pos j2, List.get?_eq_getElem?]
    apply List.getElem?_set_ne
    intro heq
    have h2 : x + y * c.width_ = u + v * c.width_ := by omega
    obtain ⟨a, b⟩ := index_injective c.width_ x y u v hx0 hx1 hu0 hu1 h2
    exact hne ⟨a.symm, b.symm⟩
  · intro i hi
    rw [hset]
    simp only [List.get?_eq_getElem?]
    exact List.getElem?_set_ne (fun h => hi h.symm)
  · rw [hset]
    simp only [List.get?_eq_getElem?]
    exact List.getElem?_set_self hidx

/-- C20 at a concrete input: writing the colour (7, 8, 9) at (1, 1) of the 3x2 sample
canvas. -/
theorem SetPixel_then_GetPixel_witness :
    (sample3x2.pixel_buffer_.length = (sample3x2.width_ * sample3x2.height_).toNat ∧
      (0 : Int) ≤ 1 ∧ 1 < sample3x2.width_ ∧ (0 : Int) ≤ 1 ∧ 1 < sample3x2.height_) ∧
    ((sample3x2.SetPixel 1 1 ⟨7, 8, 9⟩).GetPixel 1 1 = some ⟨7, 8, 9⟩ ∧
      (∀ u v : Int, 0 ≤ u → u < sample3x2.width_ → 0 ≤ v → v < sample3x2.height_ →
        ¬ (u = 1 ∧ v = 1) →
        (sample3x2.SetPixel 1 1 ⟨7, 8, 9⟩).GetPixel u v = sample3x2.GetPixel u v) ∧
      (sample3x2.SetPixel 1 1 ⟨7, 8, 9⟩).pixel_buffer_ =
        sample3x2.pixel_buffer_.set (1 + 1 * sample3x2.width_).toNat ⟨7, 8, 9⟩ ∧
      (∀ i : Nat, i ≠ (1 + 1 * sample3x2.width_).toNat →
        (sample3x2.SetPixel 1 1 ⟨7, 8, 9⟩).pixel_buffer_.get? i =
          sample3x2.pixel_buffer_.get? i) ∧
      (sample3x2.SetPixel 1 1 ⟨7, 8, 9⟩).pixel_buffer_.get? (1 + 1 * sample3x2.width_).toNat =
        some ⟨7, 8, 9⟩ ∧
      ((sample3x2.SetPixel 1 1 ⟨7, 8, 9⟩).width_ = sample3x2.width_ ∧
        (sample3x2.SetPixel 1 1 ⟨7, 8, 9⟩).height_ = sample3x2.height_ ∧
        (sample3x2.SetPixel 1 1 ⟨7, 8, 9⟩).off_x_ = sample3x2.off_x_ ∧
        (sample3x2.SetPixel 1 1 ⟨7, 8, 9⟩).off_y_ = sample3x2.off_y_ ∧
        (sample3x2.SetPixel 1 1 ⟨7, 8, 9⟩).off_z_ = sample3x2.off_z_)) :=
  ⟨by decide, SetPixel_then_GetPixel sample3x2 (by decide) 1 1 ⟨7, 8, 9⟩ (by decide)
    (by decide) (by decide) (by decide)⟩

/-! ## The send loop against write outcomes -/

theorem runChunks_nil (c : UDPFlaschenTaschen) (R : Int) (outcome : Nat → WriteResult)
    (n k : Nat) : (c.runChunks R outcome 0 n k).1 = [] := by
  rw [runChunks]
  split <;> rfl

theorem runChunks_head (c : UDPFlaschenTaschen) (R : Int) (outcome : Nat → WriteResult)
    (fuel n k : Nat) (b : WriteCall)
    (h : (c.runChunks R outcome fuel n k).1.get? 0 = some b) :
    b = { c.chunk R k with result := outcome n } := by
  by_cases hk : k < c.chunkCount R
  · cases fuel with
    | zero => rw [runChunks_nil] at h; simp at h
    | succ fuel =>
      rcases runChunks_succ c R outcome fuel n k hk with ⟨_, e⟩ | ⟨_, e⟩ | ⟨_, e⟩ <;>
        · rw [e, List.get?_cons_zero] at h
          exact (Option.some.inj h).symm
  · rw [runChunks_done c R outcome fuel n k hk] at h
    simp at h

/-- The `i`-th call of a run has the `i`-th outcome. -/
theorem runChunks_result (c : UDPFlaschenTaschen) (R : Int) (outcome : Nat → WriteResult) :
    ∀ (fuel n k i : Nat) (a : WriteCall),
      (c.runChunks R outcome fuel n k).1.get? i = some a → a.result = outcome (n + i) := by
  intro fuel
  induction fuel with
  | zero => intro n k i a h; rw [runChunks_nil] at h; simp at h
  | succ fuel ih =>
    intro n k i a h
    by_cases hk : k < c.chunkCount R
    · cases i with
      | zero => rw [runChunks_head c R outcome _ n k a h]; rfl
      | succ i =>
        have hn : n + (i + 1) = n + 1 + i := by omega
        rcases runChunks_succ c R outcome fuel n k hk with ⟨_, e⟩ | ⟨_, e⟩ | ⟨_, e⟩
        · rw [e] at h; simp at h
        · rw [e, List.get?_cons_succ] at h
          rw [hn]; exact ih _ _ _ _ h
        · rw [e, List.get?_cons_succ] at h
          rw [hn]; exact ih _ _ _ _ h
    · rw [runChunks_done c R outcome _ n k hk] at h
      simp at h

/-- After a would-block outcome the next call carries the same frame. -/
theorem runChunks_again (c : UDPFlaschenTaschen) (R : Int) (outcome : Nat → WriteResult) :
    ∀ (fuel n k i : Nat) (a b : WriteCall),
      (c.runChunks R outcome fuel n k).1.get? i = some a →
      (c.runChunks R outcome fuel n k).1.get? (i + 1) = some b →
      a.result = WriteResult.again →
      b.send_h = a.send_h ∧ b.tile_offset = a.tile_offset ∧ b.iov0 = a.iov0 ∧
        b.iov1 = a.iov1 := by
  intro fuel
  induction fuel with
  | zero => intro n k i a b h; rw [runChunks_nil] at h; simp at h
  | succ fuel ih =>
    intro n k i a b ha hb hres
    by_cases hk : k < c.chunkCount R
    · rcases runChunks_succ c R outcome fuel n k hk with ⟨ho, e⟩ | ⟨ho, e⟩ | ⟨ho, e⟩
      · rw [e] at hb; simp at hb
      · rw [e] at ha hb
        rw [List.get?_cons_succ] at hb
        cases i with
        | zero =>
          rw [List.get?_cons_zero] at ha
          have ea := (Option.some.inj ha).symm
          have eb := runChunks_head c R outcome fuel (n + 1) k b hb
          rw [ea, eb]
          exact ⟨rfl, rfl, rfl, rfl⟩
        | succ i =>
          rw [List.get?_cons_succ] at ha
          exact ih _ _ _ _ _ ha hb hres
      · rw [e] at ha hb
        rw [List.get?_cons_succ] at hb
        cases i with
        | zero =>
          rw [List.get?_cons_zero] at ha
          have ea := (Option.some.inj ha).symm
          rw [ea] at hres
          simp only at hres
          rw [ho] at hres
          exact absurd hres (by decide)
        | succ i =>
          rw [List.get?_cons_succ] at ha
          exact ih _ _ _ _ _ ha hb hres
    · rw [runChunks_done c R outcome _ n k hk] at ha
      simp at ha

/-- A call that failed with another error is the last one, and the run is aborted. -/
theorem runChunks_error (c : UDPFlaschenTaschen) (R : Int) (outcome : Nat → WriteResult) :
    ∀ (fuel n k i : Nat) (a : WriteCall),
      (c.runChunks R outcome fuel n k).1.get? i = some a → a.result = WriteResult.error →
      (c.runChunks R outcome fuel n k).1.length = i + 1 ∧
        (c.runChunks R outcome fuel n k).2 = SendStatus.aborted := by
  intro fuel
  induction fuel with
  | zero => intro n k i a h; rw [runChunks_nil] at h; simp at h
  | succ fuel ih =>
    intro n k i a ha hres
    by_cases hk : k < c.chunkCount R
    · rcases runChunks_succ c R outcome fuel n k hk with ⟨ho, e⟩ | ⟨ho, e⟩ | ⟨ho, e⟩
      · rw [e] at ha ⊢
        cases i with
        | zero => exact ⟨rfl, rfl⟩
        | succ i => simp at ha
      · rw [e] at ha ⊢
        cases i with
        | zero =>
          rw [List.get?_cons_zero] at ha
          have ea := (Option.some.inj ha).symm
          rw [ea] at hres
          simp only at hres
          rw [ho] at hres
          exact absurd hres (by decide)
        | succ i =>
          rw [List.get?_cons_succ] at ha
          obtain ⟨l1, l2⟩ := ih _ _ _ _ ha hres
          exact ⟨by rw [List.length_cons, l1], l2⟩
      · rw [e] at ha ⊢
        cases i with
        | zero =>
          rw [List.get?_cons_zero] at ha
          have ea := (Option.some.inj ha).symm
          rw [ea] at hres
          simp only at hres
          rw [ho] at hres
          exact absurd hres (by decide)
        | succ i =>
          rw [List.get?_cons_succ] at ha
          obtain ⟨l1, l2⟩ := ih _ _ _ _ ha hres
          exact ⟨by rw [List.length_cons, l1], l2⟩
    · rw [runChunks_done c R outcome _ n k hk] at ha
      simp at ha

/-- The calls that succeeded are consecutive chunks, starting with the chunk the run was
entered at. -/
theorem runChunks_succeeded (c : UDPFlaschenTaschen) (R : Int) (outcome : Nat → WriteResult) :
    ∀ (fuel n k : Nat), ∃ j, (j = 0 ∨ k + j ≤ c.chunkCount R) ∧
      (c.runChunks R outcome fuel n k).1.filter (fun w => w.result = WriteResult.ok) =
        (List.range' k j).map (c.chunk R) := by
  intro fuel
  induction fuel with
  | zero => intro n k; exact ⟨0, Or.inl rfl, by rw [runChunks_nil]; rfl⟩
  | succ fuel ih =>
    intro n k
    by_cases hk : k < c.chunkCount R
    · rcases runChunks_succ c R outcome fuel n k hk with ⟨ho, e⟩ | ⟨ho, e⟩ | ⟨ho, e⟩
      · refine ⟨0, Or.inl rfl, ?_⟩
        rw [e, ho]
        rfl
      · obtain ⟨j, hj, hf⟩ := ih (n + 1) k
        refine ⟨j, hj, ?_⟩
        rw [e, ho, List.filter_cons_of_neg (by simp), hf]
      · obtain ⟨j, hj, hf⟩ := ih (n + 1) (k + 1)
        refine ⟨j + 1, Or.inr (by omega), ?_⟩
        rw [e, ho, List.filter_cons_of_pos (by simp), hf, List.range'_succ, List.map_cons]
        rfl
    · exact ⟨0, Or.inl rfl, by rw [runChunks_done c R outcome _ n k hk]; rfl⟩

/-- A would-block outcome on the last call of a run means that the fuel ran out. -/
theorem runChunks_again_last (c : UDPFlaschenTaschen) (R : Int) (outcome : Nat → WriteResult) :
    ∀ (fuel n k i : Nat) (a : WriteCall),
      (c.runChunks R outcome fuel n k).1.get? i = some a → a.result = WriteResult.again →
      (c.runChunks R outcome fuel n k).1.length = i + 1 →
      (c.runChunks R outcome fuel n k).2 = SendStatus.outOfFuel := by
  intro fuel
  induction fuel with
  | zero => intro n k i a h; rw [runChunks_nil] at h; simp at h
  | succ fuel ih =>
    intro n k i a ha hres hlen
    by_cases hk : k < c.chunkCount R
    · rcases runChunks_succ c R outcome fuel n k hk with ⟨ho, e⟩ | ⟨ho, e⟩ | ⟨ho, e⟩
      · rw [e] at ha
        cases i with
        | zero =>
          rw [List.get?_cons_zero] at ha
          have ea := (Option.some.inj ha).symm
          rw [ea] at hres
          simp only at hres
          rw [ho] at hres
          exact absurd hres (by decide)
        | succ i => simp at ha
      · rw [e] at ha hlen ⊢
        cases i with
        | zero =>
          have hnil : (c.runChunks R outcome fuel (n + 1) k).1 = [] := by
            rw [List.length_cons] at hlen
            exact List.length_eq_zero.mp (by omega)
          cases fuel with
          | zero => simp only [runChunks, if_pos hk]
          | succ fuel =>
            rcases runChunks_succ c R outcome fuel (n + 1) k hk with ⟨_, e2⟩ | ⟨_, e2⟩ | ⟨_, e2⟩ <;>
              · rw [e2] at hnil
                simp at hnil
        | succ i =>
          rw [List.get?_cons_succ] at ha
          rw [List.length_cons] at hlen
          exact ih _ _ _ _ ha hres (by omega)
      · rw [e] at ha hlen ⊢
        cases i with
        | zero =>
          rw [List.get?_cons_zero] at ha
          have ea := (Option.some.inj ha).symm
          rw [ea] at hres
          simp only at hres
          rw [ho] at hres
          exact absurd hres (by decide)
        | succ i =>
          rw [List.get?_cons_succ] at ha
          rw [List.length_cons] at hlen
          exact ih _ _ _ _ ha hres (by omega)
    · rw [runChunks_done c R outcome _ n k hk] at ha
      simp at ha

theorem filter_ok_chunks (c : UDPFlaschenTaschen) (R : Int) (l : List Nat) :
    (l.map (c.chunk R)).filter (fun w => w.result = WriteResult.ok) = l.map (c.chunk R) := by
  induction l with
  | nil => rfl
  | cons k l ih =>
    rw [List.map_cons, List.filter_cons_of_pos (by simp [chunk]), ih]

/-- A run makes at most one call per unit of fuel, and it only ends out of fuel when every
unit was used for a call; it ends finished, aborted or out of fuel. -/
theorem runChunks_fuel (c : UDPFlaschenTaschen) (R : Int) (outcome : Nat → WriteResult) :
    ∀ (fuel n k : Nat),
      (c.runChunks R outcome fuel n k).1.length ≤ fuel ∧
      ((c.runChunks R outcome fuel n k).2 = SendStatus.outOfFuel →
        (c.runChunks R outcome fuel n k).1.length = fuel) ∧
      ((c.runChunks R outcome fuel n k).2 = SendStatus.finished ∨
        (c.runChunks R outcome fuel n k).2 = SendStatus.aborted ∨
        (c.runChunks R outcome fuel n k).2 = SendStatus.outOfFuel) := by
  intro fuel
  induction fuel with
  | zero =>
    intro n k
    rw [runChunks]
    split
    · exact ⟨le_refl _, fun _ => rfl, Or.inr (Or.inr rfl)⟩
    · exact ⟨le_refl _, fun _ => rfl, Or.inl rfl⟩
  | succ fuel ih =>
    intro n k
    by_cases hk : k < c.chunkCount R
    · rcases runChunks_succ c R outcome fuel n k hk with ⟨_, e⟩ | ⟨_, e⟩ | ⟨_, e⟩
      · rw [e]
        exact ⟨by simp, fun h => by simp at h, Or.inr (Or.inl rfl)⟩
      · obtain ⟨i1, i2, i3⟩ := ih (n + 1) k
        rw [e]
        exact ⟨by simp only [List.length_cons]; omega,
          fun h => by simp only [List.length_cons]; rw [i2 h], i3⟩
      · obtain ⟨i1, i2, i3⟩ := ih (n + 1) (k + 1)
        rw [e]
        exact ⟨by simp only [List.length_cons]; omega,
          fun h => by simp only [List.length_cons]; rw [i2 h], i3⟩
    · rw [runChunks_done c R outcome _ n k hk]
      exact ⟨by simp, fun h => by simp at h, Or.inl rfl⟩

/-- With fuel left, a chunk that is still to be sent is written. -/
theorem runChunks_first (c : UDPFlaschenTaschen) (R : Int) (outcome : Nat → WriteResult)
    (fuel n k : Nat) (hk : k < c.chunkCount R) :
    (c.runChunks R outcome (fuel + 1) n k).1.get? 0 =
      some { c.chunk R k with result := outcome n } := by
  rcases runChunks_succ c R outcome fuel n k hk with ⟨_, e⟩ | ⟨_, e⟩ | ⟨_, e⟩ <;>
    · rw [e]; rfl

/-- A would-block outcome is followed by another call while there is fuel. -/
theorem runChunks_retry (c : UDPFlaschenTaschen) (R : Int) (outcome : Nat → WriteResult) :
    ∀ (fuel n k i : Nat) (a : WriteCall),
      (c.runChunks R outcome fuel n k).1.get? i = some a → a.result = WriteResult.again →
      i + 1 < fuel → ∃ b, (c.runChunks R outcome fuel n k).1.get? (i + 1) = some b := by
  intro fuel
  induction fuel with
  | zero => intro n k i a h; rw [runChunks_nil] at h; simp at h
  | succ fuel ih =>
    intro n k i a ha hres hi
    by_cases hk : k < c.chunkCount R
    · rcases runChunks_succ c R outcome fuel n k hk with ⟨ho, e⟩ | ⟨ho, e⟩ | ⟨ho, e⟩
      · rw [e] at ha
        cases i with
        | zero =>
          rw [List.get?_cons_zero] at ha
          have ea := (Option.some.inj ha).symm
          rw [ea] at hres
          simp only at hres
          rw [ho] at hres
          exact absurd hres (by decide)
        | succ i => simp at ha
      · rw [e] at ha ⊢
        rw [List.get?_cons_succ]
        cases i with
        | zero =>
          obtain ⟨f, rfl⟩ : ∃ f, fuel = f + 1 := ⟨fuel - 1, by omega⟩
          exact ⟨_, runChunks_first c R outcome f (n + 1) k hk⟩
        | succ i =>
          rw [List.get?_cons_succ] at ha
          exact ih _ _ _ _ ha hres (by omega)
      · rw [e] at ha ⊢
        rw [List.get?_cons_succ]
        cases i with
        | zero =>
          rw [List.get?_cons_zero] at ha
          have ea := (Option.some.inj ha).symm
          rw [ea] at hres
          simp only at hres
          rw [ho] at hres
          exact absurd hres (by decide)
        | succ i =>
          rw [List.get?_cons_succ] at ha
          exact ih _ _ _ _ ha hres (by omega)
    · rw [runChunks_done c R outcome _ n k hk] at ha
      simp at ha

/-- While every write would block, every unit of fuel is used for a call. -/
theorem runChunks_all_again (c : UDPFlaschenTaschen) (R : Int) (outcome : Nat → WriteResult)
    (hall : ∀ i, outcome i = WriteResult.again) (k : Nat) (hk : k < c.chunkCount R) :
    ∀ (fuel n : Nat), (c.runChunks R outcome fuel n k).1.length = fuel ∧
      (c.runChunks R outcome fuel n k).2 = SendStatus.outOfFuel := by
  intro fuel
  induction fuel with
  | zero =>
    intro n
    rw [runChunks, if_pos hk]
    exact ⟨rfl, rfl⟩
  | succ fuel ih =>
    intro n
    obtain ⟨i1, i2⟩ := ih (n + 1)
    rcases runChunks_succ c R outcome fuel n k hk with ⟨ho, _⟩ | ⟨_, e⟩ | ⟨ho, _⟩
    · rw [hall n] at ho; exact absurd ho (by decide)
    · rw [e]
      exact ⟨by simp only [List.length_cons]; rw [i1], i2⟩
    · rw [hall n] at ho; exact absurd ho (by decide)

/-- An aborted run ends with a call that failed with another error. -/
theorem runChunks_aborted (c : UDPFlaschenTaschen) (R : Int) (outcome : Nat → WriteResult) :
    ∀ (fuel n k : Nat), (c.runChunks R outcome fuel n k).2 = SendStatus.aborted →
      ∃ a : WriteCall, (c.runChunks R outcome fuel n k).1.getLast? = some a ∧
        a.result = WriteResult.error := by
  intro fuel
  induction fuel with
  | zero =>
    intro n k h
    rw [runChunks] at h
    split at h <;> simp at h
  | succ fuel ih =>
    intro n k h
    by_cases hk : k < c.chunkCount R
    · rcases runChunks_succ c R outcome fuel n k hk with ⟨ho, e⟩ | ⟨ho, e⟩ | ⟨ho, e⟩
      · rw [e]
        exact ⟨_, rfl, ho⟩
      · rw [e] at h ⊢
        obtain ⟨a, ha, hr⟩ := ih (n + 1) k h
        refine ⟨a, ?_, hr⟩
        rw [List.getLast?_cons, ha]
        rfl
      · rw [e] at h ⊢
        obtain ⟨a, ha, hr⟩ := ih (n + 1) (k + 1) h
        refine ⟨a, ?_, hr⟩
        rw [List.getLast?_cons, ha]
        rfl
    · rw [runChunks_done c R outcome _ n k hk] at h
      simp at h

/-- A run that finishes has written every chunk that was still to be sent. -/
theorem runChunks_finished (c : UDPFlaschenTaschen) (R : Int) (outcome : Nat → WriteResult) :
    ∀ (fuel n k : Nat), (c.runChunks R outcome fuel n k).2 = SendStatus.finished →
      (c.runChunks R outcome fuel n k).1.filter (fun w => w.result = WriteResult.ok) =
        (List.range' k (c.chunkCount R - k)).map (c.chunk R) := by
  intro fuel
  induction fuel with
  | zero =>
    intro n k h
    rw [runChunks] at h ⊢
    split at h
    · simp at h
    · rename_i hk
      have h0 : c.chunkCount R - k = 0 := by omega
      rw [if_neg hk, h0]
      rfl
  | succ fuel ih =>
    intro n k h
    by_cases hk : k < c.chunkCount R
    · rcases runChunks_succ c R outcome fuel n k hk with ⟨ho, e⟩ | ⟨ho, e⟩ | ⟨ho, e⟩
      · rw [e] at h
        simp at h
      · rw [e] at h ⊢
        rw [ho, List.filter_cons_of_neg (by simp)]
        exact ih (n + 1) k h
      · rw [e] at h ⊢
        have hsplit : c.chunkCount R - k = (c.chunkCount R - (k + 1)) + 1 := by omega
        rw [ho, List.filter_cons_of_pos (by simp), ih (n + 1) (k + 1) h, hsplit,
          List.range'_succ, List.map_cons]
        rfl
    · have h0 : c.chunkCount R - k = 0 := by omega
      rw [runChunks_done c R outcome _ n k hk, h0]
      rfl

/-- C18: on a well-formed canvas of width at least 1 with `rowsPerChunk >= 1`, for every
sequence of write outcomes (success, would-block, other error) and every number `fuel` of
loop iterations granted to the run: the `i`-th `writev` call gets the `i`-th outcome; a
would-block outcome is followed, while iterations are left, by a further call, and that call
carries the identical frame (same chunk height, tile offset, header and pixel bytes); the
run makes at most `fuel` calls and ends out of fuel only after exactly `fuel` calls, so a
run that ends on a would-block has used every iteration, and while every write would block
every iteration is a call; a call that fails with another error is the last call and the
run is aborted, and an aborted run ends on such a call; the calls that succeeded are, in
order, a prefix of the calls of a fully successful `Send`, and so are the datagrams that
reached the network; a run that finishes has written every frame. When every write
succeeds, `Send` finishes after exactly `ceil(H / rowsPerChunk)` calls. -/
theorem Send_write_outcomes (c : UDPFlaschenTaschen) (hv : c.Valid) (hW : 1 ≤ c.width_)
    (hR : 1 ≤ c.rowsPerChunk) (outcome : Nat → WriteResult) (fuel : Nat) :
    (∀ (i : Nat) (a : WriteCall), (c.Send outcome fuel).1.get? i = some a →
        a.result = outcome i) ∧
      (∀ (i : Nat) (a : WriteCall), (c.Send outcome fuel).1.get? i = some a →
        a.result = WriteResult.again → i + 1 < fuel →
        ∃ b : WriteCall, (c.Send outcome fuel).1.get? (i + 1) = some b ∧
          b.send_h = a.send_h ∧ b.tile_offset = a.tile_offset ∧ b.iov0 = a.iov0 ∧
          b.iov1 = a.iov1) ∧
      (∀ (i : Nat) (a b : WriteCall), (c.Send outcome fuel).1.get? i = some a →
        (c.Send outcome fuel).1.get? (i + 1) = some b → a.result = WriteResult.again →
        b.send_h = a.send_h ∧ b.tile_offset = a.tile_offset ∧ b.iov0 = a.iov0 ∧
          b.iov1 = a.iov1) ∧
      ((c.Send outcome fuel).1.length ≤ fuel ∧
        ((c.Send outcome fuel).2 = SendStatus.outOfFuel →
          (c.Send outcome fuel).1.length = fuel) ∧
        ((c.Send outcome fuel).2 = SendStatus.finished ∨
          (c.Send outcome fuel).2 = SendStatus.aborted ∨
          (c.Send outcome fuel).2 = SendStatus.outOfFuel)) ∧
      (∀ (i : Nat) (a : WriteCall), (c.Send outcome fuel).1.get? i = some a →
        a.result = WriteResult.again → (c.Send outcome fuel).1.length = i + 1 →
        (c.Send outcome fuel).2 = SendStatus.outOfFuel) ∧
      ((∀ i, outcome i = WriteResult.again) → 1 ≤ c.height_ →
        (c.Send outcome fuel).1.length = fuel ∧
          (c.Send outcome fuel).2 = SendStatus.outOfFuel) ∧
      (∀ (i : Nat) (a : WriteCall), (c.Send outcome fuel).1.get? i = some a →
        a.result = WriteResult.error →
        (c.Send outcome fuel).1.length = i + 1 ∧
          (c.Send outcome fuel).2 = SendStatus.aborted) ∧
      ((c.Send outcome fuel).2 = SendStatus.aborted →
        ∃ a : WriteCall, (c.Send outcome fuel).1.getLast? = some a ∧
          a.result = WriteResult.error) ∧
      ((c.Send outcome fuel).1.filter (fun w => w.result = WriteResult.ok) <+:
        (c.Send allOk (c.chunkCount c.rowsPerChunk)).1) ∧
      (emitted (c.Send outcome fuel) <+:
        emitted (c.Send allOk (c.chunkCount c.rowsPerChunk))) ∧
      ((c.Send outcome fuel).2 = SendStatus.finished →
        (c.Send outcome fuel).1.filter (fun w => w.result = WriteResult.ok) =
          (c.Send allOk (c.chunkCount c.rowsPerChunk)).1) ∧
      (∀ enough : Nat, c.chunkCount c.rowsPerChunk ≤ enough →
        (c.Send allOk enough).2 = SendStatus.finished ∧
          (c.Send allOk enough).1.length = c.chunkCount c.rowsPerChunk ∧
          (0 ≤ c.height_ → ((c.chunkCount c.rowsPerChunk : Nat) : Int) =
            (c.height_ + c.rowsPerChunk - 1) / c.rowsPerChunk)) := by
  have hrun := Send_eq_runChunks c hv hW hR outcome fuel
  have hall := Send_allOk_chunks c hv hW hR (c.chunkCount c.rowsPerChunk) (le_refl _)
  have hpre : (c.Send outcome fuel).1.filter (fun w => w.result = WriteResult.ok) <+:
      (c.Send allOk (c.chunkCount c.rowsPerChunk)).1 := by
    rw [hrun, hall]
    obtain ⟨j, hj, hf⟩ := runChunks_succeeded c c.rowsPerChunk outcome fuel 0 0
    rw [hf, List.range_eq_range']
    apply List.IsPrefix.map
    have hjle : j ≤ c.chunkCount c.rowsPerChunk := by omega
    have hsplit := List.range'_append_1 0 j (c.chunkCount c.rowsPerChunk - j)
    rw [Nat.zero_add, Nat.sub_add_cancel hjle] at hsplit
    rw [← hsplit]
    exact List.prefix_append _ _
  have hagain : ∀ (i : Nat) (a b : WriteCall), (c.Send outcome fuel).1.get? i = some a →
      (c.Send outcome fuel).1.get? (i + 1) = some b → a.result = WriteResult.again →
      b.send_h = a.send_h ∧ b.tile_offset = a.tile_offset ∧ b.iov0 = a.iov0 ∧
        b.iov1 = a.iov1 := by
    intro i a b ha hb hres
    rw [hrun] at ha hb
    exact runChunks_again c c.rowsPerChunk outcome fuel 0 0 i a b ha hb hres
  refine ⟨?_, ?_, hagain, ?_, ?_, ?_, ?_, ?_, hpre, ?_, ?_, ?_⟩
  · intro i a h
    rw [hrun] at h
    have := runChunks_result c c.rowsPerChunk outcome fuel 0 0 i a h
    rwa [Nat.zero_add] at this
  · intro i a ha hres hi
    have ha2 := ha
    rw [hrun] at ha2
    obtain ⟨b, hb⟩ := runChunks_retry c c.rowsPerChunk outcome fuel 0 0 i a ha2 hres hi
    rw [← hrun] at hb
    exact ⟨b, hb, hagain i a b ha hb hres⟩
  · rw [hrun]
    exact runChunks_fuel c c.rowsPerChunk outcome fuel 0 0
  · intro i a ha hres hlen
    rw [hrun] at ha hlen ⊢
    exact runChunks_again_last c c.rowsPerChunk outcome fuel 0 0 i a ha hres hlen
  · intro hallagain hH
    rw [hrun]
    have hk : 0 < c.chunkCount c.rowsPerChunk := by
      rw [lt_chunkCount_iff c c.rowsPerChunk hR 0]
      simp only [Nat.cast_zero, Int.zero_mul]
      omega
    exact runChunks_all_again c c.rowsPerChunk outcome hallagain 0 hk fuel 0
  · intro i a ha hres
    rw [hrun] at ha ⊢
    exact runChunks_error c c.rowsPerChunk outcome fuel 0 0 i a ha hres
  · intro h
    rw [hrun] at h ⊢
    exact runChunks_aborted c c.rowsPerChunk outcome fuel 0 0 h
  · unfold emitted
    have hfull : (c.Send allOk (c.chunkCount c.rowsPerChunk)).1.filter
        (fun w => w.result = WriteResult.ok) =
        (c.Send allOk (c.chunkCount c.rowsPerChunk)).1 := by
      rw [hall]
      exact filter_ok_chunks c c.rowsPerChunk _
    rw [hfull]
    exact List.IsPrefix.map _ hpre
  · intro h
    rw [hall]
    rw [hrun] at h ⊢
    rw [runChunks_finished c c.rowsPerChunk outcome fuel 0 0 h, Nat.sub_zero,
      List.range_eq_range']
  · intro enough henough
    have h := Send_allOk_chunks c hv hW hR enough henough
    rw [h]
    refine ⟨rfl, by simp, ?_⟩
    intro hH
    unfold chunkCount
    rw [Int.toNat_of_nonneg]
    exact Int.ediv_nonneg (by omega) (by omega)

/-- C18 at a concrete input: the 3x2 sample canvas with one row per chunk; the first write
would block, the second succeeds, the third fails. -/
theorem Send_write_outcomes_witness :
    (sampleOneRow.Valid ∧ 1 ≤ sampleOneRow.width_ ∧ 1 ≤ sampleOneRow.rowsPerChunk) ∧
    ((∀ (i : Nat) (a : WriteCall), (sampleOneRow.Send sampleOutcomes 5).1.get? i = some a →
        a.result = sampleOutcomes i) ∧
      (∀ (i : Nat) (a : WriteCall), (sampleOneRow.Send sampleOutcomes 5).1.get? i = some a →
        a.result = WriteResult.again → i + 1 < 5 →
        ∃ b : WriteCall, (sampleOneRow.Send sampleOutcomes 5).1.get? (i + 1) = some b ∧
          b.send_h = a.send_h ∧ b.tile_offset = a.tile_offset ∧ b.iov0 = a.iov0 ∧
          b.iov1 = a.iov1) ∧
      (∀ (i : Nat) (a b : WriteCall), (sampleOneRow.Send sampleOutcomes 5).1.get? i = some a →
        (sampleOneRow.Send sampleOutcomes 5).1.get? (i + 1) = some b → a.result = WriteResult.again →
        b.send_h = a.send_h ∧ b.tile_offset = a.tile_offset ∧ b.iov0 = a.iov0 ∧
          b.iov1 = a.iov1) ∧
      ((sampleOneRow.Send sampleOutcomes 5).1.length ≤ 5 ∧
        ((sampleOneRow.Send sampleOutcomes 5).2 = SendStatus.outOfFuel →
          (sampleOneRow.Send sampleOutcomes 5).1.length = 5) ∧
        ((sampleOneRow.Send sampleOutcomes 5).2 = SendStatus.finished ∨
          (sampleOneRow.Send sampleOutcomes 5).2 = SendStatus.aborted ∨
          (sampleOneRow.Send sampleOutcomes 5).2 = SendStatus.outOfFuel)) ∧
      (∀ (i : Nat) (a : WriteCall), (sampleOneRow.Send sampleOutcomes 5).1.get? i = some a →
        a.result = WriteResult.again → (sampleOneRow.Send sampleOutcomes 5).1.length = i + 1 →
        (sampleOneRow.Send sampleOutcomes 5).2 = SendStatus.outOfFuel) ∧
      ((∀ i, sampleOutcomes i = WriteResult.again) → 1 ≤ sampleOneRow.height_ →
        (sampleOneRow.Send sampleOutcomes 5).1.length = 5 ∧
          (sampleOneRow.Send sampleOutcomes 5).2 = SendStatus.outOfFuel) ∧
      (∀ (i : Nat) (a : WriteCall), (sampleOneRow.Send sampleOutcomes 5).1.get? i = some a →
        a.result = WriteResult.error →
        (sampleOneRow.Send sampleOutcomes 5).1.length = i + 1 ∧
          (sampleOneRow.Send sampleOutcomes 5).2 = SendStatus.aborted) ∧
      ((sampleOneRow.Send sampleOutcomes 5).2 = SendStatus.aborted →
        ∃ a : WriteCall, (sampleOneRow.Send sampleOutcomes 5).1.getLast? = some a ∧
          a.result = WriteResult.error) ∧
      ((sampleOneRow.Send sampleOutcomes 5).1.filter (fun w => w.result = WriteResult.ok) <+:
        (sampleOneRow.Send allOk (sampleOneRow.chunkCount sampleOneRow.rowsPerChunk)).1) ∧
      (emitted (sampleOneRow.Send sampleOutcomes 5) <+:
        emitted (sampleOneRow.Send allOk (sampleOneRow.chunkCount sampleOneRow.rowsPerChunk))) ∧
      ((sampleOneRow.Send sampleOutcomes 5).2 = SendStatus.finished →
        (sampleOneRow.Send sampleOutcomes 5).1.filter (fun w => w.result = WriteResult.ok) =
          (sampleOneRow.Send allOk (sampleOneRow.chunkCount sampleOneRow.rowsPerChunk)).1) ∧
      (∀ enough : Nat, sampleOneRow.chunkCount sampleOneRow.rowsPerChunk ≤ enough →
        (sampleOneRow.Send allOk enough).2 = SendStatus.finished ∧
          (sampleOneRow.Send allOk enough).1.length = sampleOneRow.chunkCount sampleOneRow.rowsPerChunk ∧
          (0 ≤ sampleOneRow.height_ → ((sampleOneRow.chunkCount sampleOneRow.rowsPerChunk : Nat) : Int) =
            (sampleOneRow.height_ + sampleOneRow.rowsPerChunk - 1) / sampleOneRow.rowsPerChunk))) :=
  ⟨by decide, Send_write_outcomes sampleOneRow (by decide) (by decide) (by decide)
    sampleOutcomes 5⟩

end FlaschenTaschen
